import Mathlib

/-!
# Texture sampling and mip generation (`src/texture.cpp`)

A shallow embedding of `Texture::generate_mips`, the area filter it runs, and
`Texture::sample` with the per-level samplers.

Conventions of the embedding
* `int` and `size_t` values are mathematical integers (`Nat`, `Int`); signed
  overflow is undefined in C++ and is not modelled.
* `float` and `double` arithmetic is exact: the filter works in `ℚ`, the sampler
  in an arbitrary linearly ordered field `K` with a floor function, so that it
  runs in `ℚ` and can be instantiated with `ℝ` and the real `log2` and `sqrt`.
* An access `mipmap[i]` outside the vector and a conversion of a non-finite
  float to `int` are undefined behaviour; the embedding makes them a fault
  (`none`).
* Raw byte reads through `prevLevelMem + off` read `0` outside the buffer and
  raw writes outside the buffer are dropped; the offsets are the source's.
-/

namespace CGL

/-! ## Data model -/

/-- One level of the pyramid: `width`, `height` and the texel bytes
(`std::vector<unsigned char>`, three bytes per texel, row-major). -/
structure MipLevel where
  width : Nat
  height : Nat
  texels : List Nat
deriving DecidableEq, Repr

instance : Inhabited MipLevel := ⟨⟨0, 0, []⟩⟩

/-- What a call of `generate_mips` leaves behind: whether `"Invalid start level"`
was written to `std::cerr`, and the pyramid (`none` when the run hit undefined
behaviour). -/
structure GenOutcome where
  diagnostic : Bool
  mipmap : Option (List MipLevel)
deriving DecidableEq, Repr

/-! ## Byte and float conversion (`texture.cpp` 103-115) -/

/-- Read three bytes at `src + off` and scale them by `1/255`. -/
def uint8_to_float (src : List Nat) (off : Nat) : ℚ × ℚ × ℚ :=
  ((src.getD off 0 : ℚ) / 255, (src.getD (off + 1) 0 : ℚ) / 255, (src.getD (off + 2) 0 : ℚ) / 255)

/-- One channel of `float_to_uint8`: `(uint8_t)(255.f * max(0.0f, min(1.0f, x)))`;
the cast truncates, which is the floor of a non-negative value. -/
def channel_to_uint8 (x : ℚ) : Nat :=
  (Rat.floor (255 * max 0 (min 1 x))).toNat

/-- Write the three converted channels at `dst + off`. -/
def float_to_uint8 (dst : List Nat) (off : Nat) (src : ℚ × ℚ × ℚ) : List Nat :=
  ((dst.set off (channel_to_uint8 src.1)).set (off + 1) (channel_to_uint8 src.2.1)).set
    (off + 2) (channel_to_uint8 src.2.2)

/-! ## Filter parameters (`texture.cpp` 174-202) -/

/-- `wSupport`: 3 when the source width is odd, else 2. -/
def wSupport (prevWidth : Nat) : Nat := if prevWidth % 2 = 1 then 3 else 2

/-- `wDecimal`: `1.0f / currLevel.width` when the source width is odd, else `0`. -/
def wDecimal (prevWidth currWidth : Nat) : ℚ :=
  if prevWidth % 2 = 1 then 1 / (currWidth : ℚ) else 0

/-- `hSupport`: 3 when the source height is odd, else 2. -/
def hSupport (prevHeight : Nat) : Nat := if prevHeight % 2 = 1 then 3 else 2

/-- `hDecimal`: `1.0f / currLevel.height` when the source height is odd, else `0`. -/
def hDecimal (prevHeight currHeight : Nat) : ℚ :=
  if prevHeight % 2 = 1 then 1 / (currHeight : ℚ) else 0

/-- `wNorm = 1.0f / (2.0f + wDecimal)`. -/
def wNorm (prevWidth currWidth : Nat) : ℚ := 1 / (2 + wDecimal prevWidth currWidth)

/-- `hNorm = 1.0f / (2.0f + hDecimal)`. -/
def hNorm (prevHeight currHeight : Nat) : ℚ := 1 / (2 + hDecimal prevHeight currHeight)

/-- `wWeight[ii]` as set for output column `i`. -/
def wWeight (prevWidth currWidth i : Nat) : Nat → ℚ
  | 0 => wNorm prevWidth currWidth * (1 - wDecimal prevWidth currWidth * (i : ℚ))
  | 1 => wNorm prevWidth currWidth * 1
  | _ => wNorm prevWidth currWidth * wDecimal prevWidth currWidth * ((i : ℚ) + 1)

/-- `hWeight[jj]` as set for output row `j`. -/
def hWeight (prevHeight currHeight j : Nat) : Nat → ℚ
  | 0 => hNorm prevHeight currHeight * (1 - hDecimal prevHeight currHeight * (j : ℚ))
  | 1 => hNorm prevHeight currHeight
  | _ => hNorm prevHeight currHeight * hDecimal prevHeight currHeight * ((j : ℚ) + 1)

/-- `result[c] += weight * input[c]` on the three channels. -/
def accumulate (result : ℚ × ℚ × ℚ) (weight : ℚ) (input : ℚ × ℚ × ℚ) : ℚ × ℚ × ℚ :=
  (result.1 + weight * input.1, result.2.1 + weight * input.2.1,
    result.2.2 + weight * input.2.2)

/-! ## The three filter cases (`texture.cpp` 195-271) -/

/-- Case 1, reduction only in horizontal size: the loop over `i`, returning the
destination buffer. -/
def filter_horizontal (prev curr : MipLevel) : List Nat :=
  (List.range curr.width).foldl
    (fun currMem i =>
      let result := (List.range (wSupport prev.width)).foldl
        (fun r ii =>
          accumulate r (wWeight prev.width curr.width i ii)
            (uint8_to_float prev.texels (3 * (2 * i + ii))))
        (0, 0, 0)
      float_to_uint8 currMem (3 * i) result)
    curr.texels

/-- Case 2, reduction only in vertical size: the loop over `j`. -/
def filter_vertical (prev curr : MipLevel) : List Nat :=
  (List.range curr.height).foldl
    (fun currMem j =>
      let result := (List.range (hSupport prev.height)).foldl
        (fun r jj =>
          accumulate r (hWeight prev.height curr.height j jj)
            (uint8_to_float prev.texels (prev.width * 3 * (2 * j + jj))))
        (0, 0, 0)
      float_to_uint8 currMem (curr.width * 3 * j) result)
    curr.texels

/-- Case 3, reduction in both sizes: the loops over `j` and `i`, with the
`hSupport × wSupport` convolution inside. -/
def filter_both (prev curr : MipLevel) : List Nat :=
  (List.range curr.height).foldl
    (fun currMem j =>
      (List.range curr.width).foldl
        (fun currMem i =>
          let result := (List.range (hSupport prev.height)).foldl
            (fun r jj =>
              (List.range (wSupport prev.width)).foldl
                (fun r ii =>
                  accumulate r
                    (hWeight prev.height curr.height j jj * wWeight prev.width curr.width i ii)
                    (uint8_to_float prev.texels
                      (prev.width * 3 * (2 * j + jj) + 3 * (2 * i + ii))))
                r)
            (0, 0, 0)
          float_to_uint8 currMem (curr.width * 3 * j + 3 * i) result)
        currMem)
    curr.texels

/-- The body of the `create mips` loop for one `mipLevel`: filter
`mipmap[mipLevel - 1]` into `mipmap[mipLevel]`. -/
def filter_level (mipmap : List MipLevel) (mipLevel : Nat) : List MipLevel :=
  let prevLevel := mipmap.getD (mipLevel - 1) default
  let currLevel := mipmap.getD mipLevel default
  let mem :=
    if currLevel.height = prevLevel.height then filter_horizontal prevLevel currLevel
    else if currLevel.width = prevLevel.width then filter_vertical prevLevel currLevel
    else filter_both prevLevel currLevel
  mipmap.set mipLevel { currLevel with texels := mem }

/-! ## `Texture::generate_mips` (`texture.cpp` 117-273) -/

/-- The step `max(1, d / 2)` applied to `width` and `height` for each sublevel. -/
def halve (d : Nat) : Nat := max 1 (d / 2)

/-- `mipmap.resize(n)`: truncate, or pad with value-initialised levels. -/
def resize (mipmap : List MipLevel) (n : Nat) : List MipLevel :=
  mipmap.take n ++ List.replicate (n - mipmap.length) default

/-- One pass of the `allocate sublevels` loop body for index `i`; the state is
`(width, height, mipmap)`. -/
def alloc_step (startLevel : Nat) (s : Nat × Nat × List MipLevel) (i : Nat) :
    Nat × Nat × List MipLevel :=
  let width := halve s.1
  let height := halve s.2.1
  (width, height,
    s.2.2.set (startLevel + i) ⟨width, height, List.replicate (3 * width * height) 0⟩)

/-- `Texture::generate_mips(startLevel)` on the pyramid `mipmap`, with the header
constant `kMaxMipLevels` as a parameter. `log2f` followed by the cast to `int`
is the floor of the base-2 logarithm; at `max(baseWidth, baseHeight) = 0` the
logarithm is not finite and the cast is a fault. A negative `startLevel` converts
to a huge unsigned value in the comparison with `mipmap.size()` and indexes outside
the vector like any `startLevel ≥ mipmap.size()`, so `startLevel` is a `Nat`. -/
def generate_mips (kMaxMipLevels : Nat) (mipmap : List MipLevel) (startLevel : Nat) :
    GenOutcome :=
  let diagnostic := decide (startLevel ≥ mipmap.length)
  match mipmap[startLevel]? with
  | none => ⟨diagnostic, none⟩
  | some base =>
    let baseWidth := base.width
    let baseHeight := base.height
    if max baseWidth baseHeight = 0 then ⟨diagnostic, none⟩
    else
      let numSubLevels : Int :=
        min (Nat.log2 (max baseWidth baseHeight) : Int)
          ((kMaxMipLevels : Int) - (startLevel : Int) - 1)
      let mipmap := resize mipmap ((startLevel : Int) + numSubLevels + 1).toNat
      let allocated :=
        (List.range' 1 numSubLevels.toNat).foldl (alloc_step startLevel)
          (baseWidth, baseHeight, mipmap)
      let subLevels : Int := numSubLevels - ((startLevel : Int) + 1)
      let filtered :=
        (List.range' (startLevel + 1) subLevels.toNat).foldl filter_level allocated.2.2
      ⟨diagnostic, some filtered⟩

/-! ## The filter step, texel by texel

The same loops as `filter_horizontal`, `filter_vertical` and `filter_both`, split into
the output texels they visit, the source offsets and weights used for each, the
accumulated `result` and the destination offset, so that statements about offsets
and values can name them. -/

/-- The destination buffer after the conditional on the three filter cases. -/
def filter_output (prev curr : MipLevel) : List Nat :=
  if curr.height = prev.height then filter_horizontal prev curr
  else if curr.width = prev.width then filter_vertical prev curr
  else filter_both prev curr

/-- The output texels `(j, i)` the loops of the filter step visit, in order: `i` alone
in case 1 (`j = 0`), `j` alone in case 2 (`i = 0`), `j` then `i` in case 3. -/
def filter_texels (prev curr : MipLevel) : List (Nat × Nat) :=
  if curr.height = prev.height then (List.range curr.width).map fun i => (0, i)
  else if curr.width = prev.width then (List.range curr.height).map fun j => (j, 0)
  else (List.range curr.height).flatMap fun j => (List.range curr.width).map fun i => (j, i)

/-- For output texel `(j, i)`: the weight applied and the byte offset into
`prevLevelMem` passed to `uint8_to_float`, for each pass of the inner loops, in
order. -/
def filter_taps (prev curr : MipLevel) (j i : Nat) : List (ℚ × Nat) :=
  if curr.height = prev.height then
    (List.range (wSupport prev.width)).map fun ii =>
      (wWeight prev.width curr.width i ii, 3 * (2 * i + ii))
  else if curr.width = prev.width then
    (List.range (hSupport prev.height)).map fun jj =>
      (hWeight prev.height curr.height j jj, prev.width * 3 * (2 * j + jj))
  else
    (List.range (hSupport prev.height)).flatMap fun jj =>
      (List.range (wSupport prev.width)).map fun ii =>
        (hWeight prev.height curr.height j jj * wWeight prev.width curr.width i ii,
          prev.width * 3 * (2 * j + jj) + 3 * (2 * i + ii))

/-- For output texel `(j, i)`: the byte offset into `currLevelMem` passed to
`float_to_uint8`. -/
def filter_dest (prev curr : MipLevel) (j i : Nat) : Nat :=
  if curr.height = prev.height then 3 * i
  else if curr.width = prev.width then curr.width * 3 * j
  else curr.width * 3 * j + 3 * i

/-- For output texel `(j, i)`: the accumulated `result` handed to `float_to_uint8`. -/
def filter_result (prev curr : MipLevel) (j i : Nat) : ℚ × ℚ × ℚ :=
  (filter_taps prev curr j i).foldl
    (fun r t => accumulate r t.1 (uint8_to_float prev.texels t.2)) (0, 0, 0)

/-- Channel `c` (0, 1, 2) of a triple of channels. -/
def channel (v : ℚ × ℚ × ℚ) (c : Nat) : ℚ :=
  match c with
  | 0 => v.1
  | 1 => v.2.1
  | _ => v.2.2

/-- The pairs `(prevLevel, currLevel)` that the `create mips` loop binds as it runs
over the indices `levels`, starting from the pyramid `mipmap`. -/
def filter_steps : List MipLevel → List Nat → List (MipLevel × MipLevel)
  | _, [] => []
  | mipmap, mipLevel :: rest =>
    (mipmap.getD (mipLevel - 1) default, mipmap.getD mipLevel default) ::
      filter_steps (filter_level mipmap mipLevel) rest

/-- The pairs `(prevLevel, currLevel)` of the filter steps that
`generate_mips(startLevel)` executes, in order (none when the run faults). -/
def generate_mips_filter_steps (kMaxMipLevels : Nat) (mipmap : List MipLevel)
    (startLevel : Nat) : List (MipLevel × MipLevel) :=
  match mipmap[startLevel]? with
  | none => []
  | some base =>
    let baseWidth := base.width
    let baseHeight := base.height
    if max baseWidth baseHeight = 0 then []
    else
      let numSubLevels : Int :=
        min (Nat.log2 (max baseWidth baseHeight) : Int)
          ((kMaxMipLevels : Int) - (startLevel : Int) - 1)
      let mipmap := resize mipmap ((startLevel : Int) + numSubLevels + 1).toNat
      let allocated :=
        (List.range' 1 numSubLevels.toNat).foldl (alloc_step startLevel)
          (baseWidth, baseHeight, mipmap)
      let subLevels : Int := numSubLevels - ((startLevel : Int) + 1)
      filter_steps allocated.2.2 (List.range' (startLevel + 1) subLevels.toNat)

/-! ## Area overlaps (specification side) -/

/-- Specification side: the length of the overlap of the intervals `[a, b]` and
`[c, d]`. -/
def overlap_length (a b c d : ℚ) : ℚ := max 0 (min b d - max a c)

/-- Specification side: along an axis reduced from `p` source samples to `n` output
samples, the length of the overlap of output cell `i`, `[i * p / n, (i + 1) * p / n]`,
with source cell `k`, `[k, k + 1]`, divided by the length `p / n` of the output
cell. -/
def area_weight (p n i k : Nat) : ℚ :=
  overlap_length ((i : ℚ) * (p : ℚ) / (n : ℚ)) (((i : ℚ) + 1) * (p : ℚ) / (n : ℚ)) (k : ℚ)
    ((k : ℚ) + 1) / ((p : ℚ) / (n : ℚ))

/-! ## Sampling: data (`texture.h`, `CGL/vector2D.h`, `CGL/color.h`) -/

/-- `PixelSampleMethod`. -/
inductive PixelSampleMethod where
  | P_NEAREST
  | P_LINEAR
deriving DecidableEq, Repr

/-- `LevelSampleMethod`. -/
inductive LevelSampleMethod where
  | L_ZERO
  | L_NEAREST
  | L_LINEAR
deriving DecidableEq, Repr

/-- `Vector2D`: a pair of reals. -/
@[ext]
structure Vector2D (K : Type) where
  x : K
  y : K
deriving DecidableEq, Repr

/-- `Color`: three real channels. -/
@[ext]
structure Color (K : Type) where
  r : K
  g : K
  b : K
deriving DecidableEq, Repr

/-- `SampleParams`. -/
structure SampleParams (K : Type) where
  p_uv : Vector2D K
  p_dx_uv : Vector2D K
  p_dy_uv : Vector2D K
  psm : PixelSampleMethod
  lsm : LevelSampleMethod

/-- The members of `Texture` the sampler reads: `width`, `height` and `mipmap`. -/
structure Texture where
  width : Nat
  height : Nat
  mipmap : List MipLevel
deriving DecidableEq, Repr

/-- The `<cmath>` functions on reals that the sampler calls and an ordered field
does not provide: `sqrt` (inside `Vector2D::norm`) and `log2`. -/
structure CMath (K : Type) where
  sqrt : K → K
  log2 : K → K

section Sampling

variable {K : Type} [LinearOrderedField K] [FloorRing K]

instance : Add (Vector2D K) := ⟨fun a b => ⟨a.x + b.x, a.y + b.y⟩⟩

instance : Sub (Vector2D K) := ⟨fun a b => ⟨a.x - b.x, a.y - b.y⟩⟩

instance : Add (Color K) := ⟨fun a b => ⟨a.r + b.r, a.g + b.g, a.b + b.b⟩⟩

instance : Sub (Color K) := ⟨fun a b => ⟨a.r - b.r, a.g - b.g, a.b - b.b⟩⟩

instance : HMul (Color K) K (Color K) := ⟨fun a s => ⟨a.r * s, a.g * s, a.b * s⟩⟩

instance : HDiv (Color K) K (Color K) := ⟨fun a s => ⟨a.r / s, a.g / s, a.b / s⟩⟩

/-- Modelled from the spec: `Vector2D::norm` of `CGL/vector2D.h`, which is not
among the sources; the Euclidean length, through the `sqrt` of `<cmath>`. -/
def Vector2D.norm (M : CMath K) (v : Vector2D K) : K := M.sqrt (v.x * v.x + v.y * v.y)

/-- The `<cmath>` function `round` followed by the conversion to `int`: to the nearest
integer, halfway cases away from zero. -/
def cround (x : K) : Int := if 0 ≤ x then ⌊x + 1 / 2⌋ else ⌈x - 1 / 2⌉

/-- Modelled from the spec: `MipLevel::get_texel` of `texture.h`, which is not among
the sources; the texel in column `tx` of row `ty` of the row-major buffer of three
bytes per texel, each byte scaled by `1/255`. A texel outside the level or the
buffer is a fault. -/
def MipLevel.get_texel (ml : MipLevel) (tx ty : Int) : Option (Color K) :=
  if 0 ≤ tx ∧ tx < ml.width ∧ 0 ≤ ty ∧ ty < ml.height then
    match ml.texels[3 * (ty.toNat * ml.width + tx.toNat)]?,
      ml.texels[3 * (ty.toNat * ml.width + tx.toNat) + 1]?,
      ml.texels[3 * (ty.toNat * ml.width + tx.toNat) + 2]? with
    | some r, some g, some b => some ⟨(r : K) / 255, (g : K) / 255, (b : K) / 255⟩
    | _, _, _ => none
  else none

/-! ## Sampling: `texture.cpp` 9-95 -/

/-- `Texture::get_level`. -/
def Texture.get_level (M : CMath K) (t : Texture) (sp : SampleParams K) : K :=
  let dx := sp.p_dx_uv - sp.p_uv
  let scaled_dx : Vector2D K := ⟨dx.x * (t.width : K), dx.y * (t.height : K)⟩
  let dy := sp.p_dy_uv - sp.p_uv
  let scaled_dy : Vector2D K := ⟨dy.x * (t.width : K), dy.y * (t.height : K)⟩
  let l := max (scaled_dx.norm M) (scaled_dy.norm M)
  M.log2 l

/-- `Texture::sample_nearest`; `mipmap[level]` outside the pyramid is a fault. -/
def Texture.sample_nearest (t : Texture) (uv : Vector2D K) (level : Int) : Option (Color K) :=
  if level < 0 then none
  else
    match t.mipmap[level.toNat]? with
    | none => none
    | some ml =>
      let round_x := cround (uv.x * (t.width : K) / (2 : K) ^ level)
      let round_y := cround (uv.y * (t.height : K) / (2 : K) ^ level)
      ml.get_texel round_x round_y

/-- `Texture::bounce`. -/
def Texture.bounce (t : Texture) (vec : Vector2D K) (level : Int) : Vector2D K :=
  let bounced_x := min (max vec.x (1 / 2)) ((t.width : K) / (2 : K) ^ level - 1 / 2)
  let bounced_y := min (max vec.y (1 / 2)) ((t.height : K) / (2 : K) ^ level - 1 / 2)
  ⟨bounced_x, bounced_y⟩

/-- `Texture::linear_interpolate`; the division is guarded: a zero divisor is a
fault. -/
def linear_interpolate (M : CMath K) (c1 c2 : Color K) (p1 p2 x : Vector2D K) :
    Option (Color K) :=
  if p1 = p2 then some c1
  else if (p2 - p1).norm M = 0 then none
  else some (c1 + (c2 - c1) * (x - p1).norm M / (p2 - p1).norm M)

/-- `Texture::sample_bilinear`. -/
def Texture.sample_bilinear (M : CMath K) (t : Texture) (uv : Vector2D K) (level : Int) :
    Option (Color K) :=
  if level < 0 then none
  else
    match t.mipmap[level.toNat]? with
    | none => none
    | some ml =>
      let scaled_uv : Vector2D K :=
        ⟨uv.x * (t.width : K) / (2 : K) ^ level, uv.y * (t.height : K) / (2 : K) ^ level⟩
      let round_ru : Vector2D K :=
        ⟨(cround (uv.x * (t.width : K) / (2 : K) ^ level) : K),
          (cround (uv.y * (t.height : K) / (2 : K) ^ level) : K)⟩
      let lu := t.bounce (round_ru + ⟨-(1 / 2), 1 / 2⟩) level
      let rl := t.bounce (round_ru + ⟨1 / 2, -(1 / 2)⟩) level
      let ll := t.bounce (round_ru + ⟨-(1 / 2), -(1 / 2)⟩) level
      let ru := t.bounce (round_ru + ⟨1 / 2, 1 / 2⟩) level
      (ml.get_texel ⌊lu.x⌋ ⌊lu.y⌋).bind fun left_upper =>
      (ml.get_texel ⌊ru.x⌋ ⌊ru.y⌋).bind fun right_upper =>
      (ml.get_texel ⌊ll.x⌋ ⌊ll.y⌋).bind fun left_lower =>
      (ml.get_texel ⌊rl.x⌋ ⌊rl.y⌋).bind fun right_lower =>
      (linear_interpolate M left_upper right_upper lu ru ⟨scaled_uv.x, lu.y⟩).bind
        fun upper_lerp =>
      (linear_interpolate M left_lower right_lower ll rl ⟨scaled_uv.x, rl.y⟩).bind
        fun lower_lerp =>
      linear_interpolate M lower_lerp upper_lerp ⟨scaled_uv.x, rl.y⟩ ⟨scaled_uv.x, lu.y⟩
        scaled_uv

/-- `Texture::sample_level`. -/
def Texture.sample_level (M : CMath K) (t : Texture) (uv : Vector2D K) (level : Int)
    (method : PixelSampleMethod) : Option (Color K) :=
  match method with
  | .P_NEAREST => t.sample_nearest uv level
  | .P_LINEAR => t.sample_bilinear M uv level

/-- `Texture::sample`; the division by `level2 - level1` is guarded: a zero divisor
is a fault. -/
def Texture.sample (M : CMath K) (t : Texture) (sp : SampleParams K) : Option (Color K) :=
  match sp.lsm with
  | .L_ZERO => t.sample_level M sp.p_uv 0 sp.psm
  | .L_NEAREST =>
    let level : Int := cround (t.get_level M sp)
    t.sample_level M sp.p_uv level sp.psm
  | .L_LINEAR =>
    let level : K := t.get_level M sp
    let level1 : Int := ⌊level⌋
    let level2 : Int := ⌈level⌉
    (t.sample_level M sp.p_uv level1 sp.psm).bind fun c1 =>
    (t.sample_level M sp.p_uv level2 sp.psm).bind fun c2 =>
    if ((level2 - level1 : Int) : K) = 0 then none
    else some (c1 + (c2 - c1) * (level - (level1 : K)) / ((level2 - level1 : Int) : K))

/-- The `level` arguments of the calls of `sample_level` that `Texture::sample`
makes, in the order of the calls. -/
def Texture.sample_level_indices (M : CMath K) (t : Texture) (sp : SampleParams K) :
    List Int :=
  match sp.lsm with
  | .L_ZERO => [0]
  | .L_NEAREST => [cround (t.get_level M sp)]
  | .L_LINEAR => [⌊t.get_level M sp⌋, ⌈t.get_level M sp⌉]

/-- The texel index `(round_x, round_y)` that `Texture::sample_nearest` passes to
`get_texel`. -/
def Texture.nearest_texel_coord (t : Texture) (uv : Vector2D K) (level : Int) : Int × Int :=
  (cround (uv.x * (t.width : K) / (2 : K) ^ level),
    cround (uv.y * (t.height : K) / (2 : K) ^ level))

/-- The bounced corner points `(lu, ru, ll, rl)` of `Texture::sample_bilinear`. -/
def Texture.bilinear_points (t : Texture) (uv : Vector2D K) (level : Int) :
    Vector2D K × Vector2D K × Vector2D K × Vector2D K :=
  let round_ru : Vector2D K :=
    ⟨(cround (uv.x * (t.width : K) / (2 : K) ^ level) : K),
      (cround (uv.y * (t.height : K) / (2 : K) ^ level) : K)⟩
  (t.bounce (round_ru + ⟨-(1 / 2), 1 / 2⟩) level,
    t.bounce (round_ru + ⟨1 / 2, 1 / 2⟩) level,
    t.bounce (round_ru + ⟨-(1 / 2), -(1 / 2)⟩) level,
    t.bounce (round_ru + ⟨1 / 2, -(1 / 2)⟩) level)

/-- The texel coordinates `(floor(p.x), floor(p.y))` that `Texture::sample_bilinear`
passes to `get_texel`, in the order of the calls: `left_upper`, `right_upper`,
`left_lower`, `right_lower`. -/
def Texture.bilinear_texel_coords (t : Texture) (uv : Vector2D K) (level : Int) :
    List (Int × Int) :=
  let p := t.bilinear_points uv level
  [(⌊p.1.x⌋, ⌊p.1.y⌋), (⌊p.2.1.x⌋, ⌊p.2.1.y⌋), (⌊p.2.2.1.x⌋, ⌊p.2.2.1.y⌋),
    (⌊p.2.2.2.x⌋, ⌊p.2.2.2.y⌋)]

end Sampling

/-! ## Lemmas on halving -/

theorem one_le_halve (d : Nat) : 1 ≤ halve d := le_max_left _ _

theorem one_le_halve_iterate (k d : Nat) (hd : 1 ≤ d) : 1 ≤ halve^[k] d := by
  induction k with
  | zero => simpa using hd
  | succ k _ => rw [Function.iterate_succ_apply']; exact one_le_halve _

theorem halve_iterate_eq (k d : Nat) (hd : 1 ≤ d) : halve^[k] d = max 1 (d / 2 ^ k) := by
  induction k with
  | zero => simp [Nat.max_eq_right hd]
  | succ k ih =>
    rw [Function.iterate_succ_apply', ih, halve, pow_succ, ← Nat.div_div_eq_div_mul]
    generalize d / 2 ^ k = x
    omega

theorem halve_iterate_eq_one_iff (k d : Nat) (hd : 1 ≤ d) :
    halve^[k] d = 1 ↔ d < 2 ^ (k + 1) := by
  rw [halve_iterate_eq k d hd]
  have h : d / 2 ^ k < 2 ↔ d < 2 * 2 ^ k := Nat.div_lt_iff_lt_mul (by positivity)
  rw [pow_succ, Nat.mul_comm]
  generalize d / 2 ^ k = x at h
  omega

/-- Both extents are 1 after `k` halvings exactly when `k` is at least the floor
of the base-2 logarithm of the larger one. -/
theorem halve_both_one_iff (k w h : Nat) (hw : 1 ≤ w) (hh : 1 ≤ h) :
    (halve^[k] w = 1 ∧ halve^[k] h = 1) ↔ Nat.log2 (max w h) ≤ k := by
  rw [halve_iterate_eq_one_iff k w hw, halve_iterate_eq_one_iff k h hh, ← Nat.lt_succ_iff,
    Nat.log2_lt (by omega)]
  constructor
  · rintro ⟨h1, h2⟩
    exact max_lt h1 h2
  · intro h1
    exact ⟨lt_of_le_of_lt (le_max_left _ _) h1, lt_of_le_of_lt (le_max_right _ _) h1⟩

/-! ## Lemmas on the filter: the buffers keep their length -/

theorem length_float_to_uint8 (dst : List Nat) (off : Nat) (src : ℚ × ℚ × ℚ) :
    (float_to_uint8 dst off src).length = dst.length := by
  simp [float_to_uint8]

theorem length_foldl_of_step {α : Type} (f : List Nat → α → List Nat)
    (hf : ∀ m a, (f m a).length = m.length) (l : List α) (m : List Nat) :
    (l.foldl f m).length = m.length := by
  induction l generalizing m with
  | nil => rfl
  | cons a l ih => rw [List.foldl_cons, ih, hf]

theorem length_filter_horizontal (prev curr : MipLevel) :
    (filter_horizontal prev curr).length = curr.texels.length := by
  unfold filter_horizontal
  exact length_foldl_of_step _ (fun _ _ => length_float_to_uint8 _ _ _) _ _

theorem length_filter_vertical (prev curr : MipLevel) :
    (filter_vertical prev curr).length = curr.texels.length := by
  unfold filter_vertical
  exact length_foldl_of_step _ (fun _ _ => length_float_to_uint8 _ _ _) _ _

theorem length_filter_both (prev curr : MipLevel) :
    (filter_both prev curr).length = curr.texels.length := by
  unfold filter_both
  exact length_foldl_of_step _
    (fun _ _ => length_foldl_of_step _ (fun _ _ => length_float_to_uint8 _ _ _) _ _) _ _

theorem length_filter_level (m : List MipLevel) (l : Nat) :
    (filter_level m l).length = m.length := by
  simp [filter_level]

theorem getElem?_filter_level_ne (m : List MipLevel) (l j : Nat) (h : j ≠ l) :
    (filter_level m l)[j]? = m[j]? := by
  unfold filter_level
  exact List.getElem?_set_ne (Ne.symm h)

theorem getElem?_filter_level_shape (m : List MipLevel) (l j : Nat) (c : MipLevel)
    (hc : m[j]? = some c) :
    ∃ c', (filter_level m l)[j]? = some c' ∧ c'.width = c.width ∧ c'.height = c.height ∧
      c'.texels.length = c.texels.length := by
  by_cases hjl : j = l
  · subst hjl
    have hlt : j < m.length := (List.getElem?_eq_some.1 hc).1
    have hget : m.getD j default = c := by simp [List.getD_eq_getElem?_getD, hc]
    refine ⟨_, by unfold filter_level; exact List.getElem?_set_self hlt, ?_, ?_, ?_⟩
    · simp only [hget]
    · simp only [hget]
    · simp only [hget]
      split_ifs
      · exact length_filter_horizontal _ _
      · exact length_filter_vertical _ _
      · exact length_filter_both _ _
  · exact ⟨c, by rw [getElem?_filter_level_ne m l j hjl, hc], rfl, rfl, rfl⟩

theorem filter_fold_spec (ls : List Nat) (m : List MipLevel) :
    (ls.foldl filter_level m).length = m.length ∧
    (∀ j, (∀ l ∈ ls, j ≠ l) → (ls.foldl filter_level m)[j]? = m[j]?) ∧
    (∀ (j : Nat) (c : MipLevel), m[j]? = some c →
      ∃ c' : MipLevel, (ls.foldl filter_level m)[j]? = some c' ∧
      c'.width = c.width ∧ c'.height = c.height ∧ c'.texels.length = c.texels.length) := by
  induction ls generalizing m with
  | nil => exact ⟨rfl, fun _ _ => rfl, fun j c hc => ⟨c, hc, rfl, rfl, rfl⟩⟩
  | cons a ls ih =>
    obtain ⟨h1, h2, h3⟩ := ih (filter_level m a)
    refine ⟨by rw [List.foldl_cons, h1, length_filter_level], ?_, ?_⟩
    · intro j hj
      rw [List.foldl_cons, h2 j (fun l hl => hj l (List.mem_cons_of_mem _ hl)),
        getElem?_filter_level_ne m a j (hj a (List.mem_cons_self _ _))]
    · intro j c hc
      obtain ⟨c1, hc1, e1, e2, e3⟩ := getElem?_filter_level_shape m a j c hc
      obtain ⟨c2, hc2, f1, f2, f3⟩ := h3 j c1 hc1
      exact ⟨c2, by rw [List.foldl_cons]; exact hc2, f1.trans e1, f2.trans e2, f3.trans e3⟩

/-! ## Lemmas on the allocation loop -/

theorem length_resize (m : List MipLevel) (n : Nat) : (resize m n).length = n := by
  simp [resize]
  omega

theorem getElem?_resize (m : List MipLevel) (n j : Nat) (hj : j < n) (hm : j < m.length) :
    (resize m n)[j]? = m[j]? := by
  unfold resize
  rw [List.getElem?_append_left (by simp; omega), List.getElem?_take_of_lt hj]

theorem alloc_fold_spec (s w h : Nat) (m : List MipLevel) (k : Nat) (hk : s + k < m.length) :
    ((List.range' 1 k).foldl (alloc_step s) (w, h, m)).1 = halve^[k] w ∧
    ((List.range' 1 k).foldl (alloc_step s) (w, h, m)).2.1 = halve^[k] h ∧
    ((List.range' 1 k).foldl (alloc_step s) (w, h, m)).2.2.length = m.length ∧
    (∀ j, j ≤ s → ((List.range' 1 k).foldl (alloc_step s) (w, h, m)).2.2[j]? = m[j]?) ∧
    (∀ i, 1 ≤ i → i ≤ k →
      ((List.range' 1 k).foldl (alloc_step s) (w, h, m)).2.2[s + i]? =
        some ⟨halve^[i] w, halve^[i] h, List.replicate (3 * halve^[i] w * halve^[i] h) 0⟩) := by
  induction k with
  | zero =>
    refine ⟨rfl, rfl, rfl, fun _ _ => rfl, ?_⟩
    intro i h1 h0
    omega
  | succ k ih =>
    obtain ⟨h1, h2, h3, h4, h5⟩ := ih (by omega)
    rw [List.range'_concat, List.foldl_append, List.foldl_cons, List.foldl_nil]
    generalize (List.range' 1 k).foldl (alloc_step s) (w, h, m) = r at h1 h2 h3 h4 h5
    simp only [alloc_step, Function.iterate_succ_apply', h1, h2, List.length_set, h3, true_and]
    refine ⟨?_, ?_⟩
    · intro j hj
      rw [List.getElem?_set_ne (by omega), h4 j hj]
    · intro i hi1 hi2
      by_cases hik : i = k + 1
      · subst hik
        rw [show s + (1 + 1 * k) = s + (k + 1) by omega, List.getElem?_set_self (by omega),
          Function.iterate_succ_apply', Function.iterate_succ_apply']
      · rw [List.getElem?_set_ne (by omega), h5 i hi1 (by omega)]

/-! ## What `generate_mips` returns -/

/-- Within the cap (`startLevel + 1 ≤ kMaxMipLevels`): the run completes, the
pyramid has `startLevel + 1 + numSubLevels` levels, the levels up to `startLevel`
are those of the input, sublevel `i` has the `i` times halved extents and a
buffer of three bytes per texel, and a sublevel whose index is not below
`numSubLevels` is left as allocated (the filter loop runs for
`startLevel < mipLevel < numSubLevels`). -/
theorem generate_mips_spec (kMax : Nat) (mipmap : List MipLevel) (s : Nat) (base : MipLevel)
    (hb : mipmap[s]? = some base) (hpos : max base.width base.height ≠ 0)
    (hcap : s + 1 ≤ kMax) :
    ∃ p : List MipLevel, generate_mips kMax mipmap s = ⟨false, some p⟩ ∧
      p.length = s + 1 + min (Nat.log2 (max base.width base.height)) (kMax - s - 1) ∧
      (∀ j, j ≤ s → p[j]? = mipmap[j]?) ∧
      (∀ i, 1 ≤ i → i ≤ min (Nat.log2 (max base.width base.height)) (kMax - s - 1) →
        ∃ c : MipLevel, p[s + i]? = some c ∧ c.width = halve^[i] base.width ∧
          c.height = halve^[i] base.height ∧ c.texels.length = 3 * c.width * c.height) ∧
      (∀ i, 1 ≤ i → i ≤ min (Nat.log2 (max base.width base.height)) (kMax - s - 1) →
        min (Nat.log2 (max base.width base.height)) (kMax - s - 1) ≤ s + i →
        p[s + i]? = some ⟨halve^[i] base.width, halve^[i] base.height,
          List.replicate (3 * halve^[i] base.width * halve^[i] base.height) 0⟩) := by
  have hlt : s < mipmap.length := (List.getElem?_eq_some.1 hb).1
  have hdiag : decide (s ≥ mipmap.length) = false := by simp; omega
  generalize hn : min (Nat.log2 (max base.width base.height)) (kMax - s - 1) = n
  have hnum : min ((Nat.log2 (max base.width base.height) : Nat) : Int)
      ((kMax : Int) - (s : Int) - 1) = (n : Int) := by omega
  have e1 : ((s : Int) + (n : Int) + 1).toNat = s + n + 1 := by omega
  have e2 : ((n : Int)).toNat = n := by omega
  have e3 : ((n : Int) - ((s : Int) + 1)).toNat = n - (s + 1) := by omega
  unfold generate_mips
  simp only [hb, hpos, if_false, hnum, hdiag, e1, e2, e3]
  obtain ⟨_, _, a3, a4, a5⟩ := alloc_fold_spec s base.width base.height
    (resize mipmap (s + n + 1)) n (by rw [length_resize]; omega)
  obtain ⟨f1, f2, f3⟩ := filter_fold_spec (List.range' (s + 1) (n - (s + 1)))
    ((List.range' 1 n).foldl (alloc_step s)
      (base.width, base.height, resize mipmap (s + n + 1))).2.2
  refine ⟨_, rfl, ?_, ?_, ?_, ?_⟩
  · rw [f1, a3, length_resize]; omega
  · intro j hj
    rw [f2 j (by intro l hl; have := List.mem_range'_1.1 hl; omega), a4 j hj,
      getElem?_resize _ _ _ (by omega) (by omega)]
  · intro i hi1 hi2
    obtain ⟨c', hc', d1, d2, d3⟩ := f3 (s + i) _ (a5 i hi1 hi2)
    exact ⟨c', hc', d1, d2, by rw [d3, d1, d2]; simp⟩
  · intro i hi1 hi2 hi3
    rw [f2 (s + i) (by intro l hl; have := List.mem_range'_1.1 hl; omega), a5 i hi1 hi2]

/-- Beyond the cap (`kMaxMipLevels ≤ startLevel`): `numSubLevels` is negative and
the `resize` truncates the pyramid to `kMaxMipLevels` levels. -/
theorem generate_mips_beyond_cap (kMax : Nat) (mipmap : List MipLevel) (s : Nat)
    (base : MipLevel) (hb : mipmap[s]? = some base)
    (hpos : max base.width base.height ≠ 0) (hcap : kMax ≤ s) :
    generate_mips kMax mipmap s = ⟨false, some (mipmap.take kMax)⟩ := by
  have hlt : s < mipmap.length := (List.getElem?_eq_some.1 hb).1
  have hdiag : decide (s ≥ mipmap.length) = false := by simp; omega
  have hnum : min ((Nat.log2 (max base.width base.height) : Nat) : Int)
      ((kMax : Int) - (s : Int) - 1) = (kMax : Int) - (s : Int) - 1 := by omega
  have e1 : ((s : Int) + ((kMax : Int) - (s : Int) - 1) + 1).toNat = kMax := by omega
  have e2 : ((kMax : Int) - (s : Int) - 1).toNat = 0 := by omega
  have e3 : ((kMax : Int) - (s : Int) - 1 - ((s : Int) + 1)).toNat = 0 := by omega
  have e4 : kMax - mipmap.length = 0 := by omega
  unfold generate_mips
  simp [hb, hpos, hnum, hdiag, e1, e2, e3, resize, e4]

/-! ## Lemmas on the filter weights -/

theorem wWeight_sum (pw cw i : Nat) :
    ((List.range (wSupport pw)).map (wWeight pw cw i)).sum = 1 := by
  by_cases hp : pw % 2 = 1
  · have hs : wSupport pw = 3 := by simp [wSupport, hp]
    have hdec : wDecimal pw cw = 1 / (cw : ℚ) := by simp [wDecimal, hp]
    have hd : (2 : ℚ) + 1 / (cw : ℚ) ≠ 0 := by positivity
    rw [hs, show List.range 3 = [0, 1, 2] from rfl]
    simp only [List.map_cons, List.map_nil, List.sum_cons, List.sum_nil]
    show wNorm pw cw * (1 - wDecimal pw cw * (i : ℚ)) + (wNorm pw cw * 1 +
      (wNorm pw cw * wDecimal pw cw * ((i : ℚ) + 1) + 0)) = 1
    rw [wNorm, hdec]
    generalize (1 / (cw : ℚ)) = d at hd ⊢
    field_simp
    ring
  · have hs : wSupport pw = 2 := by simp [wSupport, hp]
    have hdec : wDecimal pw cw = 0 := by simp [wDecimal, hp]
    rw [hs, show List.range 2 = [0, 1] from rfl]
    simp only [List.map_cons, List.map_nil, List.sum_cons, List.sum_nil]
    show wNorm pw cw * (1 - wDecimal pw cw * (i : ℚ)) + (wNorm pw cw * 1 + 0) = 1
    rw [wNorm, hdec]
    norm_num

theorem hWeight_sum (ph ch j : Nat) :
    ((List.range (hSupport ph)).map (hWeight ph ch j)).sum = 1 := by
  by_cases hp : ph % 2 = 1
  · have hs : hSupport ph = 3 := by simp [hSupport, hp]
    have hdec : hDecimal ph ch = 1 / (ch : ℚ) := by simp [hDecimal, hp]
    have hd : (2 : ℚ) + 1 / (ch : ℚ) ≠ 0 := by positivity
    rw [hs, show List.range 3 = [0, 1, 2] from rfl]
    simp only [List.map_cons, List.map_nil, List.sum_cons, List.sum_nil]
    show hNorm ph ch * (1 - hDecimal ph ch * (j : ℚ)) + (hNorm ph ch +
      (hNorm ph ch * hDecimal ph ch * ((j : ℚ) + 1) + 0)) = 1
    rw [hNorm, hdec]
    generalize (1 / (ch : ℚ)) = d at hd ⊢
    field_simp
    ring
  · have hs : hSupport ph = 2 := by simp [hSupport, hp]
    have hdec : hDecimal ph ch = 0 := by simp [hDecimal, hp]
    rw [hs, show List.range 2 = [0, 1] from rfl]
    simp only [List.map_cons, List.map_nil, List.sum_cons, List.sum_nil]
    show hNorm ph ch * (1 - hDecimal ph ch * (j : ℚ)) + (hNorm ph ch + 0) = 1
    rw [hNorm, hdec]
    norm_num

theorem sum_map_mul_left_rat (l : List Nat) (f : Nat → ℚ) (a : ℚ) :
    (l.map (fun x => a * f x)).sum = a * (l.map f).sum := by
  induction l with
  | nil => simp
  | cons x l ih => simp [ih, mul_add]

/-! ## Claims on `generate_mips` -/

/-- C1, evaluated at the 4×4 base of (128,128,128) with `kMaxMipLevels = 14`:
`generate_mips(0)` filters level 1 (2×2, all 128) but leaves level 2 (1×1) as
allocated, (0,0,0): the filter loop stops one level short of the levels
allocated. -/
theorem generate_mips_gray_4x4 :
    generate_mips 14 [⟨4, 4, List.replicate 48 128⟩] 0 =
      ⟨false, some [⟨4, 4, List.replicate 48 128⟩, ⟨2, 2, List.replicate 12 128⟩,
        ⟨1, 1, [0, 0, 0]⟩]⟩ := by
  decide!

/-- C2: on an existing start level with extents at least 1, `generate_mips`
completes, and every level `m > startLevel` of the resulting pyramid has width
`max 1 (width (m-1) / 2)`, height `max 1 (height (m-1) / 2)`, both at least 1, and
a texel array of length `3 * width * height`. -/
theorem generate_mips_dimensions (kMax : Nat) (mipmap : List MipLevel) (s : Nat)
    (base : MipLevel) (hb : mipmap[s]? = some base) (hw : 1 ≤ base.width)
    (hh : 1 ≤ base.height) :
    ∃ p : List MipLevel, generate_mips kMax mipmap s = ⟨false, some p⟩ ∧
      ∀ m, s < m → m < p.length →
        ∃ prev cur : MipLevel, p[m - 1]? = some prev ∧ p[m]? = some cur ∧
          cur.width = max 1 (prev.width / 2) ∧ cur.height = max 1 (prev.height / 2) ∧
          1 ≤ cur.width ∧ 1 ≤ cur.height ∧
          cur.texels.length = 3 * cur.width * cur.height := by
  have hpos : max base.width base.height ≠ 0 := by omega
  by_cases hcap : s + 1 ≤ kMax
  · obtain ⟨p, hp, hlen, hframe, hsub, _⟩ := generate_mips_spec kMax mipmap s base hb hpos hcap
    refine ⟨p, hp, ?_⟩
    intro m hm1 hm2
    obtain ⟨i, rfl⟩ : ∃ i, m = s + (i + 1) := ⟨m - s - 1, by omega⟩
    obtain ⟨cur, hcur, cw, ch, cl⟩ := hsub (i + 1) (by omega) (by omega)
    have hprev : ∃ prev : MipLevel, p[s + (i + 1) - 1]? = some prev ∧
        prev.width = halve^[i] base.width ∧ prev.height = halve^[i] base.height := by
      rw [show s + (i + 1) - 1 = s + i by omega]
      rcases Nat.eq_zero_or_pos i with h0 | h0
      · subst h0
        exact ⟨base, by rw [Nat.add_zero, hframe s le_rfl, hb], rfl, rfl⟩
      · obtain ⟨c, hc, e1, e2, _⟩ := hsub i h0 (by omega)
        exact ⟨c, hc, e1, e2⟩
    obtain ⟨prev, hprev, pw, ph⟩ := hprev
    refine ⟨prev, cur, hprev, hcur, ?_, ?_, ?_, ?_, cl⟩
    · rw [cw, pw, Function.iterate_succ_apply']; rfl
    · rw [ch, ph, Function.iterate_succ_apply']; rfl
    · rw [cw, Function.iterate_succ_apply']; exact one_le_halve _
    · rw [ch, Function.iterate_succ_apply']; exact one_le_halve _
  · refine ⟨mipmap.take kMax,
      generate_mips_beyond_cap kMax mipmap s base hb hpos (by omega), ?_⟩
    intro m hm1 hm2
    rw [List.length_take] at hm2
    omega

/-- C2, at a 5×3 base level: the run completes and levels 1 and 2 satisfy the
dimension rule. -/
theorem generate_mips_dimensions_witness :
    ∃ p : List MipLevel, generate_mips 14 [⟨5, 3, List.range 45⟩] 0 = ⟨false, some p⟩ ∧
      ∀ m, 0 < m → m < p.length →
        ∃ prev cur : MipLevel, p[m - 1]? = some prev ∧ p[m]? = some cur ∧
          cur.width = max 1 (prev.width / 2) ∧ cur.height = max 1 (prev.height / 2) ∧
          1 ≤ cur.width ∧ 1 ≤ cur.height ∧
          cur.texels.length = 3 * cur.width * cur.height :=
  generate_mips_dimensions 14 [⟨5, 3, List.range 45⟩] 0 ⟨5, 3, List.range 45⟩ rfl
    (by decide) (by decide)

/-- C3: for an existing start level within the cap and with extents at least 1, the
pyramid after `generate_mips` has `startLevel + 1 + min k (kMaxMipLevels - startLevel - 1)`
levels, `k` being the least number of halvings that brings both extents to 1; its
length is at most `kMaxMipLevels`; and when the cap is not hit the last level is 1×1
and no generated level before it is. -/
theorem generate_mips_level_count (kMax : Nat) (mipmap : List MipLevel) (s : Nat)
    (base : MipLevel) (hb : mipmap[s]? = some base) (hcap : s + 1 ≤ kMax)
    (hw : 1 ≤ base.width) (hh : 1 ≤ base.height) :
    ∃ (k : Nat) (p : List MipLevel),
      IsLeast {k | halve^[k] base.width = 1 ∧ halve^[k] base.height = 1} k ∧
      generate_mips kMax mipmap s = ⟨false, some p⟩ ∧
      p.length = s + 1 + min k (kMax - s - 1) ∧
      p.length ≤ kMax ∧
      (k ≤ kMax - s - 1 →
        (∃ last : MipLevel, p[p.length - 1]? = some last ∧ last.width = 1 ∧ last.height = 1) ∧
        ∀ (i : Nat) (c : MipLevel), 1 ≤ i → s + i < p.length - 1 → p[s + i]? = some c →
          ¬(c.width = 1 ∧ c.height = 1)) := by
  have hpos : max base.width base.height ≠ 0 := by omega
  obtain ⟨p, hp, hlen, hframe, hsub, _⟩ := generate_mips_spec kMax mipmap s base hb hpos hcap
  have hiff := fun k => halve_both_one_iff k base.width base.height hw hh
  refine ⟨Nat.log2 (max base.width base.height), p, ⟨(hiff _).2 le_rfl, fun k hk => (hiff k).1 hk⟩,
    hp, hlen, by omega, ?_⟩
  intro hk
  rw [Nat.min_eq_left hk] at hlen hsub
  refine ⟨?_, ?_⟩
  · rw [show p.length - 1 = s + Nat.log2 (max base.width base.height) by omega]
    rcases Nat.eq_zero_or_pos (Nat.log2 (max base.width base.height)) with h0 | h0
    · have h1 := (hiff 0).2 (by omega)
      exact ⟨base, by rw [h0, Nat.add_zero, hframe s le_rfl, hb], h1.1, h1.2⟩
    · obtain ⟨c, hc, e1, e2, _⟩ := hsub _ h0 le_rfl
      have h1 := (hiff (Nat.log2 (max base.width base.height))).2 le_rfl
      exact ⟨c, hc, e1.trans h1.1, e2.trans h1.2⟩
  · intro i c hi1 hi2 hc hone
    obtain ⟨c', hc', e1, e2, _⟩ := hsub i hi1 (by omega)
    have hcc : c' = c := Option.some.inj (hc'.symm.trans hc)
    subst hcc
    have := (hiff i).1 ⟨e1 ▸ hone.1, e2 ▸ hone.2⟩
    omega

/-- C3, at a 5×3 base level with `kMaxMipLevels = 14`. -/
theorem generate_mips_level_count_witness :
    ∃ (k : Nat) (p : List MipLevel),
      IsLeast {k | halve^[k] 5 = 1 ∧ halve^[k] 3 = 1} k ∧
      generate_mips 14 [⟨5, 3, List.range 45⟩] 0 = ⟨false, some p⟩ ∧
      p.length = 0 + 1 + min k (14 - 0 - 1) ∧
      p.length ≤ 14 ∧
      (k ≤ 14 - 0 - 1 →
        (∃ last : MipLevel, p[p.length - 1]? = some last ∧ last.width = 1 ∧ last.height = 1) ∧
        ∀ (i : Nat) (c : MipLevel), 1 ≤ i → 0 + i < p.length - 1 → p[0 + i]? = some c →
          ¬(c.width = 1 ∧ c.height = 1)) :=
  generate_mips_level_count 14 [⟨5, 3, List.range 45⟩] 0 ⟨5, 3, List.range 45⟩ rfl
    (by decide) (by decide) (by decide)

/-- C4, at a 3×3 base level with `kMaxMipLevels = 14`: `generate_mips(0)` creates one
sublevel and the first 1×1 level has index 1, while `ceil(log2 3) = 2`. -/
theorem generate_mips_3x3_one_sublevel :
    ∃ p : List MipLevel,
      generate_mips 14 [⟨3, 3, List.replicate 27 0⟩] 0 = ⟨false, some p⟩ ∧
      p.length - 1 = 1 ∧ p[1]? = some ⟨1, 1, [0, 0, 0]⟩ ∧ halve^[1] 3 = 1 ∧
      Nat.clog 2 (max 3 3) = 2 :=
  ⟨[⟨3, 3, List.replicate 27 0⟩, ⟨1, 1, [0, 0, 0]⟩], by decide!, by decide, by decide,
    by decide, by decide!⟩

/-- C4 as amended: for a base level with extents at least 1 and the cap not reached,
`generate_mips(0)` creates exactly `floor(log2(max w h))` sublevels; the level of
that index is 1×1 and no level before it is; and halving reaches 1×1 in exactly that
many steps. -/
theorem generate_mips_zero_sublevels (kMax : Nat) (mipmap : List MipLevel)
    (base : MipLevel) (hb : mipmap[0]? = some base) (hw : 1 ≤ base.width)
    (hh : 1 ≤ base.height) (hcap : Nat.log 2 (max base.width base.height) + 1 ≤ kMax) :
    ∃ p : List MipLevel, generate_mips kMax mipmap 0 = ⟨false, some p⟩ ∧
      p.length = 1 + Nat.log 2 (max base.width base.height) ∧
      (∃ c : MipLevel, p[Nat.log 2 (max base.width base.height)]? = some c ∧
        c.width = 1 ∧ c.height = 1) ∧
      (∀ (i : Nat) (c : MipLevel), i < Nat.log 2 (max base.width base.height) →
        p[i]? = some c → ¬(c.width = 1 ∧ c.height = 1)) ∧
      IsLeast {k | halve^[k] base.width = 1 ∧ halve^[k] base.height = 1}
        (Nat.log 2 (max base.width base.height)) := by
  have hpos : max base.width base.height ≠ 0 := by omega
  obtain ⟨p, hp, hlen, hframe, hsub, _⟩ :=
    generate_mips_spec kMax mipmap 0 base hb hpos (by omega)
  have hiff := fun k => halve_both_one_iff k base.width base.height hw hh
  rw [Nat.log2_eq_log_two] at hlen hsub hiff
  rw [Nat.min_eq_left (by omega)] at hlen hsub
  refine ⟨p, hp, by omega, ?_, ?_, ⟨(hiff _).2 le_rfl, fun k hk => (hiff k).1 hk⟩⟩
  · rcases Nat.eq_zero_or_pos (Nat.log 2 (max base.width base.height)) with h0 | h0
    · have h1 := (hiff 0).2 (by omega)
      exact ⟨base, by rw [h0, hframe 0 le_rfl, hb], h1.1, h1.2⟩
    · obtain ⟨c, hc, e1, e2, _⟩ := hsub _ h0 le_rfl
      have h1 := (hiff (Nat.log 2 (max base.width base.height))).2 le_rfl
      exact ⟨c, by rw [← hc, Nat.zero_add], e1.trans h1.1, e2.trans h1.2⟩
  · intro i c hi hc hone
    rcases Nat.eq_zero_or_pos i with h0 | h0
    · subst h0
      rw [hframe 0 le_rfl, hb] at hc
      have hcc : base = c := Option.some.inj hc
      subst hcc
      have := (hiff 0).1 hone
      omega
    · obtain ⟨c', hc', e1, e2, _⟩ := hsub i h0 (by omega)
      rw [Nat.zero_add] at hc'
      have hcc : c' = c := Option.some.inj (hc'.symm.trans hc)
      subst hcc
      have := (hiff i).1 ⟨e1 ▸ hone.1, e2 ▸ hone.2⟩
      omega

/-- C4 as amended, at a 5×3 base level with `kMaxMipLevels = 14`. -/
theorem generate_mips_zero_sublevels_witness :
    ∃ p : List MipLevel, generate_mips 14 [⟨5, 3, List.range 45⟩] 0 = ⟨false, some p⟩ ∧
      p.length = 1 + Nat.log 2 (max 5 3) ∧
      (∃ c : MipLevel, p[Nat.log 2 (max 5 3)]? = some c ∧ c.width = 1 ∧ c.height = 1) ∧
      (∀ (i : Nat) (c : MipLevel), i < Nat.log 2 (max 5 3) →
        p[i]? = some c → ¬(c.width = 1 ∧ c.height = 1)) ∧
      IsLeast {k | halve^[k] 5 = 1 ∧ halve^[k] 3 = 1} (Nat.log 2 (max 5 3)) :=
  generate_mips_zero_sublevels 14 [⟨5, 3, List.range 45⟩] ⟨5, 3, List.range 45⟩ rfl
    (by decide) (by decide) (by decide!)

/-- C5, evaluated at a one-level pyramid and `startLevel = 1` (`kMaxMipLevels = 14`):
the diagnostic is written, but the run goes on to index `mipmap[1]`, which does not
exist. -/
theorem generate_mips_invalid_start_level :
    generate_mips 14 [⟨1, 1, [7, 7, 7]⟩] 1 = ⟨true, none⟩ := by
  decide

/-- Outside the pyramid invariant `length ≤ kMaxMipLevels`, at a pyramid of 16 levels
with `kMaxMipLevels = 14` and `startLevel = 15`: the `resize` truncates the pyramid to
14 levels, so the start level is gone. -/
theorem generate_mips_truncates_beyond_cap :
    ∃ p : List MipLevel,
      generate_mips 14 (List.replicate 16 ⟨1, 1, [9, 9, 9]⟩) 15 = ⟨false, some p⟩ ∧
      p.length = 14 ∧ p[15]? = none ∧
      (List.replicate 16 (⟨1, 1, [9, 9, 9]⟩ : MipLevel))[15]? = some ⟨1, 1, [9, 9, 9]⟩ :=
  ⟨List.replicate 14 ⟨1, 1, [9, 9, 9]⟩, by decide!, by decide, by decide, by decide⟩

/-- For an existing start level within the cap (`startLevel + 1 ≤ kMaxMipLevels`) and
with extents at least 1, `generate_mips` completes and every level `0..startLevel` is
still present with the same width, height and texel bytes. -/
theorem generate_mips_keeps_levels (kMax : Nat) (mipmap : List MipLevel) (s : Nat)
    (base : MipLevel) (hb : mipmap[s]? = some base) (hcap : s + 1 ≤ kMax)
    (hw : 1 ≤ base.width) (hh : 1 ≤ base.height) :
    ∃ p : List MipLevel, generate_mips kMax mipmap s = ⟨false, some p⟩ ∧
      ∀ j, j ≤ s → ∃ lvl : MipLevel, mipmap[j]? = some lvl ∧ p[j]? = some lvl := by
  have hpos : max base.width base.height ≠ 0 := by omega
  have hlt : s < mipmap.length := (List.getElem?_eq_some.1 hb).1
  obtain ⟨p, hp, _, hframe, _, _⟩ := generate_mips_spec kMax mipmap s base hb hpos hcap
  refine ⟨p, hp, ?_⟩
  intro j hj
  have hjl : j < mipmap.length := by omega
  exact ⟨mipmap[j], List.getElem?_eq_getElem hjl, by rw [hframe j hj, List.getElem?_eq_getElem hjl]⟩

/-- The frame property at a two-level pyramid and `startLevel = 1`
(`kMaxMipLevels = 14`). -/
theorem generate_mips_keeps_levels_witness :
    ∃ p : List MipLevel,
      generate_mips 14 [⟨4, 4, List.replicate 48 128⟩, ⟨16, 1, List.replicate 48 77⟩] 1 =
        ⟨false, some p⟩ ∧
      ∀ j, j ≤ 1 → ∃ lvl : MipLevel,
        [(⟨4, 4, List.replicate 48 128⟩ : MipLevel), ⟨16, 1, List.replicate 48 77⟩][j]? =
          some lvl ∧ p[j]? = some lvl :=
  generate_mips_keeps_levels 14 [⟨4, 4, List.replicate 48 128⟩, ⟨16, 1, List.replicate 48 77⟩]
    1 ⟨16, 1, List.replicate 48 77⟩ rfl (by decide) (by decide) (by decide)

/-- C6: for every pyramid that respects the pyramid invariant
`length ≤ kMaxMipLevels` and every `startLevel` below the pyramid size whose level has
extents that are not both 0 (the `MipLevel` invariant makes both at least 1),
`generate_mips(startLevel)` completes without the diagnostic and every level
`0..startLevel` is still present with the same width, height and texel bytes as before
the call. -/
theorem generate_mips_base_unmodified (kMax : Nat) (mipmap : List MipLevel) (s : Nat)
    (base : MipLevel) (hb : mipmap[s]? = some base) (hlen : mipmap.length ≤ kMax)
    (hpos : 0 < max base.width base.height) :
    ∃ p : List MipLevel, generate_mips kMax mipmap s = ⟨false, some p⟩ ∧
      ∀ j, j ≤ s → ∃ lvl : MipLevel, mipmap[j]? = some lvl ∧ p[j]? = some lvl := by
  have hlt : s < mipmap.length := (List.getElem?_eq_some.1 hb).1
  obtain ⟨p, hp, _, hframe, _, _⟩ :=
    generate_mips_spec kMax mipmap s base hb (by omega) (by omega)
  refine ⟨p, hp, ?_⟩
  intro j hj
  have hjl : j < mipmap.length := by omega
  exact ⟨mipmap[j], List.getElem?_eq_getElem hjl,
    by rw [hframe j hj, List.getElem?_eq_getElem hjl]⟩

theorem generate_mips_base_unmodified_witness :
    ([(⟨8, 2, List.replicate 48 31⟩ : MipLevel), ⟨3, 5, List.replicate 45 77⟩][1]? =
        some ⟨3, 5, List.replicate 45 77⟩ ∧
      [(⟨8, 2, List.replicate 48 31⟩ : MipLevel), ⟨3, 5, List.replicate 45 77⟩].length ≤ 14 ∧
      0 < max 3 5) ∧
    ∃ p : List MipLevel,
      generate_mips 14 [⟨8, 2, List.replicate 48 31⟩, ⟨3, 5, List.replicate 45 77⟩] 1 =
        ⟨false, some p⟩ ∧
      ∀ j, j ≤ 1 → ∃ lvl : MipLevel,
        [(⟨8, 2, List.replicate 48 31⟩ : MipLevel), ⟨3, 5, List.replicate 45 77⟩][j]? =
          some lvl ∧ p[j]? = some lvl :=
  ⟨⟨rfl, by decide, by decide⟩,
    generate_mips_base_unmodified 14
      [⟨8, 2, List.replicate 48 31⟩, ⟨3, 5, List.replicate 45 77⟩] 1
      ⟨3, 5, List.replicate 45 77⟩ rfl (by decide) (by decide)⟩

/-- C7: for every source extent (even or odd), output extent and output texel, the
weights applied over the iterated support sum to 1: `wWeight[ii]` over
`ii < wSupport` (horizontal case), `hWeight[jj]` over `jj < hSupport` (vertical case)
and `hWeight[jj] * wWeight[ii]` over both (two-axis case). -/
theorem filter_weights_sum_one (pw ph cw ch i j : Nat) :
    ((List.range (wSupport pw)).map (wWeight pw cw i)).sum = 1 ∧
    ((List.range (hSupport ph)).map (hWeight ph ch j)).sum = 1 ∧
    ((List.range (hSupport ph)).map (fun jj =>
      ((List.range (wSupport pw)).map
        (fun ii => hWeight ph ch j jj * wWeight pw cw i ii)).sum)).sum = 1 := by
  refine ⟨wWeight_sum pw cw i, hWeight_sum ph ch j, ?_⟩
  have h : ∀ jj, ((List.range (wSupport pw)).map
      (fun ii => hWeight ph ch j jj * wWeight pw cw i ii)).sum = hWeight ph ch j jj := by
    intro jj
    rw [sum_map_mul_left_rat, wWeight_sum, mul_one]
  simp only [h]
  exact hWeight_sum ph ch j

/-! ## Lemmas on the sampler -/

section SamplingLemmas

variable {K : Type} [LinearOrderedField K] [FloorRing K]

theorem cround_intCast (n : Int) : cround (n : K) = n := by
  unfold cround
  split_ifs with h
  · rw [Int.floor_eq_iff]
    constructor <;> linarith
  · rw [Int.ceil_eq_iff]
    constructor <;> linarith

theorem cround_zero : cround (0 : K) = 0 := by
  have h := cround_intCast (K := K) 0
  rwa [Int.cast_zero] at h

theorem zero_le_cround (x : K) (hx : 0 ≤ x) : 0 ≤ cround x := by
  unfold cround
  rw [if_pos hx]
  exact Int.floor_nonneg.2 (by linarith)

theorem cround_le_of_le_intCast (x : K) (n : Int) (hx : x ≤ (n : K)) : cround x ≤ n := by
  unfold cround
  split_ifs with h
  · have h1 : ⌊x + 1 / 2⌋ < n + 1 := by
      rw [Int.floor_lt]
      push_cast
      linarith
    omega
  · exact Int.ceil_le.2 (by linarith)

/-- With the level-linear policy and an integer level of detail, `level2 - level1`
is `0` and the guarded division faults. -/
theorem sample_linear_integer_level (M : CMath K) (t : Texture) (sp : SampleParams K)
    (hl : sp.lsm = .L_LINEAR) (hint : ((⌊t.get_level M sp⌋ : Int) : K) = t.get_level M sp) :
    t.sample M sp = none := by
  have hc : ⌈t.get_level M sp⌉ = ⌊t.get_level M sp⌋ := by
    rw [← hint, Int.ceil_intCast, Int.floor_intCast]
  unfold Texture.sample
  simp only [hl, hc, sub_self, Int.cast_zero, if_true]
  cases t.sample_level M sp.p_uv ⌊t.get_level M sp⌋ sp.psm <;> rfl

theorem sample_nearest_origin (t : Texture) (level : Nat) (ml : MipLevel)
    (h : t.mipmap[level]? = some ml) :
    t.sample_nearest (⟨0, 0⟩ : Vector2D K) (level : Int) = ml.get_texel 0 0 := by
  unfold Texture.sample_nearest
  simp [h, cround_zero]

end SamplingLemmas

theorem real_norm_x (a : ℝ) (ha : 0 ≤ a) :
    Vector2D.norm (⟨Real.sqrt, Real.logb 2⟩ : CMath ℝ) ⟨a, 0⟩ = a := by
  simp [Vector2D.norm, Real.sqrt_mul_self ha]

theorem real_norm_y (a : ℝ) (ha : 0 ≤ a) :
    Vector2D.norm (⟨Real.sqrt, Real.logb 2⟩ : CMath ℝ) ⟨0, a⟩ = a := by
  simp [Vector2D.norm, Real.sqrt_mul_self ha]

/-- A footprint of half a texel along each axis of a 2×2 texture: the level of
detail is `log2 (1/2) = -1`. -/
theorem get_level_half_texel (psm : PixelSampleMethod) (lsm : LevelSampleMethod) :
    Texture.get_level (⟨Real.sqrt, Real.logb 2⟩ : CMath ℝ)
      ⟨2, 2, [⟨2, 2, List.replicate 12 200⟩, ⟨1, 1, [100, 100, 100]⟩]⟩
      ⟨⟨0, 0⟩, ⟨1 / 4, 0⟩, ⟨0, 1 / 4⟩, psm, lsm⟩ = -1 := by
  simp only [Texture.get_level, show ∀ a b : Vector2D ℝ, a - b = ⟨a.x - b.x, a.y - b.y⟩
    from fun _ _ => rfl]
  norm_num
  rw [real_norm_x _ (by norm_num), real_norm_y _ (by norm_num)]
  simp

/-- A footprint of one texel along each axis of a 2×2 texture: the level of detail
is `log2 1 = 0`. -/
theorem get_level_one_texel (psm : PixelSampleMethod) (lsm : LevelSampleMethod) :
    Texture.get_level (⟨Real.sqrt, Real.logb 2⟩ : CMath ℝ)
      ⟨2, 2, [⟨2, 2, List.replicate 12 200⟩, ⟨1, 1, [100, 100, 100]⟩]⟩
      ⟨⟨0, 0⟩, ⟨1 / 2, 0⟩, ⟨0, 1 / 2⟩, psm, lsm⟩ = 0 := by
  simp only [Texture.get_level, show ∀ a b : Vector2D ℝ, a - b = ⟨a.x - b.x, a.y - b.y⟩
    from fun _ _ => rfl]
  norm_num
  rw [real_norm_x _ (by norm_num), real_norm_y _ (by norm_num)]
  simp

/-- A footprint of one texel along the diagonal of a 2×2 texture: the level of
detail is `log2 (sqrt 2) = 1/2`. -/
theorem get_level_diagonal (psm : PixelSampleMethod) (lsm : LevelSampleMethod) :
    Texture.get_level (⟨Real.sqrt, Real.logb 2⟩ : CMath ℝ)
      ⟨2, 2, [⟨2, 2, List.replicate 12 200⟩, ⟨1, 1, [100, 100, 100]⟩]⟩
      ⟨⟨0, 0⟩, ⟨1 / 2, 1 / 2⟩, ⟨0, 0⟩, psm, lsm⟩ = 1 / 2 := by
  simp only [Texture.get_level, show ∀ a b : Vector2D ℝ, a - b = ⟨a.x - b.x, a.y - b.y⟩
    from fun _ _ => rfl, Vector2D.norm]
  norm_num
  rw [Real.sqrt_eq_rpow, Real.logb_rpow (by norm_num) (by norm_num)]

theorem color_add_def {K : Type} [LinearOrderedField K] (a b : Color K) :
    a + b = ⟨a.r + b.r, a.g + b.g, a.b + b.b⟩ := rfl

theorem color_sub_def {K : Type} [LinearOrderedField K] (a b : Color K) :
    a - b = ⟨a.r - b.r, a.g - b.g, a.b - b.b⟩ := rfl

theorem color_mul_def {K : Type} [LinearOrderedField K] (a : Color K) (s : K) :
    a * s = ⟨a.r * s, a.g * s, a.b * s⟩ := rfl

theorem color_div_def {K : Type} [LinearOrderedField K] (a : Color K) (s : K) :
    a / s = ⟨a.r / s, a.g / s, a.b / s⟩ := rfl

theorem color_blend_div_one {K : Type} [LinearOrderedField K] (c1 c2 : Color K) (a : K) :
    c1 + (c2 - c1) * a / (1 : K) = c1 + (c2 - c1) * a := by
  simp only [color_add_def, color_sub_def, color_mul_def, color_div_def, div_one]

theorem color_blend_convex {K : Type} [LinearOrderedField K] (c1 c2 : Color K) (a : K) :
    c1 + (c2 - c1) * a = c1 * (1 - a) + c2 * a := by
  simp only [color_add_def, color_sub_def, color_mul_def]
  congr 1 <;> ring

theorem ceil_eq_floor_add_one {K : Type} [LinearOrderedField K] [FloorRing K] (x : K)
    (hx : ((⌊x⌋ : Int) : K) ≠ x) : ⌈x⌉ = ⌊x⌋ + 1 := by
  rw [Int.ceil_eq_iff]
  push_cast
  constructor
  · have := lt_of_le_of_ne (Int.floor_le x) hx
    linarith
  · exact le_of_lt (Int.lt_floor_add_one x)

/-! ## Claims on `Texture::sample` -/

/-- C8, at a 2×2 texture with its two levels, level-nearest policy and a footprint
of half a texel (real `sqrt` and `log2`): the level of detail is `-1`, `round` gives
`-1`, the index passed to `sample_level` is outside `[0, 1]` and the lookup
`mipmap[-1]` fails. -/
theorem sample_level_index_below_range :
    Texture.sample_level_indices (⟨Real.sqrt, Real.logb 2⟩ : CMath ℝ)
        ⟨2, 2, [⟨2, 2, List.replicate 12 200⟩, ⟨1, 1, [100, 100, 100]⟩]⟩
        ⟨⟨0, 0⟩, ⟨1 / 4, 0⟩, ⟨0, 1 / 4⟩, .P_NEAREST, .L_NEAREST⟩ = [-1] ∧
      ¬ (0 ≤ (-1 : Int) ∧ (-1 : Int) ≤ 2 - 1) ∧
      Texture.sample (⟨Real.sqrt, Real.logb 2⟩ : CMath ℝ)
        ⟨2, 2, [⟨2, 2, List.replicate 12 200⟩, ⟨1, 1, [100, 100, 100]⟩]⟩
        ⟨⟨0, 0⟩, ⟨1 / 4, 0⟩, ⟨0, 1 / 4⟩, .P_NEAREST, .L_NEAREST⟩ = none := by
  have hr : cround (-1 : ℝ) = -1 := by
    have h := cround_intCast (K := ℝ) (-1)
    simpa using h
  refine ⟨?_, by decide, ?_⟩
  · simp only [Texture.sample_level_indices, get_level_half_texel, hr]
  · simp only [Texture.sample, get_level_half_texel, hr, Texture.sample_level,
      Texture.sample_nearest]
    simp

/-- C8 as amended: when the level of detail `L = get_level(sp)` satisfies
`0 ≤ L ≤ size - 1`, every level index that `sample` passes to `sample_level`
(`0`, `round L`, `floor L`, `ceil L`) lies in `[0, size - 1]` and the lookup
`mipmap[level]` succeeds. -/
theorem sample_level_indices_in_range {K : Type} [LinearOrderedField K] [FloorRing K]
    (M : CMath K) (t : Texture) (sp : SampleParams K)
    (h0 : 0 ≤ t.get_level M sp) (h1 : t.get_level M sp ≤ (t.mipmap.length : K) - 1) :
    ∀ i ∈ t.sample_level_indices M sp,
      0 ≤ i ∧ i ≤ (t.mipmap.length : Int) - 1 ∧ ∃ ml, t.mipmap[i.toNat]? = some ml := by
  have hcast : (t.mipmap.length : K) - 1 = (((t.mipmap.length : Int) - 1 : Int) : K) := by
    push_cast
    rfl
  rw [hcast] at h1
  have hlen : (0 : Int) ≤ (t.mipmap.length : Int) - 1 := by
    have : (0 : K) ≤ (((t.mipmap.length : Int) - 1 : Int) : K) := le_trans h0 h1
    exact_mod_cast this
  have key : ∀ i : Int, 0 ≤ i → i ≤ (t.mipmap.length : Int) - 1 →
      0 ≤ i ∧ i ≤ (t.mipmap.length : Int) - 1 ∧ ∃ ml, t.mipmap[i.toNat]? = some ml := by
    intro i hi0 hi1
    have hlt : i.toNat < t.mipmap.length := by omega
    exact ⟨hi0, hi1, t.mipmap[i.toNat], List.getElem?_eq_getElem hlt⟩
  intro i hi
  unfold Texture.sample_level_indices at hi
  cases hlsm : sp.lsm with
  | L_ZERO =>
    simp only [hlsm, List.mem_singleton] at hi
    subst hi
    exact key 0 le_rfl hlen
  | L_NEAREST =>
    simp only [hlsm, List.mem_singleton] at hi
    subst hi
    exact key _ (zero_le_cround _ h0) (cround_le_of_le_intCast _ _ h1)
  | L_LINEAR =>
    simp only [hlsm, List.mem_cons, List.mem_singleton, List.not_mem_nil, or_false] at hi
    rcases hi with hi | hi
    · subst hi
      exact key _ (Int.floor_nonneg.2 h0) (le_trans (Int.floor_le_ceil _) (Int.ceil_le.2 h1))
    · subst hi
      exact key _ (le_trans (Int.floor_nonneg.2 h0) (Int.floor_le_ceil _)) (Int.ceil_le.2 h1)

/-- C8 as amended, at a 2×2 texture with its two levels, level-linear policy and a
footprint of one texel along the diagonal (`L = 1/2`, real `sqrt` and `log2`). -/
theorem sample_level_indices_in_range_witness :
    Texture.get_level (⟨Real.sqrt, Real.logb 2⟩ : CMath ℝ)
        ⟨2, 2, [⟨2, 2, List.replicate 12 200⟩, ⟨1, 1, [100, 100, 100]⟩]⟩
        ⟨⟨0, 0⟩, ⟨1 / 2, 1 / 2⟩, ⟨0, 0⟩, .P_NEAREST, .L_LINEAR⟩ = 1 / 2 ∧
      ∀ i ∈ Texture.sample_level_indices (⟨Real.sqrt, Real.logb 2⟩ : CMath ℝ)
          ⟨2, 2, [⟨2, 2, List.replicate 12 200⟩, ⟨1, 1, [100, 100, 100]⟩]⟩
          ⟨⟨0, 0⟩, ⟨1 / 2, 1 / 2⟩, ⟨0, 0⟩, .P_NEAREST, .L_LINEAR⟩,
        0 ≤ i ∧ i ≤ ((2 : Nat) : Int) - 1 ∧
          ∃ ml, [(⟨2, 2, List.replicate 12 200⟩ : MipLevel),
            ⟨1, 1, [100, 100, 100]⟩][i.toNat]? = some ml :=
  ⟨get_level_diagonal _ _,
    sample_level_indices_in_range (⟨Real.sqrt, Real.logb 2⟩ : CMath ℝ)
      ⟨2, 2, [⟨2, 2, List.replicate 12 200⟩, ⟨1, 1, [100, 100, 100]⟩]⟩
      ⟨⟨0, 0⟩, ⟨1 / 2, 1 / 2⟩, ⟨0, 0⟩, .P_NEAREST, .L_LINEAR⟩
      (by rw [get_level_diagonal]; norm_num)
      (by rw [get_level_diagonal]; norm_num)⟩

/-- C9, at a 2×2 texture with its two levels and a footprint of exactly one texel
(`L = log2 1 = 0`, real `sqrt` and `log2`): with the level-nearest policy `sample`
returns the texel colour of level 0, with the level-linear policy it divides
`0` by `level2 - level1 = 0`. -/
theorem sample_linear_divides_by_zero :
    Texture.sample (⟨Real.sqrt, Real.logb 2⟩ : CMath ℝ)
        ⟨2, 2, [⟨2, 2, List.replicate 12 200⟩, ⟨1, 1, [100, 100, 100]⟩]⟩
        ⟨⟨0, 0⟩, ⟨1 / 2, 0⟩, ⟨0, 1 / 2⟩, .P_NEAREST, .L_NEAREST⟩ =
        some ⟨200 / 255, 200 / 255, 200 / 255⟩ ∧
      Texture.sample (⟨Real.sqrt, Real.logb 2⟩ : CMath ℝ)
        ⟨2, 2, [⟨2, 2, List.replicate 12 200⟩, ⟨1, 1, [100, 100, 100]⟩]⟩
        ⟨⟨0, 0⟩, ⟨1 / 2, 0⟩, ⟨0, 1 / 2⟩, .P_NEAREST, .L_LINEAR⟩ = none := by
  refine ⟨?_, ?_⟩
  · simp only [Texture.sample, get_level_one_texel, cround_zero, Texture.sample_level]
    rw [show (0 : Int) = ((0 : Nat) : Int) from rfl,
      sample_nearest_origin ⟨2, 2, [⟨2, 2, List.replicate 12 200⟩, ⟨1, 1, [100, 100, 100]⟩]⟩ 0
        ⟨2, 2, List.replicate 12 200⟩ rfl]
    simp [MipLevel.get_texel]
  · exact sample_linear_integer_level _ _ _ rfl (by rw [get_level_one_texel]; simp)

/-- C10: with the level-linear policy, a level of detail `L` that is not an integer
and both `sample_level` calls returning colours `c_lo` (at `floor L`) and `c_hi` (at
`ceil L`), `sample` returns `c_lo + (c_hi - c_lo) * (L - floor L)`; the weight is the
fractional part of `L`, strictly between 0 and 1, and the result is the convex
combination `(1 - t) * c_lo + t * c_hi`. -/
theorem sample_linear_blend {K : Type} [LinearOrderedField K] [FloorRing K]
    (M : CMath K) (t : Texture) (sp : SampleParams K) (c_lo c_hi : Color K)
    (hl : sp.lsm = .L_LINEAR)
    (hni : ((⌊t.get_level M sp⌋ : Int) : K) ≠ t.get_level M sp)
    (hlo : t.sample_level M sp.p_uv ⌊t.get_level M sp⌋ sp.psm = some c_lo)
    (hhi : t.sample_level M sp.p_uv ⌈t.get_level M sp⌉ sp.psm = some c_hi) :
    t.sample M sp =
        some (c_lo + (c_hi - c_lo) * (t.get_level M sp - ((⌊t.get_level M sp⌋ : Int) : K))) ∧
      t.get_level M sp - ((⌊t.get_level M sp⌋ : Int) : K) = Int.fract (t.get_level M sp) ∧
      0 < Int.fract (t.get_level M sp) ∧ Int.fract (t.get_level M sp) < 1 ∧
      c_lo + (c_hi - c_lo) * Int.fract (t.get_level M sp) =
        c_lo * (1 - Int.fract (t.get_level M sp)) + c_hi * Int.fract (t.get_level M sp) := by
  refine ⟨?_, rfl, Int.fract_pos.2 (Ne.symm hni), Int.fract_lt_one _, color_blend_convex _ _ _⟩
  have hd : ⌈t.get_level M sp⌉ - ⌊t.get_level M sp⌋ = 1 := by
    rw [ceil_eq_floor_add_one _ hni]
    omega
  unfold Texture.sample
  simp only [hl, hlo, hhi, Option.some_bind, hd, Int.cast_one, one_ne_zero, if_false,
    color_blend_div_one]

/-- C10, at a 2×2 texture with its two levels (level 0 all 200, level 1 all 100) and
a footprint of one texel along the diagonal (`L = 1/2`, real `sqrt` and `log2`):
the blend of the two levels with weight `1/2`. -/
theorem sample_linear_blend_witness :
    Texture.sample (⟨Real.sqrt, Real.logb 2⟩ : CMath ℝ)
        ⟨2, 2, [⟨2, 2, List.replicate 12 200⟩, ⟨1, 1, [100, 100, 100]⟩]⟩
        ⟨⟨0, 0⟩, ⟨1 / 2, 1 / 2⟩, ⟨0, 0⟩, .P_NEAREST, .L_LINEAR⟩ =
      some ((⟨200 / 255, 200 / 255, 200 / 255⟩ : Color ℝ) +
        ((⟨100 / 255, 100 / 255, 100 / 255⟩ : Color ℝ) - ⟨200 / 255, 200 / 255, 200 / 255⟩) *
          ((1 : ℝ) / 2 - ((0 : Int) : ℝ))) ∧
      (0 : ℝ) < Int.fract ((1 : ℝ) / 2) ∧ Int.fract ((1 : ℝ) / 2) < 1 := by
  have hL := get_level_diagonal .P_NEAREST .L_LINEAR
  have hfloor : ⌊(1 : ℝ) / 2⌋ = 0 := by
    rw [Int.floor_eq_iff]
    norm_num
  have hceil : ⌈(1 : ℝ) / 2⌉ = 1 := by
    rw [Int.ceil_eq_iff]
    norm_num
  have h := sample_linear_blend (⟨Real.sqrt, Real.logb 2⟩ : CMath ℝ)
    ⟨2, 2, [⟨2, 2, List.replicate 12 200⟩, ⟨1, 1, [100, 100, 100]⟩]⟩
    ⟨⟨0, 0⟩, ⟨1 / 2, 1 / 2⟩, ⟨0, 0⟩, .P_NEAREST, .L_LINEAR⟩
    ⟨200 / 255, 200 / 255, 200 / 255⟩ ⟨100 / 255, 100 / 255, 100 / 255⟩ rfl
    (by rw [hL, hfloor]; norm_num)
    (by
      rw [hL, hfloor]
      simp only [Texture.sample_level]
      rw [show (0 : Int) = ((0 : Nat) : Int) from rfl,
        sample_nearest_origin
          ⟨2, 2, [⟨2, 2, List.replicate 12 200⟩, ⟨1, 1, [100, 100, 100]⟩]⟩ 0
          ⟨2, 2, List.replicate 12 200⟩ rfl]
      simp [MipLevel.get_texel])
    (by
      rw [hL, hceil]
      simp only [Texture.sample_level]
      rw [show (1 : Int) = ((1 : Nat) : Int) from rfl,
        sample_nearest_origin
          ⟨2, 2, [⟨2, 2, List.replicate 12 200⟩, ⟨1, 1, [100, 100, 100]⟩]⟩ 1
          ⟨1, 1, [100, 100, 100]⟩ rfl]
      simp [MipLevel.get_texel])
  rw [hL, hfloor] at h
  exact ⟨h.1, h.2.2.1, h.2.2.2.1⟩

/-! ## Further properties of the code -/

/-- The last level is never filtered: for a base level with extents at least 1 that
is not 1×1, and the cap not reached, `generate_mips(0)` leaves the last level (the
1×1 level at index `floor(log2(max w h))`) with the zero bytes of its allocation,
whatever the texels of the base level are. -/
theorem generate_mips_last_level_zero (kMax : Nat) (mipmap : List MipLevel)
    (base : MipLevel) (hb : mipmap[0]? = some base) (hw : 1 ≤ base.width)
    (hh : 1 ≤ base.height) (hlog : 1 ≤ Nat.log 2 (max base.width base.height))
    (hcap : Nat.log 2 (max base.width base.height) + 1 ≤ kMax) :
    ∃ p : List MipLevel, generate_mips kMax mipmap 0 = ⟨false, some p⟩ ∧
      p.length = Nat.log 2 (max base.width base.height) + 1 ∧
      p[Nat.log 2 (max base.width base.height)]? = some ⟨1, 1, [0, 0, 0]⟩ := by
  have hpos : max base.width base.height ≠ 0 := by omega
  obtain ⟨p, hp, hlen, _, _, hzero⟩ :=
    generate_mips_spec kMax mipmap 0 base hb hpos (by omega)
  have hone := (halve_both_one_iff (Nat.log2 (max base.width base.height)) base.width
    base.height hw hh).2 le_rfl
  rw [Nat.log2_eq_log_two] at hlen hzero hone
  rw [Nat.min_eq_left (by omega)] at hlen hzero
  refine ⟨p, hp, by omega, ?_⟩
  have h := hzero _ hlog le_rfl (by omega)
  rw [Nat.zero_add, hone.1, hone.2] at h
  exact h

/-- The last level is never filtered, at a 5×3 base level with `kMaxMipLevels = 14`. -/
theorem generate_mips_last_level_zero_witness :
    ∃ p : List MipLevel, generate_mips 14 [⟨5, 3, List.range 45⟩] 0 = ⟨false, some p⟩ ∧
      p.length = Nat.log 2 (max 5 3) + 1 ∧
      p[Nat.log 2 (max 5 3)]? = some ⟨1, 1, [0, 0, 0]⟩ :=
  generate_mips_last_level_zero 14 [⟨5, 3, List.range 45⟩] ⟨5, 3, List.range 45⟩ rfl
    (by decide) (by decide) (by decide!) (by decide!)

/-- A start level that does not exist: the diagnostic is written and the run then
indexes `mipmap[startLevel]` outside the pyramid. -/
theorem generate_mips_missing_level (kMax : Nat) (mipmap : List MipLevel) (s : Nat)
    (hs : mipmap.length ≤ s) : generate_mips kMax mipmap s = ⟨true, none⟩ := by
  unfold generate_mips
  simp [List.getElem?_eq_none hs, hs]

/-- A start level that does not exist, at the empty pyramid and `startLevel = 0`. -/
theorem generate_mips_missing_level_witness : generate_mips 14 [] 0 = ⟨true, none⟩ :=
  generate_mips_missing_level 14 [] 0 (by decide)

/-- A start level at or beyond the cap (`kMaxMipLevels ≤ startLevel`): the `resize`
truncates the pyramid to its first `kMaxMipLevels` levels and nothing is generated. -/
theorem generate_mips_truncates (kMax : Nat) (mipmap : List MipLevel) (s : Nat)
    (base : MipLevel) (hb : mipmap[s]? = some base) (hw : 1 ≤ base.width)
    (hh : 1 ≤ base.height) (hcap : kMax ≤ s) :
    generate_mips kMax mipmap s = ⟨false, some (mipmap.take kMax)⟩ :=
  generate_mips_beyond_cap kMax mipmap s base hb (by omega) hcap

/-- A start level beyond the cap, at a pyramid of three levels with
`kMaxMipLevels = 1` and `startLevel = 2`. -/
theorem generate_mips_truncates_witness :
    generate_mips 1 [⟨4, 4, List.replicate 48 1⟩, ⟨2, 2, List.replicate 12 2⟩, ⟨1, 1, [3, 3, 3]⟩]
      2 = ⟨false, some ([(⟨4, 4, List.replicate 48 1⟩ : MipLevel),
        ⟨2, 2, List.replicate 12 2⟩, ⟨1, 1, [3, 3, 3]⟩].take 1)⟩ :=
  generate_mips_truncates 1
    [⟨4, 4, List.replicate 48 1⟩, ⟨2, 2, List.replicate 12 2⟩, ⟨1, 1, [3, 3, 3]⟩] 2
    ⟨1, 1, [3, 3, 3]⟩ rfl (by decide) (by decide) (by decide)

/-- With the level-linear policy and a level of detail that is an integer, `sample`
divides by `level2 - level1 = 0`, whatever the texture and the request. -/
theorem sample_linear_faults_at_integer_level {K : Type} [LinearOrderedField K]
    [FloorRing K] (M : CMath K) (t : Texture) (sp : SampleParams K)
    (hl : sp.lsm = .L_LINEAR)
    (hint : ((⌊t.get_level M sp⌋ : Int) : K) = t.get_level M sp) :
    t.sample M sp = none :=
  sample_linear_integer_level M t sp hl hint

/-- The level-linear policy at an integer level of detail, at a footprint of exactly
one texel of a 2×2 texture (`L = 0`, real `sqrt` and `log2`). -/
theorem sample_linear_faults_at_integer_level_witness :
    Texture.get_level (⟨Real.sqrt, Real.logb 2⟩ : CMath ℝ)
        ⟨2, 2, [⟨2, 2, List.replicate 12 200⟩, ⟨1, 1, [100, 100, 100]⟩]⟩
        ⟨⟨0, 0⟩, ⟨1 / 2, 0⟩, ⟨0, 1 / 2⟩, .P_LINEAR, .L_LINEAR⟩ = 0 ∧
      Texture.sample (⟨Real.sqrt, Real.logb 2⟩ : CMath ℝ)
        ⟨2, 2, [⟨2, 2, List.replicate 12 200⟩, ⟨1, 1, [100, 100, 100]⟩]⟩
        ⟨⟨0, 0⟩, ⟨1 / 2, 0⟩, ⟨0, 1 / 2⟩, .P_LINEAR, .L_LINEAR⟩ = none :=
  ⟨get_level_one_texel _ _,
    sample_linear_faults_at_integer_level _ _ _ rfl (by rw [get_level_one_texel]; simp)⟩

/-! ## Lemmas on the real sampler -/

theorem vector_sub_def {K : Type} [LinearOrderedField K] (a b : Vector2D K) :
    a - b = ⟨a.x - b.x, a.y - b.y⟩ := rfl

theorem vector_add_def {K : Type} [LinearOrderedField K] (a b : Vector2D K) :
    a + b = ⟨a.x + b.x, a.y + b.y⟩ := rfl

theorem real_norm_eq_zero_iff (v : Vector2D ℝ) :
    v.norm (⟨Real.sqrt, Real.logb 2⟩ : CMath ℝ) = 0 ↔ v.x = 0 ∧ v.y = 0 := by
  unfold Vector2D.norm
  simp only
  rw [Real.sqrt_eq_zero']
  constructor
  · intro h
    have hx := mul_self_nonneg v.x
    have hy := mul_self_nonneg v.y
    exact ⟨mul_self_eq_zero.1 (by linarith), mul_self_eq_zero.1 (by linarith)⟩
  · rintro ⟨hx, hy⟩
    rw [hx, hy]
    norm_num

theorem real_norm_sub_ne_zero (p1 p2 : Vector2D ℝ) (h : p1 ≠ p2) :
    (p2 - p1).norm (⟨Real.sqrt, Real.logb 2⟩ : CMath ℝ) ≠ 0 := by
  intro h0
  rw [real_norm_eq_zero_iff, vector_sub_def] at h0
  apply h
  ext
  · simp only at h0
    linarith [h0.1]
  · simp only at h0
    linarith [h0.2]

theorem real_norm_sub_self (p : Vector2D ℝ) :
    (p - p).norm (⟨Real.sqrt, Real.logb 2⟩ : CMath ℝ) = 0 := by
  rw [real_norm_eq_zero_iff, vector_sub_def]
  simp

theorem color_lerp_zero {K : Type} [LinearOrderedField K] (c1 c2 : Color K) (d : K) :
    c1 + (c2 - c1) * (0 : K) / d = c1 := by
  simp only [color_add_def, color_sub_def, color_mul_def, color_div_def, mul_zero, zero_div,
    add_zero]

theorem color_lerp_one {K : Type} [LinearOrderedField K] (c1 c2 : Color K) (d : K)
    (hd : d ≠ 0) : c1 + (c2 - c1) * d / d = c2 := by
  simp only [color_add_def, color_sub_def, color_mul_def, color_div_def]
  ext <;> simp only <;> field_simp

/-! ## Claims on the per-level samplers -/

/-- C15: with the real `sqrt`, for all colours and points, `linear_interpolate` at
`p1` returns `c1`; at `p2` it returns `c2` when `p1 ≠ p2`, and the divisor
`|p2 - p1|` is then not `0`; and when `p1 = p2` it returns `c1` for every `x`. No
call faults on a zero divisor. -/
theorem linear_interpolate_endpoints (c1 c2 : Color ℝ) (p1 p2 x : Vector2D ℝ) :
    linear_interpolate (⟨Real.sqrt, Real.logb 2⟩ : CMath ℝ) c1 c2 p1 p2 p1 = some c1 ∧
    (p1 ≠ p2 →
      linear_interpolate (⟨Real.sqrt, Real.logb 2⟩ : CMath ℝ) c1 c2 p1 p2 p2 = some c2 ∧
      (p2 - p1).norm (⟨Real.sqrt, Real.logb 2⟩ : CMath ℝ) ≠ 0) ∧
    (p1 = p2 →
      linear_interpolate (⟨Real.sqrt, Real.logb 2⟩ : CMath ℝ) c1 c2 p1 p2 x = some c1) := by
  refine ⟨?_, ?_, ?_⟩
  · by_cases h : p1 = p2
    · simp [linear_interpolate, h]
    · have hd := real_norm_sub_ne_zero p1 p2 h
      simp only [linear_interpolate, h, hd, if_false, real_norm_sub_self, color_lerp_zero]
  · intro h
    have hd := real_norm_sub_ne_zero p1 p2 h
    refine ⟨?_, hd⟩
    simp only [linear_interpolate, h, hd, if_false, color_lerp_one _ _ _ hd]
  · intro h
    simp [linear_interpolate, h]

/-! ## Lemmas on area overlaps -/

theorem overlap_length_of_le (a b c d : ℚ) (h1 : max a c ≤ min b d) :
    overlap_length a b c d = min b d - max a c := by
  unfold overlap_length
  exact max_eq_right (by linarith)

/-- Even source extent `p = 2 * n`: the overlaps of output cell `i` with source cells
`2 * i` and `2 * i + 1` are both `1/2`. -/
theorem area_weight_even (n i : Nat) (hn : 1 ≤ n) :
    area_weight (2 * n) n i (2 * i) = 1 / 2 ∧ area_weight (2 * n) n i (2 * i + 1) = 1 / 2 := by
  have hN : (0 : ℚ) < (n : ℚ) := by exact_mod_cast hn
  have ha : (i : ℚ) * ((2 * n : Nat) : ℚ) / (n : ℚ) = 2 * (i : ℚ) := by
    push_cast
    field_simp
    ring
  have hb : ((i : ℚ) + 1) * ((2 * n : Nat) : ℚ) / (n : ℚ) = 2 * (i : ℚ) + 2 := by
    push_cast
    field_simp
    ring
  have hl : ((2 * n : Nat) : ℚ) / (n : ℚ) = 2 := by
    push_cast
    field_simp
  unfold area_weight
  rw [ha, hb, hl]
  constructor
  · rw [overlap_length_of_le]
    · push_cast
      rw [min_eq_right (by linarith), max_eq_left (by linarith)]
      ring
    · push_cast
      rw [min_eq_right (by linarith), max_eq_left (by linarith)]
      linarith
  · rw [overlap_length_of_le]
    · push_cast
      rw [min_eq_right (by linarith), max_eq_right (by linarith)]
      ring
    · push_cast
      rw [min_eq_right (by linarith), max_eq_right (by linarith)]
      linarith

/-- Odd source extent `p = 2 * n + 1`: the overlaps of output cell `i < n` with
source cells `2 * i`, `2 * i + 1` and `2 * i + 2`. -/
theorem area_weight_odd (n i : Nat) (hi : i < n) :
    area_weight (2 * n + 1) n i (2 * i) = ((n : ℚ) - (i : ℚ)) / (2 * (n : ℚ) + 1) ∧
    area_weight (2 * n + 1) n i (2 * i + 1) = (n : ℚ) / (2 * (n : ℚ) + 1) ∧
    area_weight (2 * n + 1) n i (2 * i + 2) = ((i : ℚ) + 1) / (2 * (n : ℚ) + 1) := by
  have hN : (0 : ℚ) < (n : ℚ) := by exact_mod_cast (by omega : 0 < n)
  have hI : (i : ℚ) + 1 ≤ (n : ℚ) := by exact_mod_cast hi
  have hI0 : (0 : ℚ) ≤ (i : ℚ) := by positivity
  have hq : (0 : ℚ) ≤ (i : ℚ) / (n : ℚ) := by positivity
  have hq1 : (i : ℚ) / (n : ℚ) + 1 / (n : ℚ) ≤ 1 := by
    rw [← add_div, div_le_one hN]
    exact hI
  have hq2 : (0 : ℚ) < 1 / (n : ℚ) := by positivity
  have ha : (i : ℚ) * ((2 * n + 1 : Nat) : ℚ) / (n : ℚ) = 2 * (i : ℚ) + (i : ℚ) / (n : ℚ) := by
    push_cast
    field_simp
    ring
  have hb : ((i : ℚ) + 1) * ((2 * n + 1 : Nat) : ℚ) / (n : ℚ) =
      2 * (i : ℚ) + 2 + ((i : ℚ) / (n : ℚ) + 1 / (n : ℚ)) := by
    push_cast
    field_simp
    ring
  have hl : ((2 * n + 1 : Nat) : ℚ) / (n : ℚ) = (2 * (n : ℚ) + 1) / (n : ℚ) := by
    push_cast
    rfl
  unfold area_weight
  rw [ha, hb, hl]
  refine ⟨?_, ?_, ?_⟩
  · rw [overlap_length_of_le]
    · push_cast
      rw [min_eq_right (by linarith), max_eq_left (by linarith)]
      field_simp
      ring
    · push_cast
      rw [min_eq_right (by linarith), max_eq_left (by linarith)]
      linarith
  · rw [overlap_length_of_le]
    · push_cast
      rw [min_eq_right (by linarith), max_eq_right (by linarith)]
      field_simp
    · push_cast
      rw [min_eq_right (by linarith), max_eq_right (by linarith)]
      linarith
  · rw [overlap_length_of_le]
    · push_cast
      rw [min_eq_left (by linarith), max_eq_right (by linarith)]
      field_simp
      ring
    · push_cast
      rw [min_eq_left (by linarith), max_eq_right (by linarith)]
      linarith

theorem wWeight_even (p cw i : Nat) (hp : p % 2 = 0) :
    wSupport p = 2 ∧ wWeight p cw i 0 = 1 / 2 ∧ wWeight p cw i 1 = 1 / 2 := by
  have hdec : wDecimal p cw = 0 := by simp [wDecimal, hp]
  refine ⟨by simp [wSupport, hp], ?_, ?_⟩
  · show wNorm p cw * (1 - wDecimal p cw * (i : ℚ)) = 1 / 2
    rw [wNorm, hdec]
    norm_num
  · show wNorm p cw * 1 = 1 / 2
    rw [wNorm, hdec]
    norm_num

theorem wWeight_odd (n i : Nat) (hn : 1 ≤ n) :
    wSupport (2 * n + 1) = 3 ∧
    wWeight (2 * n + 1) n i 0 = ((n : ℚ) - (i : ℚ)) / (2 * (n : ℚ) + 1) ∧
    wWeight (2 * n + 1) n i 1 = (n : ℚ) / (2 * (n : ℚ) + 1) ∧
    wWeight (2 * n + 1) n i 2 = ((i : ℚ) + 1) / (2 * (n : ℚ) + 1) := by
  have hp : (2 * n + 1) % 2 = 1 := by omega
  have hN : (0 : ℚ) < (n : ℚ) := by exact_mod_cast hn
  have hdec : wDecimal (2 * n + 1) n = 1 / (n : ℚ) := by simp [wDecimal, hp]
  refine ⟨by simp [wSupport, hp], ?_, ?_, ?_⟩
  · show wNorm (2 * n + 1) n * (1 - wDecimal (2 * n + 1) n * (i : ℚ)) = _
    rw [wNorm, hdec]
    field_simp
    ring
  · show wNorm (2 * n + 1) n * 1 = _
    rw [wNorm, hdec]
    field_simp
  · show wNorm (2 * n + 1) n * wDecimal (2 * n + 1) n * ((i : ℚ) + 1) = _
    rw [wNorm, hdec]
    field_simp
    ring

theorem hWeight_eq_wWeight (p c i k : Nat) : hWeight p c i k = wWeight p c i k := by
  unfold hWeight wWeight hNorm wNorm hDecimal wDecimal
  rcases k with _ | _ | k <;> simp

theorem hSupport_eq_wSupport (p : Nat) : hSupport p = wSupport p := rfl

/-- Along one axis halved from `p` to `p / 2` samples, for output index `i < p / 2`,
every weight of the support is the normalised overlap of the output cell with the
source cell it multiplies. -/
theorem wWeight_eq_area_weight (p i ii : Nat) (hi : i < p / 2) (hii : ii < wSupport p) :
    wWeight p (p / 2) i ii = area_weight p (p / 2) i (2 * i + ii) := by
  rcases Nat.mod_two_eq_zero_or_one p with hp | hp
  · obtain ⟨hs, h0, h1⟩ := wWeight_even p (p / 2) i hp
    have hpe : p = 2 * (p / 2) := by omega
    obtain ⟨a0, a1⟩ := area_weight_even (p / 2) i (by omega)
    rw [← hpe] at a0 a1
    rw [hs] at hii
    rcases ii with _ | _ | ii
    · rw [h0, Nat.add_zero, a0]
    · rw [h1, a1]
    · omega
  · have hpe : p = 2 * (p / 2) + 1 := by omega
    obtain ⟨hs, h0, h1, h2⟩ := wWeight_odd (p / 2) i (by omega)
    obtain ⟨a0, a1, a2⟩ := area_weight_odd (p / 2) i hi
    rw [← hpe] at hs h0 h1 h2 a0 a1 a2
    rw [hs] at hii
    rcases ii with _ | _ | _ | ii
    · rw [h0, Nat.add_zero, a0]
    · rw [h1, a1]
    · rw [h2, a2]
    · omega

/-! ## Claims on the filter weights and offsets -/

/-- C17: along an axis of source extent `p` and output extent `p / 2 ≥ 1`, for every
output index below `p / 2`: an even `p` has support 2 with weights `1/2, 1/2`; an odd
`p = 2 n + 1` has support 3 with weights `(n - i)/(2n+1)`, `n/(2n+1)`,
`(i + 1)/(2n+1)`; each weight is the normalised overlap of the output cell with the
source cell `2 i + ii` it multiplies; and the taps of an output texel read the source
samples `2 i + ii` (`2 j + jj`) with these weights, their product in the two-axis
case. -/
theorem filter_weights_are_area_overlaps (pw ph i j : Nat) (hi : i < pw / 2)
    (hj : j < ph / 2) :
    (pw % 2 = 0 →
      wSupport pw = 2 ∧ wWeight pw (pw / 2) i 0 = 1 / 2 ∧ wWeight pw (pw / 2) i 1 = 1 / 2) ∧
    (pw % 2 = 1 →
      wSupport pw = 3 ∧
      wWeight pw (pw / 2) i 0 =
        (((pw / 2 : Nat) : ℚ) - (i : ℚ)) / (2 * ((pw / 2 : Nat) : ℚ) + 1) ∧
      wWeight pw (pw / 2) i 1 = ((pw / 2 : Nat) : ℚ) / (2 * ((pw / 2 : Nat) : ℚ) + 1) ∧
      wWeight pw (pw / 2) i 2 = ((i : ℚ) + 1) / (2 * ((pw / 2 : Nat) : ℚ) + 1)) ∧
    (∀ ii, ii < wSupport pw →
      wWeight pw (pw / 2) i ii = area_weight pw (pw / 2) i (2 * i + ii)) ∧
    (ph % 2 = 0 →
      hSupport ph = 2 ∧ hWeight ph (ph / 2) j 0 = 1 / 2 ∧ hWeight ph (ph / 2) j 1 = 1 / 2) ∧
    (ph % 2 = 1 →
      hSupport ph = 3 ∧
      hWeight ph (ph / 2) j 0 =
        (((ph / 2 : Nat) : ℚ) - (j : ℚ)) / (2 * ((ph / 2 : Nat) : ℚ) + 1) ∧
      hWeight ph (ph / 2) j 1 = ((ph / 2 : Nat) : ℚ) / (2 * ((ph / 2 : Nat) : ℚ) + 1) ∧
      hWeight ph (ph / 2) j 2 = ((j : ℚ) + 1) / (2 * ((ph / 2 : Nat) : ℚ) + 1)) ∧
    (∀ jj, jj < hSupport ph →
      hWeight ph (ph / 2) j jj = area_weight ph (ph / 2) j (2 * j + jj)) ∧
    (∀ prev curr : MipLevel, prev.width = pw → prev.height = 1 → curr.width = pw / 2 →
      curr.height = 1 →
      filter_taps prev curr 0 i = (List.range (wSupport pw)).map fun ii =>
        (area_weight pw (pw / 2) i (2 * i + ii), 3 * (2 * i + ii))) ∧
    (∀ prev curr : MipLevel, prev.width = 1 → prev.height = ph → curr.width = 1 →
      curr.height = ph / 2 →
      filter_taps prev curr j 0 = (List.range (hSupport ph)).map fun jj =>
        (area_weight ph (ph / 2) j (2 * j + jj), 1 * 3 * (2 * j + jj))) ∧
    (∀ prev curr : MipLevel, prev.width = pw → prev.height = ph → curr.width = pw / 2 →
      curr.height = ph / 2 →
      filter_taps prev curr j i = (List.range (hSupport ph)).flatMap fun jj =>
        (List.range (wSupport pw)).map fun ii =>
          (area_weight ph (ph / 2) j (2 * j + jj) * area_weight pw (pw / 2) i (2 * i + ii),
            pw * 3 * (2 * j + jj) + 3 * (2 * i + ii))) := by
  have hwa := fun ii => wWeight_eq_area_weight pw i ii hi
  have hha : ∀ jj, jj < hSupport ph →
      hWeight ph (ph / 2) j jj = area_weight ph (ph / 2) j (2 * j + jj) := by
    intro jj hjj
    rw [hWeight_eq_wWeight]
    exact wWeight_eq_area_weight ph j jj hj hjj
  refine ⟨fun hp => wWeight_even pw (pw / 2) i hp, ?_, hwa, ?_, ?_, hha, ?_, ?_, ?_⟩
  · intro hp
    have hpe : pw = 2 * (pw / 2) + 1 := by omega
    have h := wWeight_odd (pw / 2) i (by omega)
    rwa [← hpe] at h
  · intro hp
    simp only [hWeight_eq_wWeight, hSupport_eq_wSupport]
    exact wWeight_even ph (ph / 2) j hp
  · intro hp
    have hpe : ph = 2 * (ph / 2) + 1 := by omega
    have h := wWeight_odd (ph / 2) j (by omega)
    simp only [hWeight_eq_wWeight, hSupport_eq_wSupport]
    rwa [← hpe] at h
  · intro prev curr h1 h2 h3 h4
    simp only [filter_taps, h1, h2, h3, h4, if_true]
    exact List.map_congr_left fun ii hii => by rw [hwa ii (List.mem_range.1 hii)]
  · intro prev curr h1 h2 h3 h4
    have hne : ¬ ph / 2 = ph := by omega
    simp only [filter_taps, h1, h2, h3, h4, hne, if_true, if_false]
    exact List.map_congr_left fun jj hjj => by rw [hha jj (List.mem_range.1 hjj)]
  · intro prev curr h1 h2 h3 h4
    have hne : ¬ ph / 2 = ph := by omega
    have hne' : ¬ pw / 2 = pw := by omega
    simp only [filter_taps, h1, h2, h3, h4, hne, hne', if_false]
    refine List.flatMap_congr fun jj hjj => List.map_congr_left fun ii hii => ?_
    rw [hwa ii (List.mem_range.1 hii), hha jj (List.mem_range.1 hjj)]

/-- C17, at a 5×4 source level, output texel `(j, i) = (0, 1)`: the three horizontal
weights `1/5, 2/5, 2/5` and the two vertical weights `1/2, 1/2` are the normalised
overlaps. -/
theorem filter_weights_are_area_overlaps_witness :
    (wSupport 5 = 3 ∧
      wWeight 5 (5 / 2) 1 0 = (((5 / 2 : Nat) : ℚ) - ((1 : Nat) : ℚ)) / (2 * ((5 / 2 : Nat) : ℚ) + 1) ∧
      wWeight 5 (5 / 2) 1 1 = ((5 / 2 : Nat) : ℚ) / (2 * ((5 / 2 : Nat) : ℚ) + 1) ∧
      wWeight 5 (5 / 2) 1 2 = (((1 : Nat) : ℚ) + 1) / (2 * ((5 / 2 : Nat) : ℚ) + 1)) ∧
    wWeight 5 (5 / 2) 1 2 = area_weight 5 (5 / 2) 1 (2 * 1 + 2) ∧
    hWeight 4 (4 / 2) 0 1 = area_weight 4 (4 / 2) 0 (2 * 0 + 1) :=
  ⟨(filter_weights_are_area_overlaps 5 4 1 0 (by decide) (by decide)).2.1 (by decide),
    (filter_weights_are_area_overlaps 5 4 1 0 (by decide) (by decide)).2.2.1 2 (by decide),
    (filter_weights_are_area_overlaps 5 4 1 0 (by decide) (by decide)).2.2.2.2.2.1 1
      (by decide)⟩

/-! ## Lemmas on `sample_bilinear` -/

/-- `sample_bilinear` written with the corner points named by `bilinear_points`. -/
theorem sample_bilinear_eq {K : Type} [LinearOrderedField K] [FloorRing K] (M : CMath K)
    (t : Texture) (uv : Vector2D K) (level : Int) :
    t.sample_bilinear M uv level =
      if level < 0 then none
      else
        match t.mipmap[level.toNat]? with
        | none => none
        | some ml =>
          (ml.get_texel ⌊(t.bilinear_points uv level).1.x⌋
            ⌊(t.bilinear_points uv level).1.y⌋).bind fun left_upper =>
          (ml.get_texel ⌊(t.bilinear_points uv level).2.1.x⌋
            ⌊(t.bilinear_points uv level).2.1.y⌋).bind fun right_upper =>
          (ml.get_texel ⌊(t.bilinear_points uv level).2.2.1.x⌋
            ⌊(t.bilinear_points uv level).2.2.1.y⌋).bind fun left_lower =>
          (ml.get_texel ⌊(t.bilinear_points uv level).2.2.2.x⌋
            ⌊(t.bilinear_points uv level).2.2.2.y⌋).bind fun right_lower =>
          (linear_interpolate M left_upper right_upper (t.bilinear_points uv level).1
            (t.bilinear_points uv level).2.1
            ⟨uv.x * (t.width : K) / (2 : K) ^ level, (t.bilinear_points uv level).1.y⟩).bind
            fun upper_lerp =>
          (linear_interpolate M left_lower right_lower (t.bilinear_points uv level).2.2.1
            (t.bilinear_points uv level).2.2.2
            ⟨uv.x * (t.width : K) / (2 : K) ^ level,
              (t.bilinear_points uv level).2.2.2.y⟩).bind fun lower_lerp =>
          linear_interpolate M lower_lerp upper_lerp
            ⟨uv.x * (t.width : K) / (2 : K) ^ level, (t.bilinear_points uv level).2.2.2.y⟩
            ⟨uv.x * (t.width : K) / (2 : K) ^ level, (t.bilinear_points uv level).1.y⟩
            ⟨uv.x * (t.width : K) / (2 : K) ^ level, uv.y * (t.height : K) / (2 : K) ^ level⟩ :=
  rfl

/-- `sample_nearest` passes `nearest_texel_coord` to `get_texel`. -/
theorem sample_nearest_eq {K : Type} [LinearOrderedField K] [FloorRing K] (t : Texture)
    (uv : Vector2D K) (level : Int) :
    t.sample_nearest uv level =
      if level < 0 then none
      else
        match t.mipmap[level.toNat]? with
        | none => none
        | some ml =>
          ml.get_texel (t.nearest_texel_coord uv level).1 (t.nearest_texel_coord uv level).2 :=
  rfl

/-- When the first texel fetched by `sample_bilinear` is outside the level, the call
faults. -/
theorem sample_bilinear_fault {K : Type} [LinearOrderedField K] [FloorRing K] (M : CMath K)
    (t : Texture) (uv : Vector2D K) (level : Int) (ml : MipLevel) (hl : 0 ≤ level)
    (hm : t.mipmap[level.toNat]? = some ml)
    (h : ml.get_texel (K := K) ⌊(t.bilinear_points uv level).1.x⌋
      ⌊(t.bilinear_points uv level).1.y⌋ = none) :
    t.sample_bilinear M uv level = none := by
  rw [sample_bilinear_eq, if_neg (by omega), hm]
  simp only [h]
  rfl

/-! ## Claims on the samplers at the edges -/

/-- C11, at a 3×3 base level (`kMaxMipLevels = 14`) sampled at the centre
`uv = (1/2, 1/2)` on level 1, in exact rational arithmetic: `generate_mips(0)` gives a
1×1 level 1, `bounce` clamps into `[0.5, 3/2 - 0.5] = [0.5, 1]`, the four texel
coordinates fetched are `(0,1), (1,1), (0,0), (1,0)`, three of them outside the 1×1
level, and the call faults. -/
theorem sample_bilinear_reads_outside_level :
    generate_mips 14 [⟨3, 3, List.replicate 27 50⟩] 0 =
        ⟨false, some [⟨3, 3, List.replicate 27 50⟩, ⟨1, 1, [0, 0, 0]⟩]⟩ ∧
      Texture.bilinear_texel_coords (K := ℚ)
          ⟨3, 3, [⟨3, 3, List.replicate 27 50⟩, ⟨1, 1, [0, 0, 0]⟩]⟩ ⟨1 / 2, 1 / 2⟩ 1 =
        [(0, 1), (1, 1), (0, 0), (1, 0)] ∧
      ∀ M : CMath ℚ, Texture.sample_bilinear M
          ⟨3, 3, [⟨3, 3, List.replicate 27 50⟩, ⟨1, 1, [0, 0, 0]⟩]⟩ ⟨1 / 2, 1 / 2⟩ 1 = none := by
  refine ⟨by decide!, by decide!, fun M => ?_⟩
  exact sample_bilinear_fault M _ _ 1 ⟨1, 1, [0, 0, 0]⟩ (by decide) rfl (by decide!)

/-- C14, at a 2×2 base level sampled at `uv = (1, 1)` on level 0, in exact rational
arithmetic: `sample_nearest` passes the texel index `(round 2, round 2) = (2, 2)` to
`get_texel`, outside the 2×2 level, and the call faults. -/
theorem sample_nearest_reads_outside_level :
    Texture.nearest_texel_coord (K := ℚ) ⟨2, 2, [⟨2, 2, List.replicate 12 9⟩]⟩ ⟨1, 1⟩ 0 =
        (2, 2) ∧
      Texture.sample_nearest (K := ℚ) ⟨2, 2, [⟨2, 2, List.replicate 12 9⟩]⟩ ⟨1, 1⟩ 0 = none := by
  refine ⟨by decide!, by decide!⟩

/-- C16, at a 3×3 base level with corner colours (255,0,0), (0,255,0), (0,0,255),
(255,255,0) and black elsewhere (`kMaxMipLevels = 14`): `generate_mips(0)` creates the
1×1 level 1 and leaves it (0,0,0), because the filter loop runs for no level; the
filter step itself, applied to these two levels, uses weight `1/9` for each of the 9
texels and gives (56,56,28), the conversion of the blend. -/
theorem generate_mips_3x3_corners :
    generate_mips 14
        [⟨3, 3, [255, 0, 0, 0, 0, 0, 0, 255, 0, 0, 0, 0, 0, 0, 0, 0, 0, 0, 0, 0, 255, 0, 0, 0,
          255, 255, 0]⟩] 0 =
      ⟨false, some
        [⟨3, 3, [255, 0, 0, 0, 0, 0, 0, 255, 0, 0, 0, 0, 0, 0, 0, 0, 0, 0, 0, 0, 255, 0, 0, 0,
          255, 255, 0]⟩, ⟨1, 1, [0, 0, 0]⟩]⟩ ∧
    generate_mips_filter_steps 14
        [⟨3, 3, [255, 0, 0, 0, 0, 0, 0, 255, 0, 0, 0, 0, 0, 0, 0, 0, 0, 0, 0, 0, 255, 0, 0, 0,
          255, 255, 0]⟩] 0 = [] ∧
    (filter_taps
        ⟨3, 3, [255, 0, 0, 0, 0, 0, 0, 255, 0, 0, 0, 0, 0, 0, 0, 0, 0, 0, 0, 0, 255, 0, 0, 0,
          255, 255, 0]⟩ ⟨1, 1, [0, 0, 0]⟩ 0 0).map Prod.fst = List.replicate 9 (1 / 9) ∧
    filter_output
        ⟨3, 3, [255, 0, 0, 0, 0, 0, 0, 255, 0, 0, 0, 0, 0, 0, 0, 0, 0, 0, 0, 0, 255, 0, 0, 0,
          255, 255, 0]⟩ ⟨1, 1, [0, 0, 0]⟩ = [56, 56, 28] ∧
    channel_to_uint8 ((255 / 255 + 255 / 255) * (1 / 9)) = 56 ∧
    channel_to_uint8 ((255 / 255) * (1 / 9)) = 28 := by
  refine ⟨by decide!, by decide!, by decide!, by decide!, by decide!, by decide!⟩

theorem bilinear_points_zero {K : Type} [LinearOrderedField K] [FloorRing K] (t : Texture)
    (uv : Vector2D K) :
    t.bilinear_points uv 0 =
      (⟨min (max ((cround (uv.x * (t.width : K)) : K) - 1 / 2) (1 / 2)) ((t.width : K) - 1 / 2),
        min (max ((cround (uv.y * (t.height : K)) : K) + 1 / 2) (1 / 2)) ((t.height : K) - 1 / 2)⟩,
       ⟨min (max ((cround (uv.x * (t.width : K)) : K) + 1 / 2) (1 / 2)) ((t.width : K) - 1 / 2),
        min (max ((cround (uv.y * (t.height : K)) : K) + 1 / 2) (1 / 2)) ((t.height : K) - 1 / 2)⟩,
       ⟨min (max ((cround (uv.x * (t.width : K)) : K) - 1 / 2) (1 / 2)) ((t.width : K) - 1 / 2),
        min (max ((cround (uv.y * (t.height : K)) : K) - 1 / 2) (1 / 2)) ((t.height : K) - 1 / 2)⟩,
       ⟨min (max ((cround (uv.x * (t.width : K)) : K) + 1 / 2) (1 / 2)) ((t.width : K) - 1 / 2),
        min (max ((cround (uv.y * (t.height : K)) : K) - 1 / 2) (1 / 2)) ((t.height : K) - 1 / 2)⟩) := by
  simp only [Texture.bilinear_points, Texture.bounce, vector_add_def, zpow_zero, div_one,
    sub_eq_add_neg]

theorem real_norm_x_abs (d : ℝ) :
    Vector2D.norm (⟨Real.sqrt, Real.logb 2⟩ : CMath ℝ) ⟨d, 0⟩ = |d| := by
  show Real.sqrt (d * d + 0 * 0) = |d|
  rw [mul_zero, add_zero, ← sq, Real.sqrt_sq_eq_abs]

theorem real_norm_y_abs (d : ℝ) :
    Vector2D.norm (⟨Real.sqrt, Real.logb 2⟩ : CMath ℝ) ⟨0, d⟩ = |d| := by
  show Real.sqrt (0 * 0 + d * d) = |d|
  rw [mul_zero, zero_add, ← sq, Real.sqrt_sq_eq_abs]

theorem real_lerp_horizontal (c1 c2 : Color ℝ) (a b x y : ℝ) :
    linear_interpolate (⟨Real.sqrt, Real.logb 2⟩ : CMath ℝ) c1 c2 ⟨a, y⟩ ⟨b, y⟩ ⟨x, y⟩ =
      some (if a = b then c1 else c1 + (c2 - c1) * |x - a| / |b - a|) := by
  by_cases h : a = b
  · simp [linear_interpolate, h]
  · have hne : (⟨a, y⟩ : Vector2D ℝ) ≠ ⟨b, y⟩ := by
      intro hh
      exact h (congrArg Vector2D.x hh)
    have hd : |b - a| ≠ 0 := abs_ne_zero.2 (sub_ne_zero.2 (Ne.symm h))
    simp only [linear_interpolate, hne, if_false, vector_sub_def, sub_self, real_norm_x_abs, hd, h]

theorem real_lerp_vertical (c1 c2 : Color ℝ) (a b x y : ℝ) :
    linear_interpolate (⟨Real.sqrt, Real.logb 2⟩ : CMath ℝ) c1 c2 ⟨x, a⟩ ⟨x, b⟩ ⟨x, y⟩ =
      some (if a = b then c1 else c1 + (c2 - c1) * |y - a| / |b - a|) := by
  by_cases h : a = b
  · simp [linear_interpolate, h]
  · have hne : (⟨x, a⟩ : Vector2D ℝ) ≠ ⟨x, b⟩ := by
      intro hh
      exact h (congrArg Vector2D.y hh)
    have hd : |b - a| ≠ 0 := abs_ne_zero.2 (sub_ne_zero.2 (Ne.symm h))
    simp only [linear_interpolate, hne, if_false, vector_sub_def, sub_self, real_norm_y_abs, hd, h]

theorem cround_bounds {K : Type} [LinearOrderedField K] [FloorRing K] (x : K) :
    ((cround x : Int) : K) - 1 / 2 ≤ x ∧ x ≤ ((cround x : Int) : K) + 1 / 2 := by
  unfold cround
  split_ifs with h
  · have h1 := Int.floor_le (x + 1 / 2)
    have h2 := Int.lt_floor_add_one (x + 1 / 2)
    constructor <;> linarith
  · have h1 := Int.le_ceil (x - 1 / 2)
    have h2 := Int.ceil_lt_add_one (x - 1 / 2)
    constructor <;> linarith

theorem clamp_range {K : Type} [LinearOrderedField K] (x w : K) (hw : 1 ≤ w) :
    1 / 2 ≤ min (max x (1 / 2)) (w - 1 / 2) ∧ min (max x (1 / 2)) (w - 1 / 2) ≤ w - 1 / 2 := by
  refine ⟨le_min (le_max_right _ _) (by linarith), min_le_right _ _⟩

theorem floor_clamp_range {K : Type} [LinearOrderedField K] [FloorRing K] (x : K) (W : Nat)
    (hW : 1 ≤ W) :
    0 ≤ ⌊min (max x (1 / 2)) ((W : K) - 1 / 2)⌋ ∧
      ⌊min (max x (1 / 2)) ((W : K) - 1 / 2)⌋ < (W : Int) := by
  have hw : (1 : K) ≤ (W : K) := by exact_mod_cast hW
  obtain ⟨h1, h2⟩ := clamp_range x (W : K) hw
  constructor
  · exact Int.floor_nonneg.2 (by linarith)
  · rw [Int.floor_lt]
    push_cast
    linarith

theorem get_texel_some {K : Type} [LinearOrderedField K] [FloorRing K] (ml : MipLevel)
    (tx ty : Int) (hlen : ml.texels.length = 3 * ml.width * ml.height) (hx0 : 0 ≤ tx)
    (hx1 : tx < ml.width) (hy0 : 0 ≤ ty) (hy1 : ty < ml.height) :
    ∃ c : Color K, ml.get_texel tx ty = some c := by
  have hb : ty.toNat * ml.width + tx.toNat + 1 ≤ ml.width * ml.height := by
    have h1 : tx.toNat + 1 ≤ ml.width := by omega
    have h2 : ty.toNat + 1 ≤ ml.height := by omega
    calc ty.toNat * ml.width + tx.toNat + 1 ≤ ty.toNat * ml.width + ml.width := by omega
      _ = (ty.toNat + 1) * ml.width := by ring
      _ ≤ ml.height * ml.width := Nat.mul_le_mul_right _ h2
      _ = ml.width * ml.height := Nat.mul_comm _ _
  have hl : 3 * (ty.toNat * ml.width + tx.toNat) + 2 < ml.texels.length := by
    rw [hlen, Nat.mul_assoc]
    omega
  unfold MipLevel.get_texel
  rw [if_pos ⟨hx0, hx1, hy0, hy1⟩, List.getElem?_eq_getElem (by omega),
    List.getElem?_eq_getElem (by omega), List.getElem?_eq_getElem hl]
  exact ⟨_, rfl⟩


/-- With the real `sqrt`, corner points of the shape computed by `bounce` and the four
texel fetches succeeding, `sample_bilinear` returns the two horizontal interpolations
followed by the vertical one. -/
theorem sample_bilinear_of_points (t : Texture) (ml : MipLevel) (uv : Vector2D ℝ)
    (level : Int) (hl : 0 ≤ level) (hm : t.mipmap[level.toNat]? = some ml)
    (xl xr yl yu : ℝ)
    (hP : t.bilinear_points uv level = (⟨xl, yu⟩, ⟨xr, yu⟩, ⟨xl, yl⟩, ⟨xr, yl⟩))
    (c_lu c_ru c_ll c_rl : Color ℝ)
    (h1 : ml.get_texel ⌊xl⌋ ⌊yu⌋ = some c_lu) (h2 : ml.get_texel ⌊xr⌋ ⌊yu⌋ = some c_ru)
    (h3 : ml.get_texel ⌊xl⌋ ⌊yl⌋ = some c_ll) (h4 : ml.get_texel ⌊xr⌋ ⌊yl⌋ = some c_rl) :
    t.sample_bilinear (⟨Real.sqrt, Real.logb 2⟩ : CMath ℝ) uv level =
      some (if yl = yu then
          (if xl = xr then c_ll
            else c_ll + (c_rl - c_ll) * |uv.x * (t.width : ℝ) / (2 : ℝ) ^ level - xl| /
              |xr - xl|)
        else
          (if xl = xr then c_ll
            else c_ll + (c_rl - c_ll) * |uv.x * (t.width : ℝ) / (2 : ℝ) ^ level - xl| /
              |xr - xl|) +
          ((if xl = xr then c_lu
              else c_lu + (c_ru - c_lu) * |uv.x * (t.width : ℝ) / (2 : ℝ) ^ level - xl| /
                |xr - xl|) -
            (if xl = xr then c_ll
              else c_ll + (c_rl - c_ll) * |uv.x * (t.width : ℝ) / (2 : ℝ) ^ level - xl| /
                |xr - xl|)) *
            |uv.y * (t.height : ℝ) / (2 : ℝ) ^ level - yl| / |yu - yl|) := by
  rw [sample_bilinear_eq, if_neg (by omega), hm]
  simp only [hP, h1, h2, h3, h4, Option.some_bind, real_lerp_horizontal, real_lerp_vertical]


/-- Level 0 of a well-formed texture (the texture's extents are those of level 0, both
at least 1, and the buffer holds `3 * width * height` bytes): the four fetches of
`sample_bilinear` succeed and the result is the bilinear formula in the bounced
corner coordinates `xl, xr, yl, yu`. -/
theorem sample_bilinear_level_zero (t : Texture) (ml : MipLevel) (uv : Vector2D ℝ)
    (hm : t.mipmap[0]? = some ml) (hW : t.width = ml.width) (hH : t.height = ml.height)
    (hw : 1 ≤ ml.width) (hh : 1 ≤ ml.height)
    (hlen : ml.texels.length = 3 * ml.width * ml.height) (xl xr yl yu : ℝ)
    (hxl : xl = min (max ((cround (uv.x * (t.width : ℝ)) : ℝ) - 1 / 2) (1 / 2))
      ((t.width : ℝ) - 1 / 2))
    (hxr : xr = min (max ((cround (uv.x * (t.width : ℝ)) : ℝ) + 1 / 2) (1 / 2))
      ((t.width : ℝ) - 1 / 2))
    (hyl : yl = min (max ((cround (uv.y * (t.height : ℝ)) : ℝ) - 1 / 2) (1 / 2))
      ((t.height : ℝ) - 1 / 2))
    (hyu : yu = min (max ((cround (uv.y * (t.height : ℝ)) : ℝ) + 1 / 2) (1 / 2))
      ((t.height : ℝ) - 1 / 2)) :
    t.bilinear_points uv 0 = (⟨xl, yu⟩, ⟨xr, yu⟩, ⟨xl, yl⟩, ⟨xr, yl⟩) ∧
    ∃ c_lu c_ru c_ll c_rl : Color ℝ,
      ml.get_texel ⌊xl⌋ ⌊yu⌋ = some c_lu ∧ ml.get_texel ⌊xr⌋ ⌊yu⌋ = some c_ru ∧
      ml.get_texel ⌊xl⌋ ⌊yl⌋ = some c_ll ∧ ml.get_texel ⌊xr⌋ ⌊yl⌋ = some c_rl ∧
      t.sample_bilinear (⟨Real.sqrt, Real.logb 2⟩ : CMath ℝ) uv 0 =
        some (if yl = yu then
            (if xl = xr then c_ll
              else c_ll + (c_rl - c_ll) * |uv.x * (t.width : ℝ) - xl| / |xr - xl|)
          else
            (if xl = xr then c_ll
              else c_ll + (c_rl - c_ll) * |uv.x * (t.width : ℝ) - xl| / |xr - xl|) +
            ((if xl = xr then c_lu
                else c_lu + (c_ru - c_lu) * |uv.x * (t.width : ℝ) - xl| / |xr - xl|) -
              (if xl = xr then c_ll
                else c_ll + (c_rl - c_ll) * |uv.x * (t.width : ℝ) - xl| / |xr - xl|)) *
              |uv.y * (t.height : ℝ) - yl| / |yu - yl|) := by
  have hP : t.bilinear_points uv 0 = (⟨xl, yu⟩, ⟨xr, yu⟩, ⟨xl, yl⟩, ⟨xr, yl⟩) := by
    rw [bilinear_points_zero, hxl, hxr, hyl, hyu]
  have hw' : 1 ≤ t.width := by omega
  have hh' : 1 ≤ t.height := by omega
  have fxl := floor_clamp_range ((cround (uv.x * (t.width : ℝ)) : ℝ) - 1 / 2) t.width hw'
  have fxr := floor_clamp_range ((cround (uv.x * (t.width : ℝ)) : ℝ) + 1 / 2) t.width hw'
  have fyl := floor_clamp_range ((cround (uv.y * (t.height : ℝ)) : ℝ) - 1 / 2) t.height hh'
  have fyu := floor_clamp_range ((cround (uv.y * (t.height : ℝ)) : ℝ) + 1 / 2) t.height hh'
  rw [← hxl] at fxl
  rw [← hxr] at fxr
  rw [← hyl] at fyl
  rw [← hyu] at fyu
  rw [hW] at fxl fxr
  rw [hH] at fyl fyu
  obtain ⟨c_lu, h1⟩ := get_texel_some (K := ℝ) ml ⌊xl⌋ ⌊yu⌋ hlen fxl.1 fxl.2 fyu.1 fyu.2
  obtain ⟨c_ru, h2⟩ := get_texel_some (K := ℝ) ml ⌊xr⌋ ⌊yu⌋ hlen fxr.1 fxr.2 fyu.1 fyu.2
  obtain ⟨c_ll, h3⟩ := get_texel_some (K := ℝ) ml ⌊xl⌋ ⌊yl⌋ hlen fxl.1 fxl.2 fyl.1 fyl.2
  obtain ⟨c_rl, h4⟩ := get_texel_some (K := ℝ) ml ⌊xr⌋ ⌊yl⌋ hlen fxr.1 fxr.2 fyl.1 fyl.2
  refine ⟨hP, c_lu, c_ru, c_ll, c_rl, h1, h2, h3, h4, ?_⟩
  have h := sample_bilinear_of_points t ml uv 0 le_rfl hm xl xr yl yu hP c_lu c_ru c_ll c_rl
    h1 h2 h3 h4
  simpa only [zpow_zero, div_one] using h


theorem cround_natCast_add_half {K : Type} [LinearOrderedField K] [FloorRing K] (i : Nat) :
    cround ((i : K) + 1 / 2) = (i : Int) + 1 := by
  unfold cround
  rw [if_pos (by positivity), Int.floor_eq_iff]
  push_cast
  constructor <;> linarith

theorem floor_natCast_add_half {K : Type} [LinearOrderedField K] [FloorRing K] (i : Nat) :
    ⌊(i : K) + 1 / 2⌋ = (i : Int) := by
  rw [Int.floor_eq_iff]
  push_cast
  constructor <;> linarith

/-- The lower corner coordinate at a texel centre `i + 1/2` with `i < W`. -/
theorem bounce_lower_at_centre {K : Type} [LinearOrderedField K] [FloorRing K] (i W : Nat)
    (hi : i < W) :
    min (max (((cround ((i : K) + 1 / 2) : Int) : K) - 1 / 2) (1 / 2)) ((W : K) - 1 / 2) =
      (i : K) + 1 / 2 := by
  have h1 : (i : K) + 1 ≤ (W : K) := by exact_mod_cast hi
  have h0 : (0 : K) ≤ (i : K) := by positivity
  rw [cround_natCast_add_half]
  push_cast
  rw [max_eq_left (by linarith), min_eq_left (by linarith)]
  ring

/-! ## Claims on `sample_bilinear` at level 0 -/

/-- C12: on a well-formed level 0 of size W×H (the texture's extents are those of
level 0 and the buffer holds `3 * W * H` bytes), with the real `sqrt`, for every texel
`(i, j)` with `i < W`, `j < H`, `sample_bilinear` at level 0 with
`uv = ((i + 1/2)/W, (j + 1/2)/H)` returns exactly `get_texel(i, j)`, on the border as
inside. -/
theorem sample_bilinear_texel_centre (t : Texture) (ml : MipLevel) (i j : Nat)
    (hm : t.mipmap[0]? = some ml) (hW : t.width = ml.width) (hH : t.height = ml.height)
    (hlen : ml.texels.length = 3 * ml.width * ml.height) (hi : i < ml.width)
    (hj : j < ml.height) :
    ∃ c : Color ℝ, ml.get_texel (i : Int) (j : Int) = some c ∧
      t.sample_bilinear (⟨Real.sqrt, Real.logb 2⟩ : CMath ℝ)
        ⟨((i : ℝ) + 1 / 2) / (t.width : ℝ), ((j : ℝ) + 1 / 2) / (t.height : ℝ)⟩ 0 = some c := by
  have hw0 : (t.width : ℝ) ≠ 0 := by
    have : 0 < t.width := by omega
    positivity
  have hh0 : (t.height : ℝ) ≠ 0 := by
    have : 0 < t.height := by omega
    positivity
  have hsu : ((i : ℝ) + 1 / 2) / (t.width : ℝ) * (t.width : ℝ) = (i : ℝ) + 1 / 2 :=
    div_mul_cancel₀ _ hw0
  have hsv : ((j : ℝ) + 1 / 2) / (t.height : ℝ) * (t.height : ℝ) = (j : ℝ) + 1 / 2 :=
    div_mul_cancel₀ _ hh0
  obtain ⟨_, c_lu, c_ru, c_ll, c_rl, _, _, h3, _, hres⟩ :=
    sample_bilinear_level_zero t ml
      ⟨((i : ℝ) + 1 / 2) / (t.width : ℝ), ((j : ℝ) + 1 / 2) / (t.height : ℝ)⟩ hm hW hH
      (by omega) (by omega) hlen ((i : ℝ) + 1 / 2) _ ((j : ℝ) + 1 / 2) _
      (by rw [hsu, bounce_lower_at_centre i t.width (by omega)]) rfl
      (by rw [hsv, bounce_lower_at_centre j t.height (by omega)]) rfl
  rw [floor_natCast_add_half, floor_natCast_add_half] at h3
  refine ⟨c_ll, h3, ?_⟩
  rw [hres]
  simp only [hsu, hsv, sub_self, abs_zero, color_lerp_zero, ite_self]


/-- At or past the centre of the last texel, both corner coordinates are clamped to
`W - 1/2`. -/
theorem bounce_at_far_edge {K : Type} [LinearOrderedField K] [FloorRing K] (x : K) (W : Nat)
    (hW : 1 ≤ W) (hx : (W : K) - 1 / 2 ≤ x) :
    min (max (((cround x : Int) : K) - 1 / 2) (1 / 2)) ((W : K) - 1 / 2) = (W : K) - 1 / 2 ∧
    min (max (((cround x : Int) : K) + 1 / 2) (1 / 2)) ((W : K) - 1 / 2) = (W : K) - 1 / 2 := by
  have hw : (1 : K) ≤ (W : K) := by exact_mod_cast hW
  have hr : ((W : Int) : K) ≤ ((cround x : Int) : K) := by
    have h : (W : Int) ≤ cround x := by
      unfold cround
      rw [if_pos (by linarith), Int.le_floor]
      push_cast
      linarith
    exact_mod_cast h
  push_cast at hr
  constructor
  · exact min_eq_right (le_trans (by linarith) (le_max_left _ _))
  · exact min_eq_right (le_trans (by linarith) (le_max_left _ _))

theorem floor_natCast_sub_half {K : Type} [LinearOrderedField K] [FloorRing K] (W : Nat) :
    ⌊(W : K) - 1 / 2⌋ = (W : Int) - 1 := by
  rw [Int.floor_eq_iff]
  push_cast
  constructor <;> linarith

/-- C13: on a well-formed level 0 of size W×H, with the real `sqrt`, for every `uv`
with `u * W ≥ W - 1/2`: every texel `sample_bilinear` fetches has column `W - 1`; if
`v * H = j + 1/2` for a row `j < H` the result is exactly `get_texel(W - 1, j)`; and
if `v * H ≥ H - 1/2` it is `get_texel(W - 1, H - 1)`. -/
theorem sample_bilinear_clamps_to_edge (t : Texture) (ml : MipLevel) (uv : Vector2D ℝ)
    (hm : t.mipmap[0]? = some ml) (hW : t.width = ml.width) (hH : t.height = ml.height)
    (hw : 1 ≤ ml.width) (hh : 1 ≤ ml.height)
    (hlen : ml.texels.length = 3 * ml.width * ml.height)
    (hu : (t.width : ℝ) - 1 / 2 ≤ uv.x * (t.width : ℝ)) :
    (∀ p ∈ t.bilinear_texel_coords uv 0, p.1 = (ml.width : Int) - 1) ∧
    (∀ j : Nat, j < ml.height → uv.y * (t.height : ℝ) = (j : ℝ) + 1 / 2 →
      ∃ c : Color ℝ, ml.get_texel ((ml.width : Int) - 1) (j : Int) = some c ∧
        t.sample_bilinear (⟨Real.sqrt, Real.logb 2⟩ : CMath ℝ) uv 0 = some c) ∧
    ((t.height : ℝ) - 1 / 2 ≤ uv.y * (t.height : ℝ) →
      ∃ c : Color ℝ, ml.get_texel ((ml.width : Int) - 1) ((ml.height : Int) - 1) = some c ∧
        t.sample_bilinear (⟨Real.sqrt, Real.logb 2⟩ : CMath ℝ) uv 0 = some c) := by
  obtain ⟨ex1, ex2⟩ := bounce_at_far_edge (uv.x * (t.width : ℝ)) t.width (by omega) hu
  refine ⟨?_, ?_, ?_⟩
  · intro p hp
    simp only [Texture.bilinear_texel_coords, bilinear_points_zero, ex1, ex2,
      floor_natCast_sub_half, List.mem_cons, List.mem_singleton, List.not_mem_nil,
      or_false] at hp
    rcases hp with rfl | rfl | rfl | rfl <;> simp only [hW]
  · intro j hj hv
    obtain ⟨_, c_lu, c_ru, c_ll, c_rl, _, _, h3, _, hres⟩ :=
      sample_bilinear_level_zero t ml uv hm hW hH hw hh hlen ((t.width : ℝ) - 1 / 2)
        ((t.width : ℝ) - 1 / 2) ((j : ℝ) + 1 / 2) _ ex1.symm ex2.symm
        (by rw [hv, bounce_lower_at_centre j t.height (by omega)]) rfl
    rw [floor_natCast_sub_half, floor_natCast_add_half, hW] at h3
    refine ⟨c_ll, h3, ?_⟩
    rw [hres]
    simp only [hv, sub_self, abs_zero, color_lerp_zero, ite_self, if_true]
  · intro hv
    obtain ⟨ey1, ey2⟩ := bounce_at_far_edge (uv.y * (t.height : ℝ)) t.height (by omega) hv
    obtain ⟨_, c_lu, c_ru, c_ll, c_rl, _, _, h3, _, hres⟩ :=
      sample_bilinear_level_zero t ml uv hm hW hH hw hh hlen ((t.width : ℝ) - 1 / 2)
        ((t.width : ℝ) - 1 / 2) ((t.height : ℝ) - 1 / 2) ((t.height : ℝ) - 1 / 2)
        ex1.symm ex2.symm ey1.symm ey2.symm
    rw [floor_natCast_sub_half, floor_natCast_sub_half, hW, hH] at h3
    refine ⟨c_ll, h3, ?_⟩
    rw [hres]
    simp only [if_true]


/-- The two bounced corner coordinates along one axis either coincide or are the
unbounced `round - 1/2` and `round + 1/2`. -/
theorem bounce_pair_cases {K : Type} [LinearOrderedField K] [FloorRing K] (x : K) (W : Nat) :
    min (max (((cround x : Int) : K) - 1 / 2) (1 / 2)) ((W : K) - 1 / 2) =
        min (max (((cround x : Int) : K) + 1 / 2) (1 / 2)) ((W : K) - 1 / 2) ∨
      (min (max (((cround x : Int) : K) - 1 / 2) (1 / 2)) ((W : K) - 1 / 2) =
          ((cround x : Int) : K) - 1 / 2 ∧
        min (max (((cround x : Int) : K) + 1 / 2) (1 / 2)) ((W : K) - 1 / 2) =
          ((cround x : Int) : K) + 1 / 2) := by
  rcases le_or_lt (cround x) 0 with h0 | h0
  · left
    have h : ((cround x : Int) : K) ≤ 0 := by exact_mod_cast h0
    rw [max_eq_right (by linarith), max_eq_right (by linarith)]
  · have h1 : (1 : K) ≤ ((cround x : Int) : K) := by exact_mod_cast h0
    rcases le_or_lt (W : Int) (cround x) with hW | hW
    · left
      have h : (W : K) ≤ ((cround x : Int) : K) := by exact_mod_cast hW
      rw [min_eq_right (le_trans (by linarith) (le_max_left _ _)),
        min_eq_right (le_trans (by linarith) (le_max_left _ _))]
    · right
      have h : ((cround x : Int) : K) + 1 ≤ (W : K) := by exact_mod_cast hW
      rw [max_eq_left (by linarith), max_eq_left (by linarith), min_eq_left (by linarith),
        min_eq_left (by linarith)]
      exact ⟨rfl, rfl⟩

/-- The interpolation fraction along one axis of `sample_bilinear` is in `[0, 1]` when
the two bounced corner coordinates differ. -/
theorem bounce_fraction_range {K : Type} [LinearOrderedField K] [FloorRing K] (x : K)
    (W : Nat) (xl xr : K)
    (hxl : xl = min (max (((cround x : Int) : K) - 1 / 2) (1 / 2)) ((W : K) - 1 / 2))
    (hxr : xr = min (max (((cround x : Int) : K) + 1 / 2) (1 / 2)) ((W : K) - 1 / 2))
    (hne : xl ≠ xr) : 0 ≤ |x - xl| / |xr - xl| ∧ |x - xl| / |xr - xl| ≤ 1 := by
  rcases bounce_pair_cases x W with h | ⟨h1, h2⟩
  · exact absurd (by rw [hxl, hxr, h]) hne
  · rw [← hxl] at h1
    rw [← hxr] at h2
    obtain ⟨b1, b2⟩ := cround_bounds x
    have hd : |xr - xl| = 1 := by
      rw [h1, h2, show ((cround x : Int) : K) + 1 / 2 - (((cround x : Int) : K) - 1 / 2) = 1 by
        ring]
      exact abs_one
    rw [hd, div_one]
    refine ⟨abs_nonneg _, ?_⟩
    rw [abs_le, h1]
    constructor <;> linarith

theorem convex_bound {K : Type} [LinearOrderedField K] (a b q lo hi : K) (hq0 : 0 ≤ q)
    (hq1 : q ≤ 1) (ha0 : lo ≤ a) (ha1 : a ≤ hi) (hb0 : lo ≤ b) (hb1 : b ≤ hi) :
    lo ≤ a + (b - a) * q ∧ a + (b - a) * q ≤ hi := by
  have h1 : 0 ≤ 1 - q := by linarith
  constructor
  · nlinarith [mul_nonneg hq0 (sub_nonneg.2 hb0), mul_nonneg h1 (sub_nonneg.2 ha0)]
  · nlinarith [mul_nonneg hq0 (sub_nonneg.2 hb1), mul_nonneg h1 (sub_nonneg.2 ha1)]

theorem color_lerp_ite {K : Type} [LinearOrderedField K] (c1 c2 : Color K) (p : Prop)
    [Decidable p] (a d : K) :
    (if p then c1 else c1 + (c2 - c1) * a / d) = c1 + (c2 - c1) * (if p then 0 else a / d) := by
  split_ifs
  · simp only [color_add_def, color_sub_def, color_mul_def, mul_zero, add_zero]
  · simp only [color_add_def, color_sub_def, color_mul_def, color_div_def, mul_div_assoc]


theorem color_lerp_channels {K : Type} [LinearOrderedField K] (c1 c2 : Color K) (q : K) :
    (c1 + (c2 - c1) * q).r = c1.r + (c2.r - c1.r) * q ∧
    (c1 + (c2 - c1) * q).g = c1.g + (c2.g - c1.g) * q ∧
    (c1 + (c2 - c1) * q).b = c1.b + (c2.b - c1.b) * q := ⟨rfl, rfl, rfl⟩

/-- C20: on a well-formed level 0 of size W×H (W, H ≥ 1), with the real `sqrt`, for
every `uv` (in particular with `0 ≤ u * W ≤ W` and `0 ≤ v * H ≤ H`): the four fetches
of `sample_bilinear(uv, 0)` succeed, each of its three `linear_interpolate` calls has
coincident end points or a fraction `|x - p1| / |p2 - p1|` in `[0, 1]`, and each
channel of the returned colour lies between any lower and upper bound of that channel
over the four fetched texels. -/
theorem sample_bilinear_convex (t : Texture) (ml : MipLevel) (uv : Vector2D ℝ)
    (hm : t.mipmap[0]? = some ml) (hW : t.width = ml.width) (hH : t.height = ml.height)
    (hw : 1 ≤ ml.width) (hh : 1 ≤ ml.height)
    (hlen : ml.texels.length = 3 * ml.width * ml.height) :
    ∃ c_lu c_ru c_ll c_rl result : Color ℝ,
      ml.get_texel ⌊(t.bilinear_points uv 0).1.x⌋ ⌊(t.bilinear_points uv 0).1.y⌋ =
        some c_lu ∧
      ml.get_texel ⌊(t.bilinear_points uv 0).2.1.x⌋ ⌊(t.bilinear_points uv 0).2.1.y⌋ =
        some c_ru ∧
      ml.get_texel ⌊(t.bilinear_points uv 0).2.2.1.x⌋ ⌊(t.bilinear_points uv 0).2.2.1.y⌋ =
        some c_ll ∧
      ml.get_texel ⌊(t.bilinear_points uv 0).2.2.2.x⌋ ⌊(t.bilinear_points uv 0).2.2.2.y⌋ =
        some c_rl ∧
      t.sample_bilinear (⟨Real.sqrt, Real.logb 2⟩ : CMath ℝ) uv 0 = some result ∧
      ((t.bilinear_points uv 0).1 = (t.bilinear_points uv 0).2.1 ∨
        (0 ≤ ((⟨uv.x * (t.width : ℝ), (t.bilinear_points uv 0).1.y⟩ : Vector2D ℝ) -
              (t.bilinear_points uv 0).1).norm (⟨Real.sqrt, Real.logb 2⟩ : CMath ℝ) /
            ((t.bilinear_points uv 0).2.1 - (t.bilinear_points uv 0).1).norm
              (⟨Real.sqrt, Real.logb 2⟩ : CMath ℝ) ∧
          ((⟨uv.x * (t.width : ℝ), (t.bilinear_points uv 0).1.y⟩ : Vector2D ℝ) -
              (t.bilinear_points uv 0).1).norm (⟨Real.sqrt, Real.logb 2⟩ : CMath ℝ) /
            ((t.bilinear_points uv 0).2.1 - (t.bilinear_points uv 0).1).norm
              (⟨Real.sqrt, Real.logb 2⟩ : CMath ℝ) ≤ 1)) ∧
      ((t.bilinear_points uv 0).2.2.1 = (t.bilinear_points uv 0).2.2.2 ∨
        (0 ≤ ((⟨uv.x * (t.width : ℝ), (t.bilinear_points uv 0).2.2.2.y⟩ : Vector2D ℝ) -
              (t.bilinear_points uv 0).2.2.1).norm (⟨Real.sqrt, Real.logb 2⟩ : CMath ℝ) /
            ((t.bilinear_points uv 0).2.2.2 - (t.bilinear_points uv 0).2.2.1).norm
              (⟨Real.sqrt, Real.logb 2⟩ : CMath ℝ) ∧
          ((⟨uv.x * (t.width : ℝ), (t.bilinear_points uv 0).2.2.2.y⟩ : Vector2D ℝ) -
              (t.bilinear_points uv 0).2.2.1).norm (⟨Real.sqrt, Real.logb 2⟩ : CMath ℝ) /
            ((t.bilinear_points uv 0).2.2.2 - (t.bilinear_points uv 0).2.2.1).norm
              (⟨Real.sqrt, Real.logb 2⟩ : CMath ℝ) ≤ 1)) ∧
      ((⟨uv.x * (t.width : ℝ), (t.bilinear_points uv 0).2.2.2.y⟩ : Vector2D ℝ) =
          ⟨uv.x * (t.width : ℝ), (t.bilinear_points uv 0).1.y⟩ ∨
        (0 ≤ ((⟨uv.x * (t.width : ℝ), uv.y * (t.height : ℝ)⟩ : Vector2D ℝ) -
              ⟨uv.x * (t.width : ℝ), (t.bilinear_points uv 0).2.2.2.y⟩).norm
              (⟨Real.sqrt, Real.logb 2⟩ : CMath ℝ) /
            ((⟨uv.x * (t.width : ℝ), (t.bilinear_points uv 0).1.y⟩ : Vector2D ℝ) -
              ⟨uv.x * (t.width : ℝ), (t.bilinear_points uv 0).2.2.2.y⟩).norm
              (⟨Real.sqrt, Real.logb 2⟩ : CMath ℝ) ∧
          ((⟨uv.x * (t.width : ℝ), uv.y * (t.height : ℝ)⟩ : Vector2D ℝ) -
              ⟨uv.x * (t.width : ℝ), (t.bilinear_points uv 0).2.2.2.y⟩).norm
              (⟨Real.sqrt, Real.logb 2⟩ : CMath ℝ) /
            ((⟨uv.x * (t.width : ℝ), (t.bilinear_points uv 0).1.y⟩ : Vector2D ℝ) -
              ⟨uv.x * (t.width : ℝ), (t.bilinear_points uv 0).2.2.2.y⟩).norm
              (⟨Real.sqrt, Real.logb 2⟩ : CMath ℝ) ≤ 1)) ∧
      (∀ lo hi : ℝ, lo ≤ c_lu.r → c_lu.r ≤ hi → lo ≤ c_ru.r → c_ru.r ≤ hi → lo ≤ c_ll.r →
        c_ll.r ≤ hi → lo ≤ c_rl.r → c_rl.r ≤ hi → lo ≤ result.r ∧ result.r ≤ hi) ∧
      (∀ lo hi : ℝ, lo ≤ c_lu.g → c_lu.g ≤ hi → lo ≤ c_ru.g → c_ru.g ≤ hi → lo ≤ c_ll.g →
        c_ll.g ≤ hi → lo ≤ c_rl.g → c_rl.g ≤ hi → lo ≤ result.g ∧ result.g ≤ hi) ∧
      (∀ lo hi : ℝ, lo ≤ c_lu.b → c_lu.b ≤ hi → lo ≤ c_ru.b → c_ru.b ≤ hi → lo ≤ c_ll.b →
        c_ll.b ≤ hi → lo ≤ c_rl.b → c_rl.b ≤ hi → lo ≤ result.b ∧ result.b ≤ hi) := by
  obtain ⟨hP, c_lu, c_ru, c_ll, c_rl, h1, h2, h3, h4, hres⟩ :=
    sample_bilinear_level_zero t ml uv hm hW hH hw hh hlen _ _ _ _ rfl rfl rfl rfl
  generalize hxl : min (max ((cround (uv.x * (t.width : ℝ)) : ℝ) - 1 / 2) (1 / 2))
    ((t.width : ℝ) - 1 / 2) = xl at hP h1 h2 h3 h4 hres
  generalize hxr : min (max ((cround (uv.x * (t.width : ℝ)) : ℝ) + 1 / 2) (1 / 2))
    ((t.width : ℝ) - 1 / 2) = xr at hP h1 h2 h3 h4 hres
  generalize hyl : min (max ((cround (uv.y * (t.height : ℝ)) : ℝ) - 1 / 2) (1 / 2))
    ((t.height : ℝ) - 1 / 2) = yl at hP h1 h2 h3 h4 hres
  generalize hyu : min (max ((cround (uv.y * (t.height : ℝ)) : ℝ) + 1 / 2) (1 / 2))
    ((t.height : ℝ) - 1 / 2) = yu at hP h1 h2 h3 h4 hres
  have hfx : ∀ h : xl ≠ xr, 0 ≤ |uv.x * (t.width : ℝ) - xl| / |xr - xl| ∧
      |uv.x * (t.width : ℝ) - xl| / |xr - xl| ≤ 1 :=
    bounce_fraction_range (uv.x * (t.width : ℝ)) t.width xl xr hxl.symm hxr.symm
  have hfy : ∀ h : yl ≠ yu, 0 ≤ |uv.y * (t.height : ℝ) - yl| / |yu - yl| ∧
      |uv.y * (t.height : ℝ) - yl| / |yu - yl| ≤ 1 :=
    bounce_fraction_range (uv.y * (t.height : ℝ)) t.height yl yu hyl.symm hyu.symm
  have hqx : 0 ≤ (if xl = xr then (0 : ℝ) else |uv.x * (t.width : ℝ) - xl| / |xr - xl|) ∧
      (if xl = xr then (0 : ℝ) else |uv.x * (t.width : ℝ) - xl| / |xr - xl|) ≤ 1 := by
    split_ifs with h
    · exact ⟨le_rfl, zero_le_one⟩
    · exact hfx h
  have hqy : 0 ≤ (if yl = yu then (0 : ℝ) else |uv.y * (t.height : ℝ) - yl| / |yu - yl|) ∧
      (if yl = yu then (0 : ℝ) else |uv.y * (t.height : ℝ) - yl| / |yu - yl|) ≤ 1 := by
    split_ifs with h
    · exact ⟨le_rfl, zero_le_one⟩
    · exact hfy h
  simp only [color_lerp_ite] at hres
  rw [hP]
  refine ⟨c_lu, c_ru, c_ll, c_rl, _, h1, h2, h3, h4, hres, ?_, ?_, ?_, ?_, ?_, ?_⟩
  · by_cases h : xl = xr
    · left
      rw [h]
    · right
      simp only [vector_sub_def, sub_self, real_norm_x_abs]
      exact hfx h
  · by_cases h : xl = xr
    · left
      rw [h]
    · right
      simp only [vector_sub_def, sub_self, real_norm_x_abs]
      exact hfx h
  · by_cases h : yl = yu
    · left
      rw [h]
    · right
      simp only [vector_sub_def, sub_self, real_norm_y_abs]
      exact hfy h
  · intro lo hi a1 a2 b1 b2 d1 d2 e1 e2
    simp only [(color_lerp_channels _ _ _).1]
    have hl := convex_bound c_ll.r c_rl.r _ lo hi hqx.1 hqx.2 d1 d2 e1 e2
    have hu := convex_bound c_lu.r c_ru.r _ lo hi hqx.1 hqx.2 a1 a2 b1 b2
    exact convex_bound _ _ _ lo hi hqy.1 hqy.2 hl.1 hl.2 hu.1 hu.2
  · intro lo hi a1 a2 b1 b2 d1 d2 e1 e2
    simp only [(color_lerp_channels _ _ _).2.1]
    have hl := convex_bound c_ll.g c_rl.g _ lo hi hqx.1 hqx.2 d1 d2 e1 e2
    have hu := convex_bound c_lu.g c_ru.g _ lo hi hqx.1 hqx.2 a1 a2 b1 b2
    exact convex_bound _ _ _ lo hi hqy.1 hqy.2 hl.1 hl.2 hu.1 hu.2
  · intro lo hi a1 a2 b1 b2 d1 d2 e1 e2
    simp only [(color_lerp_channels _ _ _).2.2]
    have hl := convex_bound c_ll.b c_rl.b _ lo hi hqx.1 hqx.2 d1 d2 e1 e2
    have hu := convex_bound c_lu.b c_ru.b _ lo hi hqx.1 hqx.2 a1 a2 b1 b2
    exact convex_bound _ _ _ lo hi hqy.1 hqy.2 hl.1 hl.2 hu.1 hu.2


/-- C12, at texel `(1, 0)` of a 2×2 level 0: `uv = (3/4, 1/4)`. -/
theorem sample_bilinear_texel_centre_witness :
    ∃ c : Color ℝ,
      MipLevel.get_texel ⟨2, 2, [10, 10, 10, 20, 20, 20, 30, 30, 30, 40, 40, 40]⟩
        ((1 : Nat) : Int) ((0 : Nat) : Int) = some c ∧
      Texture.sample_bilinear (⟨Real.sqrt, Real.logb 2⟩ : CMath ℝ)
        ⟨2, 2, [⟨2, 2, [10, 10, 10, 20, 20, 20, 30, 30, 30, 40, 40, 40]⟩]⟩
        ⟨(((1 : Nat) : ℝ) + 1 / 2) / ((2 : Nat) : ℝ), (((0 : Nat) : ℝ) + 1 / 2) / ((2 : Nat) : ℝ)⟩
        0 = some c :=
  sample_bilinear_texel_centre
    ⟨2, 2, [⟨2, 2, [10, 10, 10, 20, 20, 20, 30, 30, 30, 40, 40, 40]⟩]⟩
    ⟨2, 2, [10, 10, 10, 20, 20, 20, 30, 30, 30, 40, 40, 40]⟩ 1 0 rfl rfl rfl (by decide)
    (by decide) (by decide)

/-- C13, at a 2×2 level 0 and `uv = (1, 1/4)`: `u * W = 2 ≥ 3/2` and `v * H = 0 + 1/2`;
the result is `get_texel(1, 0)`. -/
theorem sample_bilinear_clamps_to_edge_witness :
    ∃ c : Color ℝ,
      MipLevel.get_texel ⟨2, 2, [10, 10, 10, 20, 20, 20, 30, 30, 30, 40, 40, 40]⟩
        (((2 : Nat) : Int) - 1) ((0 : Nat) : Int) = some c ∧
      Texture.sample_bilinear (⟨Real.sqrt, Real.logb 2⟩ : CMath ℝ)
        ⟨2, 2, [⟨2, 2, [10, 10, 10, 20, 20, 20, 30, 30, 30, 40, 40, 40]⟩]⟩ ⟨1, 1 / 4⟩ 0 =
        some c :=
  (sample_bilinear_clamps_to_edge
    ⟨2, 2, [⟨2, 2, [10, 10, 10, 20, 20, 20, 30, 30, 30, 40, 40, 40]⟩]⟩
    ⟨2, 2, [10, 10, 10, 20, 20, 20, 30, 30, 30, 40, 40, 40]⟩ ⟨1, 1 / 4⟩ rfl rfl rfl
    (by decide) (by decide) (by decide)
    (by
      show (((2 : Nat) : ℝ) - 1 / 2 ≤ 1 * ((2 : Nat) : ℝ))
      norm_num)).2.1 0 (by decide)
    (by
      show ((1 : ℝ) / 4 * ((2 : Nat) : ℝ) = ((0 : Nat) : ℝ) + 1 / 2)
      norm_num)

/-- C20, at a 2×2 level 0 and `uv = (1/2, 1/2)`: the call returns a colour. -/
theorem sample_bilinear_convex_witness :
    ∃ result : Color ℝ,
      Texture.sample_bilinear (⟨Real.sqrt, Real.logb 2⟩ : CMath ℝ)
        ⟨2, 2, [⟨2, 2, [10, 10, 10, 20, 20, 20, 30, 30, 30, 40, 40, 40]⟩]⟩ ⟨1 / 2, 1 / 2⟩ 0 =
        some result := by
  obtain ⟨_, _, _, _, result, _, _, _, _, h, _⟩ := sample_bilinear_convex
    ⟨2, 2, [⟨2, 2, [10, 10, 10, 20, 20, 20, 30, 30, 30, 40, 40, 40]⟩]⟩
    ⟨2, 2, [10, 10, 10, 20, 20, 20, 30, 30, 30, 40, 40, 40]⟩ ⟨1 / 2, 1 / 2⟩ rfl rfl rfl
    (by decide) (by decide) (by decide)
  exact ⟨result, h⟩

/-! ## Lemmas on the filter step -/

theorem foldl_flatMap {α β γ : Type} (f : α → List β) (g : γ → β → γ) (l : List α) (init : γ) :
    (l.flatMap f).foldl g init = l.foldl (fun acc a => (f a).foldl g acc) init := by
  induction l generalizing init with
  | nil => rfl
  | cons a l ih => rw [List.flatMap_cons, List.foldl_append, ih, List.foldl_cons]

/-- The body of the `create mips` loop writes `filter_output` into `mipmap[mipLevel]`. -/
theorem filter_level_eq (mipmap : List MipLevel) (mipLevel : Nat) :
    filter_level mipmap mipLevel =
      mipmap.set mipLevel
        { mipmap.getD mipLevel default with
          texels := filter_output (mipmap.getD (mipLevel - 1) default)
            (mipmap.getD mipLevel default) } := rfl

/-- The filter step as one loop over its output texels: each writes the converted
`filter_result` at `filter_dest`. -/
theorem filter_output_eq (prev curr : MipLevel) :
    filter_output prev curr =
      (filter_texels prev curr).foldl
        (fun mem ji =>
          float_to_uint8 mem (filter_dest prev curr ji.1 ji.2) (filter_result prev curr ji.1 ji.2))
        curr.texels := by
  by_cases h1 : curr.height = prev.height
  · simp only [filter_output, filter_texels, filter_dest, filter_result, filter_taps, h1,
      if_true, List.foldl_map, filter_horizontal]
  · by_cases h2 : curr.width = prev.width
    · simp only [filter_output, filter_texels, filter_dest, filter_result, filter_taps, h1, h2,
        if_true, if_false, List.foldl_map, filter_vertical]
    · simp only [filter_output, filter_texels, filter_dest, filter_result, filter_taps, h1, h2,
        if_false, List.foldl_map, filter_both, foldl_flatMap]


theorem mem_filter_texels (prev curr : MipLevel) (j i : Nat)
    (h : (j, i) ∈ filter_texels prev curr) :
    (curr.height = prev.height → j = 0 ∧ i < curr.width) ∧
    (¬ curr.height = prev.height → curr.width = prev.width → i = 0 ∧ j < curr.height) ∧
    (¬ curr.height = prev.height → ¬ curr.width = prev.width →
      j < curr.height ∧ i < curr.width) := by
  unfold filter_texels at h
  refine ⟨fun h1 => ?_, fun h1 h2 => ?_, fun h1 h2 => ?_⟩
  · rw [if_pos h1] at h
    obtain ⟨a, ha, he⟩ := List.mem_map.1 h
    have e1 : (0 : Nat) = j := congrArg Prod.fst he
    have e2 : a = i := congrArg Prod.snd he
    exact ⟨e1.symm, e2 ▸ List.mem_range.1 ha⟩
  · rw [if_neg h1, if_pos h2] at h
    obtain ⟨a, ha, he⟩ := List.mem_map.1 h
    have e1 : a = j := congrArg Prod.fst he
    have e2 : (0 : Nat) = i := congrArg Prod.snd he
    exact ⟨e2.symm, e1 ▸ List.mem_range.1 ha⟩
  · rw [if_neg h1, if_neg h2] at h
    obtain ⟨a, ha, hb⟩ := List.mem_flatMap.1 h
    obtain ⟨b, hb1, he⟩ := List.mem_map.1 hb
    have e1 : a = j := congrArg Prod.fst he
    have e2 : b = i := congrArg Prod.snd he
    exact ⟨e1 ▸ List.mem_range.1 ha, e2 ▸ List.mem_range.1 hb1⟩

theorem mem_filter_taps (prev curr : MipLevel) (j i : Nat) (t : ℚ × Nat)
    (h : t ∈ filter_taps prev curr j i) :
    (curr.height = prev.height →
      ∃ ii, ii < wSupport prev.width ∧
        t = (wWeight prev.width curr.width i ii, 3 * (2 * i + ii))) ∧
    (¬ curr.height = prev.height → curr.width = prev.width →
      ∃ jj, jj < hSupport prev.height ∧
        t = (hWeight prev.height curr.height j jj, prev.width * 3 * (2 * j + jj))) ∧
    (¬ curr.height = prev.height → ¬ curr.width = prev.width →
      ∃ jj ii, jj < hSupport prev.height ∧ ii < wSupport prev.width ∧
        t = (hWeight prev.height curr.height j jj * wWeight prev.width curr.width i ii,
          prev.width * 3 * (2 * j + jj) + 3 * (2 * i + ii))) := by
  unfold filter_taps at h
  refine ⟨fun h1 => ?_, fun h1 h2 => ?_, fun h1 h2 => ?_⟩
  · rw [if_pos h1] at h
    obtain ⟨a, ha, he⟩ := List.mem_map.1 h
    exact ⟨a, List.mem_range.1 ha, he.symm⟩
  · rw [if_neg h1, if_pos h2] at h
    obtain ⟨a, ha, he⟩ := List.mem_map.1 h
    exact ⟨a, List.mem_range.1 ha, he.symm⟩
  · rw [if_neg h1, if_neg h2] at h
    obtain ⟨a, ha, hb⟩ := List.mem_flatMap.1 h
    obtain ⟨b, hb1, he⟩ := List.mem_map.1 hb
    exact ⟨a, b, List.mem_range.1 ha, List.mem_range.1 hb1, he.symm⟩

theorem support_index_lt (p i ii : Nat) (hi : i < p / 2) (hii : ii < wSupport p) :
    2 * i + ii + 1 ≤ p := by
  unfold wSupport at hii
  split_ifs at hii <;> omega

/-- The arithmetic of one filter step: for a source level with extents at least 1 that
is not 1×1 and an output level with the halved extents, every source offset read is
below `3 * pw * ph` and every destination offset written below `3 * cw * ch`. -/
theorem filter_step_offsets (prev curr : MipLevel) (hw : 1 ≤ prev.width)
    (hh : 1 ≤ prev.height) (hne : ¬(prev.width = 1 ∧ prev.height = 1))
    (hcw : curr.width = halve prev.width) (hch : curr.height = halve prev.height)
    (j i : Nat) (hji : (j, i) ∈ filter_texels prev curr) (c : Nat) (hc : c < 3) :
    (∀ t ∈ filter_taps prev curr j i, t.2 + c < 3 * prev.width * prev.height) ∧
    filter_dest prev curr j i + c < 3 * curr.width * curr.height := by
  obtain ⟨m1, m2, m3⟩ := mem_filter_texels prev curr j i hji
  unfold halve at hcw hch
  by_cases h1 : curr.height = prev.height
  · obtain ⟨hj, hi⟩ := m1 h1
    have hph : prev.height = 1 := by omega
    have hpw : 2 ≤ prev.width := by omega
    have hcw' : curr.width = prev.width / 2 := by omega
    constructor
    · intro t ht
      obtain ⟨ii, hii, rfl⟩ := (mem_filter_taps prev curr j i t ht).1 h1
      have := support_index_lt prev.width i ii (by omega) hii
      rw [hph]
      simp only
      omega
    · simp only [filter_dest, h1, if_true]
      rw [hph]
      omega
  · by_cases h2 : curr.width = prev.width
    · obtain ⟨hi, hj⟩ := m2 h1 h2
      have hpw : prev.width = 1 := by omega
      have hph : 2 ≤ prev.height := by omega
      have hch' : curr.height = prev.height / 2 := by omega
      constructor
      · intro t ht
        obtain ⟨jj, hjj, rfl⟩ := (mem_filter_taps prev curr j i t ht).2.1 h1 h2
        have := support_index_lt prev.height j jj (by omega) hjj
        rw [hpw]
        simp only
        omega
      · simp only [filter_dest, h1, h2, if_true, if_false]
        rw [hpw]
        omega
    · obtain ⟨hj, hi⟩ := m3 h1 h2
      have hpw : 2 ≤ prev.width := by omega
      have hph : 2 ≤ prev.height := by omega
      have hcw' : curr.width = prev.width / 2 := by omega
      have hch' : curr.height = prev.height / 2 := by omega
      constructor
      · intro t ht
        obtain ⟨jj, ii, hjj, hii, rfl⟩ := (mem_filter_taps prev curr j i t ht).2.2 h1 h2
        have hA := support_index_lt prev.height j jj (by omega) hjj
        have hB := support_index_lt prev.width i ii (by omega) hii
        have hmul : prev.width * (2 * j + jj + 1) ≤ prev.width * prev.height :=
          Nat.mul_le_mul_left _ hA
        have e1 : prev.width * 3 * (2 * j + jj) = 3 * (prev.width * (2 * j + jj)) := by ring
        have e2 : prev.width * (2 * j + jj + 1) = prev.width * (2 * j + jj) + prev.width := by
          ring
        have e3 : 3 * prev.width * prev.height = 3 * (prev.width * prev.height) := by ring
        simp only
        rw [e1, e3]
        rw [e2] at hmul
        generalize prev.width * (2 * j + jj) = X at hmul ⊢
        generalize prev.width * prev.height = Y at hmul ⊢
        omega
      · simp only [filter_dest, h1, h2, if_false]
        have hmul : curr.width * (j + 1) ≤ curr.width * curr.height :=
          Nat.mul_le_mul_left _ hj
        have e1 : curr.width * 3 * j = 3 * (curr.width * j) := by ring
        have e2 : curr.width * (j + 1) = curr.width * j + curr.width := by ring
        have e3 : 3 * curr.width * curr.height = 3 * (curr.width * curr.height) := by ring
        rw [e1, e3]
        rw [e2] at hmul
        generalize curr.width * j = X at hmul ⊢
        generalize curr.width * curr.height = Y at hmul ⊢
        omega


theorem channel_to_uint8_le (x : ℚ) : channel_to_uint8 x ≤ 255 := by
  unfold channel_to_uint8
  rw [Int.toNat_le]
  by_contra h
  have h256 : (256 : Int) ≤ Rat.floor (255 * max 0 (min 1 x)) := by omega
  rw [Rat.le_floor] at h256
  have hc : max 0 (min 1 x) ≤ 1 := max_le zero_le_one (min_le_left _ _)
  push_cast at h256
  linarith

theorem float_to_uint8_le (mem : List Nat) (off : Nat) (v : ℚ × ℚ × ℚ)
    (h : ∀ b ∈ mem, b ≤ 255) : ∀ b ∈ float_to_uint8 mem off v, b ≤ 255 := by
  intro b hb
  unfold float_to_uint8 at hb
  rcases List.mem_or_eq_of_mem_set hb with hb | rfl
  · rcases List.mem_or_eq_of_mem_set hb with hb | rfl
    · rcases List.mem_or_eq_of_mem_set hb with hb | rfl
      · exact h b hb
      · exact channel_to_uint8_le _
    · exact channel_to_uint8_le _
  · exact channel_to_uint8_le _

theorem foldl_preserves {α β : Type} (P : β → Prop) (f : β → α → β)
    (hf : ∀ b a, P b → P (f b a)) (l : List α) (b : β) (hb : P b) : P (l.foldl f b) := by
  induction l generalizing b with
  | nil => exact hb
  | cons a l ih => exact ih _ (hf b a hb)

theorem filter_output_le (prev curr : MipLevel) (h : ∀ b ∈ curr.texels, b ≤ 255) :
    ∀ b ∈ filter_output prev curr, b ≤ 255 := by
  rw [filter_output_eq]
  exact foldl_preserves (fun mem => ∀ b ∈ mem, b ≤ 255) _
    (fun mem _ hm => float_to_uint8_le mem _ _ hm) _ _ h

theorem length_filter_output (prev curr : MipLevel) :
    (filter_output prev curr).length = curr.texels.length := by
  rw [filter_output_eq]
  exact length_foldl_of_step _ (fun _ _ => length_float_to_uint8 _ _ _) _ _

/-- A filter step leaves every level with its extents and buffer length, and with
bytes of at most 255 when they were so before. -/
theorem getElem?_filter_level_rel (m : List MipLevel) (l j : Nat) (c : MipLevel)
    (hc : m[j]? = some c) :
    ∃ c' : MipLevel, (filter_level m l)[j]? = some c' ∧ c'.width = c.width ∧
      c'.height = c.height ∧ c'.texels.length = c.texels.length ∧
      ((∀ b ∈ c.texels, b ≤ 255) → ∀ b ∈ c'.texels, b ≤ 255) := by
  by_cases hjl : j = l
  · subst hjl
    have hlt : j < m.length := (List.getElem?_eq_some.1 hc).1
    have hget : m.getD j default = c := by simp [List.getD_eq_getElem?_getD, hc]
    refine ⟨_, by rw [filter_level_eq]; exact List.getElem?_set_self hlt, ?_, ?_, ?_, ?_⟩
    · simp only [hget]
    · simp only [hget]
    · simp only [hget, length_filter_output]
    · intro hb
      simp only [hget]
      exact filter_output_le _ _ hb
  · exact ⟨c, by rw [getElem?_filter_level_ne m l j hjl, hc], rfl, rfl, rfl, fun h => h⟩

/-- Every pair bound by the `create mips` loop is, up to the texel bytes, the pair of
levels `mipLevel - 1` and `mipLevel` of the pyramid the loop started from. -/
theorem filter_steps_rel (ls : List Nat) (m : List MipLevel) (step : MipLevel × MipLevel)
    (h : step ∈ filter_steps m ls) :
    ∃ l ∈ ls,
      (∀ c : MipLevel, m[l - 1]? = some c →
        step.1.width = c.width ∧ step.1.height = c.height ∧
          step.1.texels.length = c.texels.length ∧
          ((∀ b ∈ c.texels, b ≤ 255) → ∀ b ∈ step.1.texels, b ≤ 255)) ∧
      (∀ c : MipLevel, m[l]? = some c →
        step.2.width = c.width ∧ step.2.height = c.height ∧
          step.2.texels.length = c.texels.length ∧
          ((∀ b ∈ c.texels, b ≤ 255) → ∀ b ∈ step.2.texels, b ≤ 255)) := by
  induction ls generalizing m with
  | nil => simp [filter_steps] at h
  | cons a ls ih =>
    rw [filter_steps, List.mem_cons] at h
    rcases h with h | h
    · subst h
      refine ⟨a, List.mem_cons_self _ _, ?_, ?_⟩
      · intro c hc
        have hget : m.getD (a - 1) default = c := by simp [List.getD_eq_getElem?_getD, hc]
        rw [hget]
        exact ⟨rfl, rfl, rfl, fun h => h⟩
      · intro c hc
        have hget : m.getD a default = c := by simp [List.getD_eq_getElem?_getD, hc]
        rw [hget]
        exact ⟨rfl, rfl, rfl, fun h => h⟩
    · obtain ⟨l, hl, h1, h2⟩ := ih (filter_level m a) h
      refine ⟨l, List.mem_cons_of_mem _ hl, ?_, ?_⟩
      · intro c hc
        obtain ⟨c', hc', e1, e2, e3, e4⟩ := getElem?_filter_level_rel m a (l - 1) c hc
        obtain ⟨f1, f2, f3, f4⟩ := h1 c' hc'
        exact ⟨f1.trans e1, f2.trans e2, f3.trans e3, fun hb => f4 (e4 hb)⟩
      · intro c hc
        obtain ⟨c', hc', e1, e2, e3, e4⟩ := getElem?_filter_level_rel m a l c hc
        obtain ⟨f1, f2, f3, f4⟩ := h2 c' hc'
        exact ⟨f1.trans e1, f2.trans e2, f3.trans e3, fun hb => f4 (e4 hb)⟩


/-- The filter steps that `generate_mips` executes on a start level with extents at
least 1: the source level has extents at least 1 and is not 1×1, the output level has
the halved extents and a buffer of `3 * cw * ch` bytes, and the source level has a
buffer of `3 * pw * ph` bytes of at most 255 when the start level has. -/
theorem generate_mips_filter_steps_spec (kMax : Nat) (mipmap : List MipLevel) (s : Nat)
    (base : MipLevel) (hb : mipmap[s]? = some base) (hw : 1 ≤ base.width)
    (hh : 1 ≤ base.height) (step : MipLevel × MipLevel)
    (hstep : step ∈ generate_mips_filter_steps kMax mipmap s) :
    1 ≤ step.1.width ∧ 1 ≤ step.1.height ∧ ¬(step.1.width = 1 ∧ step.1.height = 1) ∧
    step.2.width = halve step.1.width ∧ step.2.height = halve step.1.height ∧
    step.2.texels.length = 3 * step.2.width * step.2.height ∧
    (base.texels.length = 3 * base.width * base.height →
      step.1.texels.length = 3 * step.1.width * step.1.height) ∧
    ((∀ b ∈ base.texels, b ≤ 255) → ∀ b ∈ step.1.texels, b ≤ 255) := by
  have hpos : max base.width base.height ≠ 0 := by omega
  have hlt : s < mipmap.length := (List.getElem?_eq_some.1 hb).1
  by_cases hcap : s + 1 ≤ kMax
  · generalize hn : min (Nat.log2 (max base.width base.height)) (kMax - s - 1) = n at *
    have hnlog : n ≤ Nat.log2 (max base.width base.height) := by omega
    have hnum : min ((Nat.log2 (max base.width base.height) : Nat) : Int)
        ((kMax : Int) - (s : Int) - 1) = (n : Int) := by omega
    have e1 : ((s : Int) + (n : Int) + 1).toNat = s + n + 1 := by omega
    have e2 : ((n : Int)).toNat = n := by omega
    have e3 : ((n : Int) - ((s : Int) + 1)).toNat = n - (s + 1) := by omega
    unfold generate_mips_filter_steps at hstep
    simp only [hb, hpos, if_false, hnum, e1, e2, e3] at hstep
    obtain ⟨_, _, a3, a4, a5⟩ := alloc_fold_spec s base.width base.height
      (resize mipmap (s + n + 1)) n (by rw [length_resize]; omega)
    obtain ⟨l, hl, r1, r2⟩ := filter_steps_rel _ _ step hstep
    have hl' := List.mem_range'_1.1 hl
    obtain ⟨i, rfl⟩ : ∃ i, l = s + (i + 1) := ⟨l - s - 1, by omega⟩
    have hprev : ∃ c : MipLevel,
        ((List.range' 1 n).foldl (alloc_step s)
          (base.width, base.height, resize mipmap (s + n + 1))).2.2[s + (i + 1) - 1]? = some c ∧
        c.width = halve^[i] base.width ∧ c.height = halve^[i] base.height ∧
        (base.texels.length = 3 * base.width * base.height →
          c.texels.length = 3 * c.width * c.height) ∧
        ((∀ b ∈ base.texels, b ≤ 255) → ∀ b ∈ c.texels, b ≤ 255) := by
      rw [show s + (i + 1) - 1 = s + i by omega]
      rcases Nat.eq_zero_or_pos i with h0 | h0
      · subst h0
        refine ⟨base, ?_, rfl, rfl, fun h => h, fun h => h⟩
        exact (a4 s le_rfl).trans ((getElem?_resize _ _ _ (by omega) hlt).trans hb)
      · refine ⟨_, a5 i h0 (by omega), rfl, rfl, fun _ => by simp, ?_⟩
        intro _ b hb'
        rw [List.eq_of_mem_replicate hb']
        omega
    obtain ⟨c, hc, pw, ph, plen, pbytes⟩ := hprev
    obtain ⟨q1, q2, q3, q4⟩ := r1 c hc
    obtain ⟨t1, t2, t3, _⟩ := r2 _ (a5 (i + 1) (by omega) (by omega))
    simp only at t1 t2 t3
    have hnot : ¬(halve^[i] base.width = 1 ∧ halve^[i] base.height = 1) := by
      intro hone
      have := (halve_both_one_iff i base.width base.height hw hh).1 hone
      omega
    refine ⟨?_, ?_, ?_, ?_, ?_, ?_, ?_, ?_⟩
    · rw [q1, pw]
      exact one_le_halve_iterate i _ hw
    · rw [q2, ph]
      exact one_le_halve_iterate i _ hh
    · rw [q1, q2, pw, ph]
      exact hnot
    · rw [t1, q1, pw, Function.iterate_succ_apply']
    · rw [t2, q2, ph, Function.iterate_succ_apply']
    · rw [t3, t1, t2, List.length_replicate]
    · intro hlen
      rw [q3, q1, q2]
      exact plen hlen
    · intro hbytes
      exact q4 (pbytes hbytes)
  · have hnum : min ((Nat.log2 (max base.width base.height) : Nat) : Int)
        ((kMax : Int) - (s : Int) - 1) = (kMax : Int) - (s : Int) - 1 := by omega
    have e3 : ((kMax : Int) - (s : Int) - 1 - ((s : Int) + 1)).toNat = 0 := by omega
    unfold generate_mips_filter_steps at hstep
    simp only [hb, hpos, if_false, hnum, e3, List.range'_zero, filter_steps] at hstep
    exact absurd hstep (List.not_mem_nil _)


/-- The `create mips` loop as a fold over its executed steps: each step stores
`filter_output` of its pair of levels at its index. -/
theorem foldl_filter_level_steps (ls : List Nat) (m : List MipLevel) :
    ls.foldl filter_level m =
      (ls.zip (filter_steps m ls)).foldl
        (fun acc p => acc.set p.1 { p.2.2 with texels := filter_output p.2.1 p.2.2 }) m := by
  induction ls generalizing m with
  | nil => rfl
  | cons l rest ih =>
    rw [List.foldl_cons, ih, filter_steps, List.zip_cons_cons, List.foldl_cons, filter_level_eq]

/-! ## Claims on the filter offsets and values -/

/-- C18: for every filter step that `generate_mips` executes on a start level with
extents at least 1, every output texel `(j, i)` the step visits, every pass of its inner
loops and every channel `c < 3`, the source byte offset read is below `3 * pw * ph` and
the destination byte offset written is below `3 * cw * ch`, which is the length of the
destination buffer; the source buffer has `3 * pw * ph` bytes when the start level's
buffer has `3 * width * height`. -/
theorem generate_mips_filter_offsets_in_bounds (kMax : Nat) (mipmap : List MipLevel) (s : Nat)
    (base : MipLevel) (hb : mipmap[s]? = some base) (hw : 1 ≤ base.width)
    (hh : 1 ≤ base.height) (step : MipLevel × MipLevel)
    (hstep : step ∈ generate_mips_filter_steps kMax mipmap s) (j i : Nat)
    (hji : (j, i) ∈ filter_texels step.1 step.2) (c : Nat) (hc : c < 3) :
    (∀ t ∈ filter_taps step.1 step.2 j i, t.2 + c < 3 * step.1.width * step.1.height) ∧
    filter_dest step.1 step.2 j i + c < 3 * step.2.width * step.2.height ∧
    filter_dest step.1 step.2 j i + c < step.2.texels.length ∧
    (base.texels.length = 3 * base.width * base.height →
      ∀ t ∈ filter_taps step.1 step.2 j i, t.2 + c < step.1.texels.length) := by
  obtain ⟨p1, p2, p3, p4, p5, p6, p7, _⟩ :=
    generate_mips_filter_steps_spec kMax mipmap s base hb hw hh step hstep
  obtain ⟨q1, q2⟩ := filter_step_offsets step.1 step.2 p1 p2 p3 p4 p5 j i hji c hc
  refine ⟨q1, q2, ?_, ?_⟩
  · rw [p6]
    exact q2
  · intro hlen t ht
    rw [p7 hlen]
    exact q1 t ht

theorem generate_mips_filter_offsets_in_bounds_witness :
    ([(⟨5, 3, List.replicate 45 200⟩ : MipLevel)][0]? = some ⟨5, 3, List.replicate 45 200⟩ ∧
      1 ≤ 5 ∧ 1 ≤ 3 ∧
      ((⟨5, 3, List.replicate 45 200⟩, ⟨2, 1, List.replicate 6 0⟩) : MipLevel × MipLevel) ∈
        generate_mips_filter_steps 14 [⟨5, 3, List.replicate 45 200⟩] 0 ∧
      (0, 1) ∈ filter_texels ⟨5, 3, List.replicate 45 200⟩ ⟨2, 1, List.replicate 6 0⟩ ∧
      2 < 3) ∧
    ((∀ t ∈ filter_taps ⟨5, 3, List.replicate 45 200⟩ ⟨2, 1, List.replicate 6 0⟩ 0 1,
        t.2 + 2 < 3 * 5 * 3) ∧
      filter_dest ⟨5, 3, List.replicate 45 200⟩ ⟨2, 1, List.replicate 6 0⟩ 0 1 + 2 < 3 * 2 * 1 ∧
      filter_dest ⟨5, 3, List.replicate 45 200⟩ ⟨2, 1, List.replicate 6 0⟩ 0 1 + 2 <
        (List.replicate 6 0).length ∧
      ((List.replicate 45 200).length = 3 * 5 * 3 →
        ∀ t ∈ filter_taps ⟨5, 3, List.replicate 45 200⟩ ⟨2, 1, List.replicate 6 0⟩ 0 1,
          t.2 + 2 < (List.replicate 45 200).length)) :=
  ⟨⟨rfl, by decide, by decide, by decide!, by decide!, by decide⟩,
    generate_mips_filter_offsets_in_bounds 14 [⟨5, 3, List.replicate 45 200⟩] 0
      ⟨5, 3, List.replicate 45 200⟩ rfl (by decide) (by decide)
      (⟨5, 3, List.replicate 45 200⟩, ⟨2, 1, List.replicate 6 0⟩) (by decide!) 0 1
      (by decide!) 2 (by decide)⟩


/-! ## Lemmas on the filter values -/

theorem channel_accumulate (r : ℚ × ℚ × ℚ) (w : ℚ) (x : ℚ × ℚ × ℚ) (c : Nat) :
    channel (accumulate r w x) c = channel r c + w * channel x c := by
  rcases c with _ | _ | c <;> rfl

theorem channel_uint8_to_float (src : List Nat) (off c : Nat) (hc : c < 3) :
    channel (uint8_to_float src off) c = (src.getD (off + c) 0 : ℚ) / 255 := by
  rcases c with _ | _ | _ | c
  · rfl
  · rfl
  · rfl
  · omega

/-- The accumulated `result` of one output texel, channel by channel, is the weighted
sum of the source bytes scaled by `1/255`. -/
theorem channel_foldl_accumulate (taps : List (ℚ × Nat)) (mem : List Nat) (r : ℚ × ℚ × ℚ)
    (c : Nat) (hc : c < 3) :
    channel (taps.foldl (fun r t => accumulate r t.1 (uint8_to_float mem t.2)) r) c =
      channel r c + (taps.map fun t => t.1 * ((mem.getD (t.2 + c) 0 : ℚ) / 255)).sum := by
  induction taps generalizing r with
  | nil => simp
  | cons t taps ih =>
    rw [List.foldl_cons, ih, channel_accumulate, channel_uint8_to_float _ _ _ hc,
      List.map_cons, List.sum_cons, add_assoc]

theorem weighted_sum_bounds (taps : List (ℚ × Nat)) (f : Nat → ℚ) (lo hi : ℚ)
    (hw : ∀ t ∈ taps, 0 ≤ t.1) (hf : ∀ t ∈ taps, lo ≤ f t.2 ∧ f t.2 ≤ hi) :
    lo * (taps.map Prod.fst).sum ≤ (taps.map fun t => t.1 * f t.2).sum ∧
    (taps.map fun t => t.1 * f t.2).sum ≤ hi * (taps.map Prod.fst).sum := by
  induction taps with
  | nil => simp
  | cons t taps ih =>
    have h1 := hw t (List.mem_cons_self _ _)
    have h2 := hf t (List.mem_cons_self _ _)
    obtain ⟨i1, i2⟩ := ih (fun t ht => hw t (List.mem_cons_of_mem _ ht))
      (fun t ht => hf t (List.mem_cons_of_mem _ ht))
    have m1 := mul_le_mul_of_nonneg_left h2.1 h1
    have m2 := mul_le_mul_of_nonneg_left h2.2 h1
    simp only [List.map_cons, List.sum_cons, mul_add]
    constructor <;> linarith

theorem wWeight_nonneg (pw cw i ii : Nat) (hi : i < cw) : 0 ≤ wWeight pw cw i ii := by
  have hcw : (0 : ℚ) < (cw : ℚ) := by exact_mod_cast (by omega : 0 < cw)
  have hd0 : 0 ≤ wDecimal pw cw := by
    unfold wDecimal
    split
    · positivity
    · exact le_rfl
  have hd1 : wDecimal pw cw * (i : ℚ) ≤ 1 := by
    unfold wDecimal
    split
    · rw [one_div_mul_eq_div, div_le_one hcw]
      exact_mod_cast hi.le
    · rw [zero_mul]
      exact zero_le_one
  have hn : 0 ≤ wNorm pw cw := div_nonneg zero_le_one (by linarith)
  rcases ii with _ | _ | ii
  · exact mul_nonneg hn (by linarith)
  · exact mul_nonneg hn zero_le_one
  · exact mul_nonneg (mul_nonneg hn hd0) (by positivity)

theorem sum_map_flatMap {α β : Type} (l : List α) (f : α → List β) (g : β → ℚ) :
    ((l.flatMap f).map g).sum = (l.map fun a => ((f a).map g).sum).sum := by
  induction l with
  | nil => rfl
  | cons a l ih =>
    rw [List.flatMap_cons, List.map_append, List.sum_append, ih, List.map_cons, List.sum_cons]

/-- The weights applied for one output texel sum to 1. -/
theorem filter_taps_sum (prev curr : MipLevel) (j i : Nat) :
    ((filter_taps prev curr j i).map Prod.fst).sum = 1 := by
  unfold filter_taps
  split
  · rw [List.map_map]
    exact wWeight_sum _ _ _
  · split
    · rw [List.map_map]
      exact hWeight_sum _ _ _
    · rw [sum_map_flatMap]
      have h : ∀ jj, (((List.range (wSupport prev.width)).map fun ii =>
          (hWeight prev.height curr.height j jj * wWeight prev.width curr.width i ii,
            prev.width * 3 * (2 * j + jj) + 3 * (2 * i + ii))).map Prod.fst).sum =
          hWeight prev.height curr.height j jj := by
        intro jj
        rw [List.map_map]
        exact (sum_map_mul_left_rat _ _ _).trans (by rw [wWeight_sum, mul_one])
      simp only [h]
      exact hWeight_sum _ _ _

/-- The weights applied for an output texel that the step visits are not negative. -/
theorem filter_taps_nonneg (prev curr : MipLevel) (j i : Nat)
    (hji : (j, i) ∈ filter_texels prev curr) :
    ∀ t ∈ filter_taps prev curr j i, 0 ≤ t.1 := by
  intro t ht
  obtain ⟨m1, m2, m3⟩ := mem_filter_texels prev curr j i hji
  obtain ⟨t1, t2, t3⟩ := mem_filter_taps prev curr j i t ht
  by_cases h1 : curr.height = prev.height
  · obtain ⟨ii, _, rfl⟩ := t1 h1
    exact wWeight_nonneg _ _ _ _ (m1 h1).2
  · by_cases h2 : curr.width = prev.width
    · obtain ⟨jj, _, rfl⟩ := t2 h1 h2
      rw [hWeight_eq_wWeight]
      exact wWeight_nonneg _ _ _ _ (m2 h1 h2).2
    · obtain ⟨jj, ii, _, _, rfl⟩ := t3 h1 h2
      refine mul_nonneg ?_ (wWeight_nonneg _ _ _ _ (m3 h1 h2).2)
      rw [hWeight_eq_wWeight]
      exact wWeight_nonneg _ _ _ _ (m3 h1 h2).1

/-- The accumulated `result` lies between any bounds of the source bytes read, scaled
by `1/255`. -/
theorem filter_result_bounds (prev curr : MipLevel) (j i : Nat)
    (hji : (j, i) ∈ filter_texels prev curr) (c : Nat) (hc : c < 3) (lo hi : Nat)
    (hb : ∀ t ∈ filter_taps prev curr j i,
      lo ≤ prev.texels.getD (t.2 + c) 0 ∧ prev.texels.getD (t.2 + c) 0 ≤ hi) :
    (lo : ℚ) / 255 ≤ channel (filter_result prev curr j i) c ∧
    channel (filter_result prev curr j i) c ≤ (hi : ℚ) / 255 := by
  unfold filter_result
  rw [channel_foldl_accumulate _ _ _ _ hc]
  have hz : channel ((0 : ℚ), (0 : ℚ), (0 : ℚ)) c = 0 := by
    rcases c with _ | _ | c <;> rfl
  obtain ⟨b1, b2⟩ := weighted_sum_bounds (filter_taps prev curr j i)
    (fun off => (prev.texels.getD (off + c) 0 : ℚ) / 255) ((lo : ℚ) / 255) ((hi : ℚ) / 255)
    (filter_taps_nonneg prev curr j i hji)
    (fun t ht => by
      obtain ⟨h1, h2⟩ := hb t ht
      constructor
      · exact div_le_div_of_nonneg_right (by exact_mod_cast h1) (by norm_num)
      · exact div_le_div_of_nonneg_right (by exact_mod_cast h2) (by norm_num))
  rw [filter_taps_sum, mul_one] at b1 b2
  rw [hz, zero_add]
  exact ⟨b1, b2⟩

/-- Conversion back to a byte by truncation keeps integer bounds. -/
theorem channel_to_uint8_bounds (x : ℚ) (lo hi : Nat) (hhi : hi ≤ 255)
    (h1 : (lo : ℚ) / 255 ≤ x) (h2 : x ≤ (hi : ℚ) / 255) :
    max 0 (min 1 x) = x ∧ lo ≤ channel_to_uint8 x ∧ channel_to_uint8 x ≤ hi := by
  have hx0 : 0 ≤ x := le_trans (by positivity) h1
  have hhiq : (hi : ℚ) ≤ 255 := by exact_mod_cast hhi
  have hx1 : x ≤ 1 := le_trans h2 (by rw [div_le_one (by norm_num)]; exact hhiq)
  have hcl : max 0 (min 1 x) = x := by rw [min_eq_right hx1, max_eq_right hx0]
  refine ⟨hcl, ?_, ?_⟩
  · unfold channel_to_uint8
    rw [hcl]
    have : (lo : Int) ≤ Rat.floor (255 * x) := by
      rw [Rat.le_floor]
      push_cast
      rw [div_le_iff₀ (by norm_num)] at h1
      linarith
    omega
  · unfold channel_to_uint8
    rw [hcl]
    have hf : ((Rat.floor (255 * x) : Int) : ℚ) ≤ 255 * x := Int.floor_le (255 * x)
    have : Rat.floor (255 * x) ≤ (hi : Int) := by
      have h3 : ((Rat.floor (255 * x) : Int) : ℚ) ≤ ((hi : Int) : ℚ) := by
        push_cast
        rw [le_div_iff₀ (by norm_num)] at h2
        linarith
      exact_mod_cast h3
    omega

/-- Conversion of a byte to a float and back is the identity. -/
theorem channel_to_uint8_of_byte (b : Nat) (hb : b ≤ 255) :
    channel_to_uint8 ((b : ℚ) / 255) = b := by
  obtain ⟨_, h1, h2⟩ := channel_to_uint8_bounds ((b : ℚ) / 255) b b hb le_rfl le_rfl
  omega

theorem getD_float_to_uint8_self (dst : List Nat) (off : Nat) (src : ℚ × ℚ × ℚ) (c : Nat)
    (hc : c < 3) (h : off + 3 ≤ dst.length) :
    (float_to_uint8 dst off src).getD (off + c) 0 = channel_to_uint8 (channel src c) := by
  unfold float_to_uint8
  have h0 : off < dst.length := by omega
  have h1 : off + 1 < dst.length := by omega
  have h2 : off + 2 < dst.length := by omega
  rcases c with _ | _ | _ | c
  · simp [List.getD_eq_getElem?_getD, List.getElem?_set, channel, h0]
  · simp [List.getD_eq_getElem?_getD, List.getElem?_set, channel, h1]
  · simp [List.getD_eq_getElem?_getD, List.getElem?_set, channel, h2]
  · omega

theorem getD_float_to_uint8_other (dst : List Nat) (off : Nat) (src : ℚ × ℚ × ℚ) (k : Nat)
    (h : k < off ∨ off + 3 ≤ k) :
    (float_to_uint8 dst off src).getD k 0 = dst.getD k 0 := by
  unfold float_to_uint8
  have e1 : off ≠ k := by omega
  have e2 : off + 1 ≠ k := by omega
  have e3 : off + 2 ≠ k := by omega
  simp [List.getD_eq_getElem?_getD, List.getElem?_set, e1, e2, e3]

/-- After a run of `float_to_uint8` writes at pairwise disjoint offsets inside the
buffer, the bytes at the offset of any of the writes are the converted channels of that
write. -/
theorem getD_foldl_float_to_uint8 {α : Type} (D : α → Nat) (R : α → ℚ × ℚ × ℚ)
    (xs : List α) (mem : List Nat)
    (hdisj : ∀ x ∈ xs, ∀ y ∈ xs, x = y ∨ D x + 3 ≤ D y ∨ D y + 3 ≤ D x)
    (hlen : ∀ x ∈ xs, D x + 3 ≤ mem.length) (x0 : α) (hx0 : x0 ∈ xs) (c : Nat) (hc : c < 3) :
    (xs.foldl (fun m x => float_to_uint8 m (D x) (R x)) mem).getD (D x0 + c) 0 =
      channel_to_uint8 (channel (R x0) c) := by
  induction xs using List.reverseRecOn with
  | nil => exact absurd hx0 (List.not_mem_nil _)
  | append_singleton ys y ih =>
    rw [List.foldl_append, List.foldl_cons, List.foldl_nil]
    have hl : (ys.foldl (fun m x => float_to_uint8 m (D x) (R x)) mem).length = mem.length :=
      length_foldl_of_step _ (fun m x => length_float_to_uint8 _ _ _) _ _
    have hy : y ∈ ys ++ [y] := List.mem_append_right _ (List.mem_singleton_self y)
    rcases hdisj x0 hx0 y hy with rfl | hd | hd
    · exact getD_float_to_uint8_self _ _ _ _ hc (by rw [hl]; exact hlen _ hy)
    · have hin : x0 ∈ ys := by
        rcases List.mem_append.1 hx0 with h | h
        · exact h
        · rw [List.mem_singleton.1 h] at hd
          omega
      rw [getD_float_to_uint8_other _ _ _ _ (by omega)]
      exact ih (fun x hx z hz => hdisj x (List.mem_append_left _ hx) z (List.mem_append_left _ hz))
        (fun x hx => hlen x (List.mem_append_left _ hx)) hin
    · have hin : x0 ∈ ys := by
        rcases List.mem_append.1 hx0 with h | h
        · exact h
        · rw [List.mem_singleton.1 h] at hd
          omega
      rw [getD_float_to_uint8_other _ _ _ _ (by omega)]
      exact ih (fun x hx z hz => hdisj x (List.mem_append_left _ hx) z (List.mem_append_left _ hz))
        (fun x hx => hlen x (List.mem_append_left _ hx)) hin


/-- Two different output texels of a filter step are written at disjoint byte ranges. -/
theorem filter_dest_disjoint (prev curr : MipLevel) (hcw : 1 ≤ curr.width) (x y : Nat × Nat)
    (hx : x ∈ filter_texels prev curr) (hy : y ∈ filter_texels prev curr) :
    x = y ∨ filter_dest prev curr x.1 x.2 + 3 ≤ filter_dest prev curr y.1 y.2 ∨
      filter_dest prev curr y.1 y.2 + 3 ≤ filter_dest prev curr x.1 x.2 := by
  obtain ⟨j, i⟩ := x
  obtain ⟨j', i'⟩ := y
  obtain ⟨m1, m2, m3⟩ := mem_filter_texels prev curr j i hx
  obtain ⟨n1, n2, n3⟩ := mem_filter_texels prev curr j' i' hy
  unfold filter_dest
  by_cases h1 : curr.height = prev.height
  · simp only [if_pos h1]
    obtain ⟨hj, _⟩ := m1 h1
    obtain ⟨hj', _⟩ := n1 h1
    subst hj
    subst hj'
    rcases Nat.lt_trichotomy i i' with h | h | h
    · right; left; omega
    · left; rw [h]
    · right; right; omega
  · by_cases h2 : curr.width = prev.width
    · simp only [if_neg h1, if_pos h2]
      obtain ⟨hi, _⟩ := m2 h1 h2
      obtain ⟨hi', _⟩ := n2 h1 h2
      subst hi
      subst hi'
      rcases Nat.lt_trichotomy j j' with h | h | h
      · right; left
        have hm := Nat.mul_le_mul_left (curr.width * 3) (show j + 1 ≤ j' from h)
        rw [Nat.mul_add, Nat.mul_one] at hm
        generalize curr.width * 3 * j = A at hm ⊢
        generalize curr.width * 3 * j' = B at hm ⊢
        omega
      · left; rw [h]
      · right; right
        have hm := Nat.mul_le_mul_left (curr.width * 3) (show j' + 1 ≤ j from h)
        rw [Nat.mul_add, Nat.mul_one] at hm
        generalize curr.width * 3 * j = A at hm ⊢
        generalize curr.width * 3 * j' = B at hm ⊢
        omega
    · simp only [if_neg h1, if_neg h2]
      obtain ⟨_, hi⟩ := m3 h1 h2
      obtain ⟨_, hi'⟩ := n3 h1 h2
      rcases Nat.lt_trichotomy j j' with h | h | h
      · right; left
        have hm := Nat.mul_le_mul_left (curr.width * 3) (show j + 1 ≤ j' from h)
        rw [Nat.mul_add, Nat.mul_one] at hm
        generalize curr.width * 3 * j = A at hm ⊢
        generalize curr.width * 3 * j' = B at hm ⊢
        omega
      · subst h
        rcases Nat.lt_trichotomy i i' with h | h | h
        · right; left; omega
        · left; rw [h]
        · right; right; omega
      · right; right
        have hm := Nat.mul_le_mul_left (curr.width * 3) (show j' + 1 ≤ j from h)
        rw [Nat.mul_add, Nat.mul_one] at hm
        generalize curr.width * 3 * j = A at hm ⊢
        generalize curr.width * 3 * j' = B at hm ⊢
        omega

/-- The bytes a filter step leaves at the offset of output texel `(j, i)` are the
converted channels of that texel's accumulated `result`. -/
theorem getD_filter_output (prev curr : MipLevel) (hcw : 1 ≤ curr.width)
    (hlen : ∀ x ∈ filter_texels prev curr,
      filter_dest prev curr x.1 x.2 + 3 ≤ curr.texels.length)
    (j i : Nat) (hji : (j, i) ∈ filter_texels prev curr) (c : Nat) (hc : c < 3) :
    (filter_output prev curr).getD (filter_dest prev curr j i + c) 0 =
      channel_to_uint8 (channel (filter_result prev curr j i) c) := by
  rw [filter_output_eq]
  exact getD_foldl_float_to_uint8 (fun x : Nat × Nat => filter_dest prev curr x.1 x.2)
    (fun x : Nat × Nat => filter_result prev curr x.1 x.2) _ _
    (fun x hx y hy => filter_dest_disjoint prev curr hcw x y hx hy) hlen (j, i) hji c hc

theorem getD_le_of_forall_le (l : List Nat) (h : ∀ b ∈ l, b ≤ 255) (k : Nat) :
    l.getD k 0 ≤ 255 := by
  rw [List.getD_eq_getElem?_getD]
  rcases hk : l[k]? with _ | b
  · exact Nat.zero_le _
  · obtain ⟨hlt, rfl⟩ := List.getElem?_eq_some.1 hk
    exact h _ (List.getElem_mem ..)

/-- C19: for every filter step that `generate_mips` executes on a start level with
extents at least 1 whose buffer holds `3 * width * height` bytes, every output texel
`(j, i)` the step visits and every channel `c < 3`: every weight applied is at least 0
and every source byte read lies inside the source buffer; the byte the step stores for
the texel is the truncation of `255 *` the clamped accumulated value; it lies between
any lower and upper bound of that channel over the source bytes read for the texel,
hence between their minimum and maximum; the clamp to `[0, 1]` leaves the accumulated
value unchanged; and converting a byte to a float and back gives the byte. -/
theorem generate_mips_filter_within_input_range (kMax : Nat) (mipmap : List MipLevel)
    (s : Nat) (base : MipLevel) (hb : mipmap[s]? = some base) (hw : 1 ≤ base.width)
    (hh : 1 ≤ base.height) (hlen : base.texels.length = 3 * base.width * base.height)
    (hbytes : ∀ b ∈ base.texels, b ≤ 255) (step : MipLevel × MipLevel)
    (hstep : step ∈ generate_mips_filter_steps kMax mipmap s) (j i : Nat)
    (hji : (j, i) ∈ filter_texels step.1 step.2) (c : Nat) (hc : c < 3) :
    (∀ t ∈ filter_taps step.1 step.2 j i, 0 ≤ t.1 ∧ t.2 + c < step.1.texels.length) ∧
    (filter_output step.1 step.2).getD (filter_dest step.1 step.2 j i + c) 0 =
      channel_to_uint8 (channel (filter_result step.1 step.2 j i) c) ∧
    (∀ lo hi : Nat,
      (∀ t ∈ filter_taps step.1 step.2 j i,
        lo ≤ step.1.texels.getD (t.2 + c) 0 ∧ step.1.texels.getD (t.2 + c) 0 ≤ hi) →
      lo ≤ (filter_output step.1 step.2).getD (filter_dest step.1 step.2 j i + c) 0 ∧
      (filter_output step.1 step.2).getD (filter_dest step.1 step.2 j i + c) 0 ≤ hi) ∧
    max 0 (min 1 (channel (filter_result step.1 step.2 j i) c)) =
      channel (filter_result step.1 step.2 j i) c ∧
    (∀ (src : List Nat) (off k : Nat), (∀ b ∈ src, b ≤ 255) → k < 3 →
      channel_to_uint8 (channel (uint8_to_float src off) k) = src.getD (off + k) 0) := by
  obtain ⟨p1, p2, p3, p4, p5, p6, p7, p8⟩ :=
    generate_mips_filter_steps_spec kMax mipmap s base hb hw hh step hstep
  have hprev := p8 hbytes
  have hcw : 1 ≤ step.2.width := by
    rw [p4]
    exact one_le_halve _
  have hdest : ∀ x ∈ filter_texels step.1 step.2,
      filter_dest step.1 step.2 x.1 x.2 + 3 ≤ step.2.texels.length := by
    intro x hx
    have := (filter_step_offsets step.1 step.2 p1 p2 p3 p4 p5 x.1 x.2 hx 2 (by omega)).2
    rw [p6]
    omega
  have hstored := getD_filter_output step.1 step.2 hcw hdest j i hji c hc
  have hrange : ∀ lo hi : Nat,
      (∀ t ∈ filter_taps step.1 step.2 j i,
        lo ≤ step.1.texels.getD (t.2 + c) 0 ∧ step.1.texels.getD (t.2 + c) 0 ≤ hi) →
      max 0 (min 1 (channel (filter_result step.1 step.2 j i) c)) =
        channel (filter_result step.1 step.2 j i) c ∧
      lo ≤ channel_to_uint8 (channel (filter_result step.1 step.2 j i) c) ∧
      channel_to_uint8 (channel (filter_result step.1 step.2 j i) c) ≤ hi := by
    intro lo hi hbd
    obtain ⟨r1, r2⟩ := filter_result_bounds step.1 step.2 j i hji c hc lo (min hi 255)
      (fun t ht => ⟨(hbd t ht).1,
        le_min (hbd t ht).2 (getD_le_of_forall_le _ hprev _)⟩)
    obtain ⟨q0, q1, q2⟩ := channel_to_uint8_bounds _ lo (min hi 255) (min_le_right _ _) r1 r2
    exact ⟨q0, q1, le_trans q2 (min_le_left _ _)⟩
  refine ⟨fun t ht => ⟨filter_taps_nonneg step.1 step.2 j i hji t ht, ?_⟩, hstored, ?_, ?_, ?_⟩
  · rw [p7 hlen]
    exact (filter_step_offsets step.1 step.2 p1 p2 p3 p4 p5 j i hji c hc).1 t ht
  · intro lo hi hbd
    rw [hstored]
    exact (hrange lo hi hbd).2
  · exact (hrange 0 255 (fun t _ =>
      ⟨Nat.zero_le _, getD_le_of_forall_le _ hprev _⟩)).1
  · intro src off k hsrc hk
    rw [channel_uint8_to_float _ _ _ hk]
    exact channel_to_uint8_of_byte _ (getD_le_of_forall_le _ hsrc _)

theorem generate_mips_filter_within_input_range_witness :
    ([(⟨5, 3, List.replicate 45 200⟩ : MipLevel)][0]? = some ⟨5, 3, List.replicate 45 200⟩ ∧
      1 ≤ 5 ∧ 1 ≤ 3 ∧ (List.replicate 45 200).length = 3 * 5 * 3 ∧
      (∀ b ∈ List.replicate 45 200, b ≤ 255) ∧
      ((⟨5, 3, List.replicate 45 200⟩, ⟨2, 1, List.replicate 6 0⟩) : MipLevel × MipLevel) ∈ generate_mips_filter_steps 14 [⟨5, 3, List.replicate 45 200⟩] 0 ∧
      (0, 1) ∈ filter_texels ⟨5, 3, List.replicate 45 200⟩ ⟨2, 1, List.replicate 6 0⟩ ∧ 2 < 3) ∧
    ((∀ t ∈ filter_taps ⟨5, 3, List.replicate 45 200⟩ ⟨2, 1, List.replicate 6 0⟩ 0 1, 0 ≤ t.1 ∧ t.2 + 2 < (List.replicate 45 200).length) ∧
      (filter_output ⟨5, 3, List.replicate 45 200⟩ ⟨2, 1, List.replicate 6 0⟩).getD (filter_dest ⟨5, 3, List.replicate 45 200⟩ ⟨2, 1, List.replicate 6 0⟩ 0 1 + 2) 0 =
        channel_to_uint8 (channel (filter_result ⟨5, 3, List.replicate 45 200⟩ ⟨2, 1, List.replicate 6 0⟩ 0 1) 2) ∧
      (∀ lo hi : Nat,
        (∀ t ∈ filter_taps ⟨5, 3, List.replicate 45 200⟩ ⟨2, 1, List.replicate 6 0⟩ 0 1,
          lo ≤ (List.replicate 45 200).getD (t.2 + 2) 0 ∧
            (List.replicate 45 200).getD (t.2 + 2) 0 ≤ hi) →
        lo ≤ (filter_output ⟨5, 3, List.replicate 45 200⟩ ⟨2, 1, List.replicate 6 0⟩).getD (filter_dest ⟨5, 3, List.replicate 45 200⟩ ⟨2, 1, List.replicate 6 0⟩ 0 1 + 2) 0 ∧
        (filter_output ⟨5, 3, List.replicate 45 200⟩ ⟨2, 1, List.replicate 6 0⟩).getD (filter_dest ⟨5, 3, List.replicate 45 200⟩ ⟨2, 1, List.replicate 6 0⟩ 0 1 + 2) 0 ≤ hi) ∧
      max 0 (min 1 (channel (filter_result ⟨5, 3, List.replicate 45 200⟩ ⟨2, 1, List.replicate 6 0⟩ 0 1) 2)) =
        channel (filter_result ⟨5, 3, List.replicate 45 200⟩ ⟨2, 1, List.replicate 6 0⟩ 0 1) 2 ∧
      (∀ (src : List Nat) (off k : Nat), (∀ b ∈ src, b ≤ 255) → k < 3 →
        channel_to_uint8 (channel (uint8_to_float src off) k) = src.getD (off + k) 0)) :=
  ⟨⟨rfl, by decide, by decide, by decide!, by decide!, by decide!, by decide!, by decide⟩,
    generate_mips_filter_within_input_range 14 [⟨5, 3, List.replicate 45 200⟩] 0 ⟨5, 3, List.replicate 45 200⟩ rfl (by decide) (by decide)
      (by decide!) (by decide!) (⟨5, 3, List.replicate 45 200⟩, ⟨2, 1, List.replicate 6 0⟩) (by decide!) 0 1 (by decide!) 2 (by decide)⟩

/-! ## Further properties of the samplers -/

/-- At level 0 of a texture with extents at least 1, for every coordinate `uv`, each of
the four texel coordinates that `sample_bilinear` fetches lies inside the `width × height`
grid: `bounce` clamps with `width / 2^0 = width`. -/
theorem bilinear_texel_coords_level_zero_in_range {K : Type} [LinearOrderedField K]
    [FloorRing K] (t : Texture) (uv : Vector2D K) (hW : 1 ≤ t.width) (hH : 1 ≤ t.height) :
    ∀ p ∈ t.bilinear_texel_coords uv 0,
      0 ≤ p.1 ∧ p.1 < (t.width : Int) ∧ 0 ≤ p.2 ∧ p.2 < (t.height : Int) := by
  intro p hp
  simp only [Texture.bilinear_texel_coords, Texture.bilinear_points, Texture.bounce,
    zpow_zero, div_one, List.mem_cons, List.mem_singleton, List.not_mem_nil, or_false] at hp
  rcases hp with rfl | rfl | rfl | rfl
  · exact ⟨(floor_clamp_range _ _ hW).1, (floor_clamp_range _ _ hW).2,
      (floor_clamp_range _ _ hH).1, (floor_clamp_range _ _ hH).2⟩
  · exact ⟨(floor_clamp_range _ _ hW).1, (floor_clamp_range _ _ hW).2,
      (floor_clamp_range _ _ hH).1, (floor_clamp_range _ _ hH).2⟩
  · exact ⟨(floor_clamp_range _ _ hW).1, (floor_clamp_range _ _ hW).2,
      (floor_clamp_range _ _ hH).1, (floor_clamp_range _ _ hH).2⟩
  · exact ⟨(floor_clamp_range _ _ hW).1, (floor_clamp_range _ _ hW).2,
      (floor_clamp_range _ _ hH).1, (floor_clamp_range _ _ hH).2⟩

theorem bilinear_texel_coords_level_zero_in_range_witness :
    (1 ≤ 2 ∧ 1 ≤ 2) ∧
    ∀ p ∈ Texture.bilinear_texel_coords (K := ℚ) ⟨2, 2, [⟨2, 2, List.replicate 12 9⟩]⟩
        ⟨7, -3⟩ 0,
      0 ≤ p.1 ∧ p.1 < ((2 : Nat) : Int) ∧ 0 ≤ p.2 ∧ p.2 < ((2 : Nat) : Int) :=
  ⟨⟨by decide, by decide⟩,
    bilinear_texel_coords_level_zero_in_range ⟨2, 2, [⟨2, 2, List.replicate 12 9⟩]⟩ ⟨7, -3⟩
      (by decide) (by decide)⟩

/-- At level 0, the texel index that `sample_nearest` passes to `get_texel` lies inside
the `width × height` grid exactly when the scaled coordinate is below `extent - 1/2` on
each axis, for a scaled coordinate that is not negative: there is no clamp, so
`u * width ≥ width - 1/2` rounds to the index `width` or beyond. -/
theorem nearest_texel_coord_in_range_iff {K : Type} [LinearOrderedField K] [FloorRing K]
    (t : Texture) (uv : Vector2D K) (hx : 0 ≤ uv.x * (t.width : K))
    (hy : 0 ≤ uv.y * (t.height : K)) :
    (0 ≤ (t.nearest_texel_coord uv 0).1 ∧ (t.nearest_texel_coord uv 0).1 < (t.width : Int) ∧
      0 ≤ (t.nearest_texel_coord uv 0).2 ∧
      (t.nearest_texel_coord uv 0).2 < (t.height : Int)) ↔
    (uv.x * (t.width : K) < (t.width : K) - 1 / 2 ∧
      uv.y * (t.height : K) < (t.height : K) - 1 / 2) := by
  have key : ∀ (x : K) (W : Nat), 0 ≤ x →
      ((0 ≤ cround x ∧ cround x < (W : Int)) ↔ x < (W : K) - 1 / 2) := by
    intro x W h0
    have hc : cround x = ⌊x + 1 / 2⌋ := by
      unfold cround
      rw [if_pos h0]
    rw [hc, Int.floor_lt]
    have hn : 0 ≤ ⌊x + 1 / 2⌋ := Int.floor_nonneg.2 (by linarith)
    push_cast
    constructor
    · rintro ⟨_, h⟩
      linarith
    · intro h
      exact ⟨hn, by linarith⟩
  simp only [Texture.nearest_texel_coord, zpow_zero, div_one]
  rw [← key _ _ hx, ← key _ _ hy]
  tauto

theorem nearest_texel_coord_in_range_iff_witness :
    ((0 : ℚ) ≤ (1 / 2 : ℚ) * ((2 : Nat) : ℚ) ∧ (0 : ℚ) ≤ (1 / 4 : ℚ) * ((2 : Nat) : ℚ)) ∧
    ((0 ≤ (Texture.nearest_texel_coord (K := ℚ) ⟨2, 2, [⟨2, 2, List.replicate 12 9⟩]⟩
          ⟨1 / 2, 1 / 4⟩ 0).1 ∧
        (Texture.nearest_texel_coord (K := ℚ) ⟨2, 2, [⟨2, 2, List.replicate 12 9⟩]⟩
          ⟨1 / 2, 1 / 4⟩ 0).1 < ((2 : Nat) : Int) ∧
        0 ≤ (Texture.nearest_texel_coord (K := ℚ) ⟨2, 2, [⟨2, 2, List.replicate 12 9⟩]⟩
          ⟨1 / 2, 1 / 4⟩ 0).2 ∧
        (Texture.nearest_texel_coord (K := ℚ) ⟨2, 2, [⟨2, 2, List.replicate 12 9⟩]⟩
          ⟨1 / 2, 1 / 4⟩ 0).2 < ((2 : Nat) : Int)) ↔
      ((1 / 2 : ℚ) * ((2 : Nat) : ℚ) < ((2 : Nat) : ℚ) - 1 / 2 ∧
        (1 / 4 : ℚ) * ((2 : Nat) : ℚ) < ((2 : Nat) : ℚ) - 1 / 2)) :=
  ⟨⟨by norm_num, by norm_num⟩,
    nearest_texel_coord_in_range_iff ⟨2, 2, [⟨2, 2, List.replicate 12 9⟩]⟩ ⟨1 / 2, 1 / 4⟩
      (by norm_num) (by norm_num)⟩

end CGL
